import Mathlib

/-!
# Betting-market evaluators (graphene::chain)

A shallow embedding of `libraries/chain/betting_market_evaluator.cpp`.

* Objects of the store are records, the store (`database`) is a record of tables.
* A pointer into the store that an evaluator keeps between `do_evaluate` and
  `do_apply` (`_betting_market_group`, ...) is the id of the object; reading a
  field through the pointer looks the object up in the current store.
* `FC_ASSERT` and a failing `id(db)` lookup throw: `do_evaluate` returns `Except`.
* `database::place_bet` (the matching engine) is not part of this file's source:
  it is a parameter `place_bet : database → bet_object → database`, and every
  call made by an evaluator is recorded in a ghost trace.
-/

namespace graphene.chain

/-! ## Basic types -/

/-- Amounts are `fc::safe<int64_t>`; no evaluator here computes on them except by comparison
and negation. -/
abbrev share_type := Int

/-- Odds, `uint32_t` in the source; only compared and reduced modulo an increment. -/
abbrev bet_multiplier_type := Nat

abbrev account_id_type := Nat
abbrev asset_id_type := Nat
abbrev event_id_type := Nat
abbrev betting_market_rules_id_type := Nat
abbrev betting_market_group_id_type := Nat
abbrev betting_market_id_type := Nat
abbrev bet_id_type := Nat

/-- Seconds since the epoch, stored in 32 bits (`fc::time_point_sec`). -/
structure time_point_sec where
  sec_since_epoch : Nat
deriving DecidableEq, Repr

/-- Addition `time_point_sec + uint32_t`: 32-bit unsigned addition of the seconds. -/
def time_point_sec.add (t : time_point_sec) (offset : Nat) : time_point_sec :=
  ⟨(t.sec_since_epoch + offset) % 2 ^ 32⟩

/-- An untyped object id: `space()`, `type()` and `instance()`. -/
structure object_id_type where
  space : Nat
  type : Nat
  instance_number : Nat
deriving DecidableEq, Repr

structure asset where
  amount : share_type
  asset_id : asset_id_type
deriving DecidableEq, Repr

/-- Unary minus of an `asset`: negates the amount, keeps the asset id. -/
def asset.neg (a : asset) : asset := { a with amount := -a.amount }

inductive bet_type where
  | back
  | lay
deriving DecidableEq, Repr

abbrev internationalized_string_type := List (String × String)

/-! ## Objects of the store -/

structure account_object where
  id : account_id_type
deriving DecidableEq, Repr

structure asset_object where
  id : asset_id_type
deriving DecidableEq, Repr

structure account_balance_object where
  owner : account_id_type
  asset_type : asset_id_type
  balance : share_type
deriving DecidableEq, Repr

structure betting_market_rules_object where
  id : betting_market_rules_id_type
  name : internationalized_string_type
  description : internationalized_string_type
deriving DecidableEq, Repr

structure betting_market_group_object where
  id : betting_market_group_id_type
  description : internationalized_string_type
  event_id : event_id_type
  rules_id : betting_market_rules_id_type
  asset_id : asset_id_type
  frozen : Bool
  delay_bets : Bool
deriving DecidableEq, Repr

structure betting_market_object where
  id : betting_market_id_type
  group_id : betting_market_group_id_type
  description : internationalized_string_type
  payout_condition : internationalized_string_type
deriving DecidableEq, Repr

structure bet_object where
  id : bet_id_type
  bettor_id : account_id_type
  betting_market_id : betting_market_id_type
  amount_to_bet : asset
  backer_multiplier : bet_multiplier_type
  back_or_lay : bet_type
  end_of_delay : Option time_point_sec
deriving DecidableEq, Repr

/-- The chain parameters the evaluators read.  `permitted_betting_odds_increments` is a
`flat_map<bet_multiplier_type, bet_multiplier_type>`: its entries in ascending key order. -/
structure chain_parameters where
  min_bet_multiplier : bet_multiplier_type
  max_bet_multiplier : bet_multiplier_type
  permitted_betting_odds_increments : List (bet_multiplier_type × bet_multiplier_type)
  live_betting_delay_time : Nat
deriving DecidableEq, Repr

structure global_property_object where
  parameters : chain_parameters
deriving DecidableEq, Repr

/-- The object store.  `bets` lists the bet objects in the order of the `by_odds` index;
`next_*` are the instance numbers the next created object of each kind receives. -/
structure database where
  head_block_time : time_point_sec
  global_properties : global_property_object
  events : List event_id_type
  assets : List asset_object
  account_balances : List account_balance_object
  betting_market_rules : List betting_market_rules_object
  betting_market_groups : List betting_market_group_object
  betting_markets : List betting_market_object
  bets : List bet_object
  next_betting_market_rules_id : Nat
  next_betting_market_group_id : Nat
  next_betting_market_id : Nat
  next_bet_id : Nat
deriving DecidableEq, Repr

/-- What a failed evaluation reports (the triggers of the error-handling design). -/
inductive evaluation_error where
  | reference_not_found
  | wrong_reference_type
  | not_a_proposal
  | nothing_to_update
  | redundant_no_op
  | asset_mismatch
  | market_frozen
  | unauthorized_asset
  | odds_out_of_range
  | odds_not_on_increment
  | non_positive_amount
  | insufficient_balance
  | cancel_foreign_bet
  | resolution_invalid
  | invalid_iterator
  | division_by_zero
  | duplicate_proposed_operation
deriving DecidableEq, Repr

/-- The macro `FC_ASSERT(cond, ...)`: throws when the condition is false. -/
def fc_assert (cond : Bool) (e : evaluation_error) : Except evaluation_error Unit :=
  if cond then .ok () else .error e

/-- Whether an evaluation returned without throwing. -/
def succeeded {α : Type} : Except evaluation_error α → Bool
  | .ok _ => true
  | .error _ => false

/-! ## Store lookups -/

def database.find_asset (d : database) (id : asset_id_type) : Option asset_object :=
  d.assets.find? (fun a => a.id == id)

def database.find_betting_market_rules (d : database) (id : betting_market_rules_id_type) :
    Option betting_market_rules_object :=
  d.betting_market_rules.find? (fun r => r.id == id)

def database.find_betting_market_group (d : database) (id : betting_market_group_id_type) :
    Option betting_market_group_object :=
  d.betting_market_groups.find? (fun g => g.id == id)

def database.find_betting_market (d : database) (id : betting_market_id_type) :
    Option betting_market_object :=
  d.betting_markets.find? (fun m => m.id == id)

def database.find_bet (d : database) (id : bet_id_type) : Option bet_object :=
  d.bets.find? (fun b => b.id == id)

/-- The call `id(db)`: the object with that id, or an exception when there is none. -/
def deref {α : Type} (o : Option α) : Except evaluation_error α :=
  match o with
  | some x => .ok x
  | none => .error .reference_not_found

def database.get_global_properties (d : database) : global_property_object :=
  d.global_properties

/-! ## Balance ledger -/

/-- Modelled from the spec: the balance interface `get_balance(account, asset) → amount`
(`database::get_balance` is defined outside this file's source).  The balance of the
account's balance object for that asset, zero when the account has none. -/
def database.get_balance (d : database) (owner : account_id_type) (asset_id : asset_id_type) :
    asset :=
  match d.account_balances.find? (fun b => b.owner == owner && b.asset_type == asset_id) with
  | some b => ⟨b.balance, asset_id⟩
  | none => ⟨0, asset_id⟩

/-- Adds `delta` to the first balance object of `(owner, asset_type)`. -/
def adjust_first (owner : account_id_type) (delta : asset) :
    List account_balance_object → List account_balance_object
  | [] => []
  | b :: bs =>
    if b.owner == owner && b.asset_type == delta.asset_id then
      { b with balance := b.balance + delta.amount } :: bs
    else b :: adjust_first owner delta bs

/-- Modelled from the spec: the balance interface `adjust_balance(account, signed_amount)`
(`database::adjust_balance` is defined outside this file's source).  A zero delta changes
nothing; a debit that the balance does not cover throws; a credit to an account without a
balance object creates the object. -/
def database.adjust_balance (d : database) (account : account_id_type) (delta : asset) :
    Option database :=
  if delta.amount = 0 then some d
  else
    match d.account_balances.find? (fun b => b.owner == account && b.asset_type == delta.asset_id) with
    | none =>
      if 0 < delta.amount then
        some { d with account_balances :=
                 d.account_balances ++ [⟨account, delta.asset_id, delta.amount⟩] }
      else none
    | some b =>
      if delta.amount < 0 ∧ b.balance < -delta.amount then none
      else some { d with account_balances := adjust_first account delta d.account_balances }

/-! ## Odds increment schedule -/

/-- The entry `flat_map::upper_bound(m)` points at: the first entry, in key order, whose key
is strictly greater than `m`; `none` stands for `end()`. -/
def upper_bound (incs : List (bet_multiplier_type × bet_multiplier_type))
    (m : bet_multiplier_type) : Option (bet_multiplier_type × bet_multiplier_type) :=
  incs.find? (fun e => decide (m < e.1))

/-- The increment `bet_place_evaluator::do_evaluate` selects for a multiplier: the value
at `upper_bound(m)`, or the value of `std::prev(end())` when `upper_bound` is `end()`.
`none` when `std::prev(end())` would be read on an empty map. -/
def allowed_increment (incs : List (bet_multiplier_type × bet_multiplier_type))
    (m : bet_multiplier_type) : Option bet_multiplier_type :=
  match upper_bound incs m with
  | some e => some e.2
  | none => incs.getLast?.map (fun e => e.2)

/-- Unsigned `a % b`; undefined (here: a fault) when `b = 0`. -/
def checked_mod (a b : Nat) : Except evaluation_error Nat :=
  if b = 0 then .error .division_by_zero else .ok (a % b)

/-! ## bet_place -/

structure bet_place_operation where
  bettor_id : account_id_type
  betting_market_id : betting_market_id_type
  amount_to_bet : asset
  backer_multiplier : bet_multiplier_type
  back_or_lay : bet_type
deriving DecidableEq, Repr

/-- The members `bet_place_evaluator::do_evaluate` leaves for `do_apply`.  The pointers
`_betting_market`, `_betting_market_group`, `_asset` and `fee_paying_account` are kept as
the ids of the objects they point to; `_current_params` points at
`d.get_global_properties().parameters` and is read from the store. -/
structure bet_place_evaluator where
  fee_paying_account : account_object
  _betting_market : betting_market_id_type
  _betting_market_group : betting_market_group_id_type
  _asset : asset_id_type
deriving DecidableEq, Repr

/-- The odds-increment check of `bet_place_evaluator::do_evaluate` (source lines 285-294). -/
def check_odds_increment (params : chain_parameters) (backer_multiplier : bet_multiplier_type) :
    Except evaluation_error Unit :=
  if !params.permitted_betting_odds_increments.isEmpty then
    match allowed_increment params.permitted_betting_odds_increments backer_multiplier with
    | none => .error .invalid_iterator
    | some inc => do
      let r ← checked_mod backer_multiplier inc
      fc_assert (r == 0) .odds_not_on_increment
  else .ok ()

/-- Source function `bet_place_evaluator::do_evaluate`.  `is_authorized_asset` is the predicate of
`is_authorized_asset.hpp`; `fee_paying_account` is the account the evaluator framework
resolved before calling. -/
def bet_place_evaluator.do_evaluate
    (is_authorized_asset : database → account_object → asset_object → Bool)
    (d : database) (fee_paying_account : account_object) (op : bet_place_operation) :
    Except evaluation_error bet_place_evaluator := do
  let _betting_market ← deref (d.find_betting_market op.betting_market_id)
  let _betting_market_group ← deref (d.find_betting_market_group _betting_market.group_id)
  fc_assert (op.amount_to_bet.asset_id == _betting_market_group.asset_id) .asset_mismatch
  fc_assert (!_betting_market_group.frozen) .market_frozen
  let _asset ← deref (d.find_asset _betting_market_group.asset_id)
  fc_assert (is_authorized_asset d fee_paying_account _asset) .unauthorized_asset
  let _current_params := d.get_global_properties.parameters
  fc_assert (decide (op.backer_multiplier ≥ _current_params.min_bet_multiplier) &&
             decide (op.backer_multiplier ≤ _current_params.max_bet_multiplier)) .odds_out_of_range
  check_odds_increment _current_params op.backer_multiplier
  fc_assert (decide (op.amount_to_bet.amount > 0)) .non_positive_amount
  fc_assert (decide ((d.get_balance fee_paying_account.id _asset.id).amount ≥ op.amount_to_bet.amount))
    .insufficient_balance
  return { fee_paying_account := fee_paying_account
           _betting_market := _betting_market.id
           _betting_market_group := _betting_market_group.id
           _asset := _asset.id }

/-! ## The by_odds index of bets -/

/-- Modelled from the spec: the order of the book part of the `by_odds` index, "(side, price,
insertion sequence)"; the comparator is declared outside this file's source. -/
def book_less (lhs rhs : bet_object) : Bool :=
  if lhs.back_or_lay != rhs.back_or_lay then lhs.back_or_lay == bet_type.back
  else if lhs.backer_multiplier != rhs.backer_multiplier then
    decide (lhs.backer_multiplier < rhs.backer_multiplier)
  else decide (lhs.id < rhs.id)

/-- Modelled from the spec: the comparator of the `by_odds` index (declared in
`betting_market_object.hpp`, outside this file's source), which "orders by (is_delayed,
end_of_delay, side, price, insertion_seq) so that delayed bets sort together at the front". -/
def compare_bet_by_odds (lhs rhs : bet_object) : Bool :=
  match lhs.end_of_delay, rhs.end_of_delay with
  | some _, none => true
  | none, some _ => false
  | some l, some r =>
    if l.sec_since_epoch != r.sec_since_epoch then decide (l.sec_since_epoch < r.sec_since_epoch)
    else book_less lhs rhs
  | none, none => book_less lhs rhs

/-- Insertion of an object into the ordered index: before the first element it sorts
before. -/
def by_odds_insert (b : bet_object) : List bet_object → List bet_object
  | [] => [b]
  | x :: xs => if compare_bet_by_odds b x then b :: x :: xs else x :: by_odds_insert b xs

/-- Modelled from the spec: the call `d.create<bet_object>(init)` of the object store (the
generic object database is outside this file's source): the new object gets the next
instance number and is sorted into the index. -/
def database.create_bet (d : database) (init : bet_object) : database :=
  { d with bets := by_odds_insert { init with id := d.next_bet_id } d.bets
           next_bet_id := d.next_bet_id + 1 }

/-- Modelled from the spec: the call `d.modify(bet, f)` of the object store (outside this
file's source) on a bet: the object is changed in place and, since "mutating end_of_delay
must re-insert the element", sorted into the index again. -/
def database.modify_bet (d : database) (id : bet_id_type) (f : bet_object → bet_object) :
    database :=
  match d.find_bet id with
  | none => d
  | some b => { d with bets := by_odds_insert (f b) (d.bets.eraseP (fun x => x.id == id)) }

/-- An iterator of the index is the id of the element it points at; `none` is `end()`.
This is `begin()`. -/
def bet_index_begin (bets : List bet_object) : Option bet_id_type :=
  bets.head?.map (fun b => b.id)

/-- The iterator `++it` yields, for an iterator at the element with this id. -/
def bet_index_next (bets : List bet_object) (id : bet_id_type) : Option bet_id_type :=
  ((bets.dropWhile (fun b => b.id != id)).drop 1).head?.map (fun b => b.id)

/-- The loop condition `bet_iter == end() || !bet_iter->end_of_delay`. -/
def bet_iter_last (bets : List bet_object) (it : Option bet_id_type) : Bool :=
  match it with
  | none => true
  | some id =>
    match bets.find? (fun b => b.id == id) with
    | none => true
    | some b => b.end_of_delay.isNone

/-- Changes the first element satisfying `p`. -/
def update_first {α : Type} (p : α → Bool) (f : α → α) : List α → List α
  | [] => []
  | x :: xs => if p x then f x :: xs else x :: update_first p f xs

/-- A write to a field of a stored group object. -/
def database.modify_betting_market_group (d : database) (id : betting_market_group_id_type)
    (f : betting_market_group_object → betting_market_group_object) : database :=
  { d with betting_market_groups := update_first (fun g => g.id == id) f d.betting_market_groups }

/-- The store together with the ghost trace of the calls `d.place_bet(bet)` made so far:
the bet objects as they were stored at the moment of each call, in call order. -/
structure apply_state where
  db : database
  place_bet_calls : List bet_object

/-- The call `d.place_bet(bet)`: `bet` is the stored object the reference designates, as it
is stored at the moment of the call. -/
def call_place_bet (place_bet : database → bet_object → database) (s : apply_state)
    (bet : bet_object) : apply_state :=
  { db := place_bet s.db bet, place_bet_calls := s.place_bet_calls ++ [bet] }

/-! ## bet_place: apply -/

/-- Modelled from the spec: `bet_place_operation::fee_payer()` (declared outside this file's
source); the account that pays for, and is debited by, a bet placement is the bettor
("Apply debits the bettor by the full amount"). -/
def bet_place_operation.fee_payer (op : bet_place_operation) : account_id_type := op.bettor_id

/-- The object the lambda of `d.create<bet_object>` initialises (source lines 309-317), with
the id the store assigns to it. -/
def bet_place_evaluator.new_bet (group : betting_market_group_object) (d : database)
    (op : bet_place_operation) : bet_object :=
  { id := d.next_bet_id
    bettor_id := op.bettor_id
    betting_market_id := op.betting_market_id
    amount_to_bet := op.amount_to_bet
    backer_multiplier := op.backer_multiplier
    back_or_lay := op.back_or_lay
    end_of_delay :=
      if group.delay_bets then
        some (d.head_block_time.add d.get_global_properties.parameters.live_betting_delay_time)
      else none }

/-- Source function `bet_place_evaluator::do_apply`.  Returns the new bet id, the store and the trace of
`place_bet` calls; `none` when a pointer left by `do_evaluate` dangles or `adjust_balance`
throws.  `new_bet` still designates the object as created when `place_bet` is called:
`adjust_balance` only touches balance objects. -/
def bet_place_evaluator.do_apply (place_bet : database → bet_object → database)
    (ev : bet_place_evaluator) (d : database) (op : bet_place_operation) :
    Option (bet_id_type × apply_state) := do
  let g ← d.find_betting_market_group ev._betting_market_group
  let new_bet := bet_place_evaluator.new_bet g d op
  let d1 := d.create_bet new_bet
  let new_bet_id := new_bet.id
  let d2 ← d1.adjust_balance ev.fee_paying_account.id op.amount_to_bet.neg
  let g2 ← d2.find_betting_market_group ev._betting_market_group
  if !g2.delay_bets || decide (d2.get_global_properties.parameters.live_betting_delay_time ≤ 0) then
    some (new_bet_id, call_place_bet place_bet { db := d2, place_bet_calls := [] } new_bet)
  else
    some (new_bet_id, { db := d2, place_bet_calls := [] })

/-! ## Relative ids and untyped lookups -/

def relative_protocol_ids : Nat := 0
def protocol_ids : Nat := 1

/-- Modelled from the spec: the type tags of the identifiers ("a pair (space, type, serial)
where space and type tag the entity kind"); the enumeration is declared in `types.hpp`,
outside this file's source.  Only their being distinct is used. -/
def asset_object_type : Nat := 3
def event_object_type : Nat := 22
def betting_market_rules_object_type : Nat := 23
def betting_market_group_object_type : Nat := 24
def betting_market_object_type : Nat := 25
def bet_object_type : Nat := 26

def is_relative (o : object_id_type) : Bool := o.space == relative_protocol_ids

inductive operation_result where
  | void_result
  | object_id (id : object_id_type)
  | asset_result (a : asset)
deriving DecidableEq, Repr

structure transaction_evaluation_state where
  _is_proposed_trx : Bool
  operation_results : List operation_result
deriving DecidableEq, Repr

/-- Modelled from the spec: `get_relative_id` of the evaluator framework (outside this
file's source): a relative id with serial `N` resolves to "the object created by the N-th
operation in this same transaction"; it throws when there is no such object. -/
def get_relative_id (trx_state : transaction_evaluation_state) (rel_id : object_id_type) :
    Except evaluation_error object_id_type :=
  match trx_state.operation_results.get? rel_id.instance_number with
  | some (operation_result.object_id id) => .ok id
  | _ => .error .reference_not_found

/-- The call `d.find_object(id)` for an untyped id, as a found / not found answer. -/
def database.find_object (d : database) (id : object_id_type) : Bool :=
  if id.space == protocol_ids then
    if id.type == asset_object_type then (d.find_asset id.instance_number).isSome
    else if id.type == event_object_type then d.events.contains id.instance_number
    else if id.type == betting_market_rules_object_type then
      (d.find_betting_market_rules id.instance_number).isSome
    else if id.type == betting_market_group_object_type then
      (d.find_betting_market_group id.instance_number).isSome
    else if id.type == betting_market_object_type then
      (d.find_betting_market id.instance_number).isSome
    else if id.type == bet_object_type then (d.find_bet id.instance_number).isSome
    else false
  else false

/-- An id is resolved when relative (source lines 78-80, 92-94, 133-135, 202-204, 237-239). -/
def resolve_id (trx_state : transaction_evaluation_state) (id : object_id_type) :
    Except evaluation_error object_id_type :=
  if is_relative id then get_relative_id trx_state id else .ok id

/-- The assertion that a resolved id has the space and type of the required id type. -/
def has_type (id : object_id_type) (type_id : Nat) : Bool :=
  id.space == protocol_ids && id.type == type_id

/-! ## Rules: create and update (validation) -/

structure betting_market_rules_create_operation where
  name : internationalized_string_type
  description : internationalized_string_type
deriving DecidableEq, Repr

/-- Source function `betting_market_rules_create_evaluator::do_evaluate`. -/
def betting_market_rules_create_evaluator.do_evaluate (trx_state : transaction_evaluation_state)
    (_d : database) (_op : betting_market_rules_create_operation) :
    Except evaluation_error Unit := do
  fc_assert trx_state._is_proposed_trx .not_a_proposal
  return ()

structure betting_market_rules_update_operation where
  betting_market_rules_id : betting_market_rules_id_type
  new_name : Option internationalized_string_type
  new_description : Option internationalized_string_type
deriving DecidableEq, Repr

structure betting_market_rules_update_evaluator where
  _rules : betting_market_rules_id_type
deriving DecidableEq, Repr

/-- Source function `betting_market_rules_update_evaluator::do_evaluate`. -/
def betting_market_rules_update_evaluator.do_evaluate (trx_state : transaction_evaluation_state)
    (d : database) (op : betting_market_rules_update_operation) :
    Except evaluation_error betting_market_rules_update_evaluator := do
  fc_assert trx_state._is_proposed_trx .not_a_proposal
  let _rules ← deref (d.find_betting_market_rules op.betting_market_rules_id)
  fc_assert (op.new_name.isSome || op.new_description.isSome) .nothing_to_update
  return { _rules := _rules.id }

/-! ## Group: create and update -/

structure betting_market_group_create_operation where
  description : internationalized_string_type
  event_id : object_id_type
  rules_id : object_id_type
  asset_id : asset_id_type
deriving DecidableEq, Repr

structure betting_market_group_create_evaluator where
  _event_id : event_id_type
  _rules_id : betting_market_rules_id_type
deriving DecidableEq, Repr

/-- Source function `betting_market_group_create_evaluator::do_evaluate`. -/
def betting_market_group_create_evaluator.do_evaluate (trx_state : transaction_evaluation_state)
    (d : database) (op : betting_market_group_create_operation) :
    Except evaluation_error betting_market_group_create_evaluator := do
  fc_assert trx_state._is_proposed_trx .not_a_proposal
  let resolved_event_id ← resolve_id trx_state op.event_id
  fc_assert (has_type resolved_event_id event_object_type) .wrong_reference_type
  let _event_id : event_id_type := resolved_event_id.instance_number
  fc_assert (d.find_object ⟨protocol_ids, event_object_type, _event_id⟩) .reference_not_found
  fc_assert (d.find_object ⟨protocol_ids, asset_object_type, op.asset_id⟩) .reference_not_found
  let resolved_rules_id ← resolve_id trx_state op.rules_id
  fc_assert (has_type resolved_rules_id betting_market_rules_object_type) .wrong_reference_type
  let _rules_id : betting_market_rules_id_type := resolved_rules_id.instance_number
  fc_assert (d.find_object ⟨protocol_ids, betting_market_rules_object_type, _rules_id⟩)
    .reference_not_found
  return { _event_id := _event_id, _rules_id := _rules_id }

structure betting_market_group_update_operation where
  betting_market_group_id : betting_market_group_id_type
  new_description : Option internationalized_string_type
  new_rules_id : Option object_id_type
  freeze : Option Bool
  delay_bets : Option Bool
deriving DecidableEq, Repr

/-- The members of `betting_market_group_update_evaluator`: the pointer
`_betting_market_group` as the id of the group, and `_rules_id` (a default-constructed id
until `do_evaluate` assigns it). -/
structure betting_market_group_update_evaluator where
  _betting_market_group : betting_market_group_id_type
  _rules_id : betting_market_rules_id_type
deriving DecidableEq, Repr

/-- The block of `do_evaluate` guarded by `op.new_rules_id.valid()` (source lines 129-142):
the value it leaves in `_rules_id`. -/
def evaluate_new_rules_id (trx_state : transaction_evaluation_state) (d : database)
    (new_rules_id : Option object_id_type) : Except evaluation_error betting_market_rules_id_type :=
  match new_rules_id with
  | none => .ok 0
  | some id => do
    let resolved_rules_id ← resolve_id trx_state id
    fc_assert (has_type resolved_rules_id betting_market_rules_object_type) .wrong_reference_type
    let _rules_id : betting_market_rules_id_type := resolved_rules_id.instance_number
    fc_assert (d.find_object ⟨protocol_ids, betting_market_rules_object_type, _rules_id⟩)
      .reference_not_found
    return _rules_id

/-- Source function `betting_market_group_update_evaluator::do_evaluate`. -/
def betting_market_group_update_evaluator.do_evaluate (trx_state : transaction_evaluation_state)
    (d : database) (op : betting_market_group_update_operation) :
    Except evaluation_error betting_market_group_update_evaluator := do
  fc_assert trx_state._is_proposed_trx .not_a_proposal
  let _betting_market_group ← deref (d.find_betting_market_group op.betting_market_group_id)
  fc_assert (op.new_description.isSome || op.new_rules_id.isSome || op.freeze.isSome ||
             op.delay_bets.isSome) .nothing_to_update
  let _rules_id ← evaluate_new_rules_id trx_state d op.new_rules_id
  if let some freeze := op.freeze then
    fc_assert (_betting_market_group.frozen != freeze) .redundant_no_op
  if let some delay_bets := op.delay_bets then
    fc_assert (_betting_market_group.delay_bets != delay_bets) .redundant_no_op
  return { _betting_market_group := _betting_market_group.id, _rules_id := _rules_id }

/-- One pass of the body of the flush loop (source lines 175-188) for the iterator `it`,
followed by the remaining passes.  `last` is the loop variable of that name; `fuel` bounds
the number of passes, and running out of it is reported like a thrown exception. -/
def flush_delayed_bets (place_bet : database → bet_object → database)
    (ev : betting_market_group_update_evaluator) (op : betting_market_group_update_operation) :
    Nat → apply_state → Option bet_id_type → Bool → Option apply_state
  | _, s, _, true => some s
  | 0, _, _, false => none
  | fuel + 1, s, it, false =>
    match it with
    | none => none
    | some id =>
      match s.db.find_bet id with
      | none => none
      | some delayed_bet =>
        let bet_iter := bet_index_next s.db.bets id
        let last := bet_iter_last s.db.bets bet_iter
        match s.db.find_betting_market delayed_bet.betting_market_id with
        | none => none
        | some betting_market =>
          match s.db.find_betting_market_group ev._betting_market_group with
          | none => none
          | some group =>
            if betting_market.group_id == op.betting_market_group_id && !group.frozen then
              let d1 := s.db.modify_bet id (fun bet_obj => { bet_obj with end_of_delay := none })
              let s1 := call_place_bet place_bet { s with db := d1 }
                { delayed_bet with end_of_delay := none }
              flush_delayed_bets place_bet ev op fuel s1 bet_iter last
            else flush_delayed_bets place_bet ev op fuel s bet_iter last

/-- The assignments of the lambda passed to `d.modify` (source lines 156-165), in source
order.  The lambda writes to the stored group object itself, so a later read through
`_betting_market_group` sees the fields already written. -/
def betting_market_group_update_evaluator.write_fields
    (ev : betting_market_group_update_evaluator) (d : database)
    (op : betting_market_group_update_operation) : database :=
  let d1 := match op.new_description with
    | some v => d.modify_betting_market_group ev._betting_market_group
        (fun g => { g with description := v })
    | none => d
  let d2 := if op.new_rules_id.isSome then
      d1.modify_betting_market_group ev._betting_market_group
        (fun g => { g with rules_id := ev._rules_id })
    else d1
  let d3 := match op.freeze with
    | some v => d2.modify_betting_market_group ev._betting_market_group
        (fun g => { g with frozen := v })
    | none => d2
  match op.delay_bets with
  | some v => d3.modify_betting_market_group ev._betting_market_group
      (fun g => { g with delay_bets := v })
  | none => d3

/-- Source function `betting_market_group_update_evaluator::do_apply`: the field writes, then, when
`delay_bets` was switched off, the flush loop from `begin()` (source lines 166-190).
`none` when the pointer `_betting_market_group` dangles, the loop throws, or `fuel` passes
do not end it. -/
def betting_market_group_update_evaluator.do_apply (place_bet : database → bet_object → database)
    (fuel : Nat) (ev : betting_market_group_update_evaluator) (d : database)
    (op : betting_market_group_update_operation) : Option apply_state := do
  let _ ← d.find_betting_market_group ev._betting_market_group
  let d4 := betting_market_group_update_evaluator.write_fields ev d op
  match op.delay_bets with
  | none => some { db := d4, place_bet_calls := [] }
  | some v =>
    if !v then
      let bet_iter := bet_index_begin d4.bets
      let last := bet_iter_last d4.bets bet_iter
      flush_delayed_bets place_bet ev op fuel { db := d4, place_bet_calls := [] } bet_iter last
    else some { db := d4, place_bet_calls := [] }

/-! ## Market: create and update (validation) -/

structure betting_market_create_operation where
  group_id : object_id_type
  description : internationalized_string_type
  payout_condition : internationalized_string_type
deriving DecidableEq, Repr

structure betting_market_create_evaluator where
  _group_id : betting_market_group_id_type
deriving DecidableEq, Repr

/-- Source function `betting_market_create_evaluator::do_evaluate`. -/
def betting_market_create_evaluator.do_evaluate (trx_state : transaction_evaluation_state)
    (d : database) (op : betting_market_create_operation) :
    Except evaluation_error betting_market_create_evaluator := do
  fc_assert trx_state._is_proposed_trx .not_a_proposal
  let resolved_betting_market_group_id ← resolve_id trx_state op.group_id
  fc_assert (has_type resolved_betting_market_group_id betting_market_group_object_type)
    .wrong_reference_type
  let _group_id : betting_market_group_id_type := resolved_betting_market_group_id.instance_number
  fc_assert (d.find_object ⟨protocol_ids, betting_market_group_object_type, _group_id⟩)
    .reference_not_found
  return { _group_id := _group_id }

structure betting_market_update_operation where
  betting_market_id : betting_market_id_type
  new_group_id : Option object_id_type
  new_description : Option internationalized_string_type
  new_payout_condition : Option internationalized_string_type
deriving DecidableEq, Repr

structure betting_market_update_evaluator where
  _betting_market : betting_market_id_type
  _group_id : betting_market_group_id_type
deriving DecidableEq, Repr

/-- The block of `do_evaluate` guarded by `op.new_group_id.valid()` (source lines 233-246):
the value it leaves in `_group_id`. -/
def evaluate_new_group_id (trx_state : transaction_evaluation_state) (d : database)
    (new_group_id : Option object_id_type) : Except evaluation_error betting_market_group_id_type :=
  match new_group_id with
  | none => .ok 0
  | some id => do
    let resolved_betting_market_group_id ← resolve_id trx_state id
    fc_assert (has_type resolved_betting_market_group_id betting_market_group_object_type)
      .wrong_reference_type
    let _group_id : betting_market_group_id_type := resolved_betting_market_group_id.instance_number
    fc_assert (d.find_object ⟨protocol_ids, betting_market_group_object_type, _group_id⟩)
      .reference_not_found
    return _group_id

/-- Source function `betting_market_update_evaluator::do_evaluate`. -/
def betting_market_update_evaluator.do_evaluate (trx_state : transaction_evaluation_state)
    (d : database) (op : betting_market_update_operation) :
    Except evaluation_error betting_market_update_evaluator := do
  fc_assert trx_state._is_proposed_trx .not_a_proposal
  let _betting_market ← deref (d.find_betting_market op.betting_market_id)
  fc_assert (op.new_group_id.isSome || op.new_description.isSome ||
             op.new_payout_condition.isSome) .nothing_to_update
  let _group_id ← evaluate_new_group_id trx_state d op.new_group_id
  return { _betting_market := _betting_market.id, _group_id := _group_id }

/-! ## Group resolve and mass cancel (validation) -/

inductive betting_market_resolution_type where
  | win
  | not_win
  | cancel
deriving DecidableEq, Repr

structure betting_market_group_resolve_operation where
  betting_market_group_id : betting_market_group_id_type
  resolutions : List (betting_market_id_type × betting_market_resolution_type)
deriving DecidableEq, Repr

structure betting_market_group_resolve_evaluator where
  _betting_market_group : betting_market_group_id_type
deriving DecidableEq, Repr

/-- Source function `betting_market_group_resolve_evaluator::do_evaluate`.
`validate_betting_market_group_resolutions` is a member of `database` defined outside this
file's source; it is a parameter that says whether the call returns (`true`) or throws. -/
def betting_market_group_resolve_evaluator.do_evaluate
    (validate_betting_market_group_resolutions : database → betting_market_group_object →
      List (betting_market_id_type × betting_market_resolution_type) → Bool)
    (_trx_state : transaction_evaluation_state)
    (d : database) (op : betting_market_group_resolve_operation) :
    Except evaluation_error betting_market_group_resolve_evaluator := do
  let _betting_market_group ← deref (d.find_betting_market_group op.betting_market_group_id)
  fc_assert (validate_betting_market_group_resolutions d _betting_market_group op.resolutions)
    .resolution_invalid
  return { _betting_market_group := _betting_market_group.id }

structure betting_market_group_cancel_unmatched_bets_operation where
  betting_market_group_id : betting_market_group_id_type
deriving DecidableEq, Repr

structure betting_market_group_cancel_unmatched_bets_evaluator where
  _betting_market_group : betting_market_group_id_type
deriving DecidableEq, Repr

/-- Source function `betting_market_group_cancel_unmatched_bets_evaluator::do_evaluate`. -/
def betting_market_group_cancel_unmatched_bets_evaluator.do_evaluate
    (_trx_state : transaction_evaluation_state)
    (d : database) (op : betting_market_group_cancel_unmatched_bets_operation) :
    Except evaluation_error betting_market_group_cancel_unmatched_bets_evaluator := do
  let _betting_market_group ← deref (d.find_betting_market_group op.betting_market_group_id)
  return { _betting_market_group := _betting_market_group.id }

/-! ## Apply phases of the remaining evaluators -/

/-- The untyped id of a typed id: protocol space, the type tag of the id type, the
instance. -/
def object_id (type_id : Nat) (instance_number : Nat) : object_id_type :=
  ⟨protocol_ids, type_id, instance_number⟩

/-- Modelled from the spec: the call `d.create<betting_market_rules_object>(init)` of the
object store (outside this file's source): the new object gets the next instance number. -/
def database.create_betting_market_rules (d : database) (init : betting_market_rules_object) :
    database :=
  { d with
    betting_market_rules :=
      d.betting_market_rules ++ [{ init with id := d.next_betting_market_rules_id }]
    next_betting_market_rules_id := d.next_betting_market_rules_id + 1 }

/-- Modelled from the spec: the call `d.create<betting_market_group_object>(init)` of the
object store (outside this file's source): the new object gets the next instance number. -/
def database.create_betting_market_group (d : database) (init : betting_market_group_object) :
    database :=
  { d with
    betting_market_groups :=
      d.betting_market_groups ++ [{ init with id := d.next_betting_market_group_id }]
    next_betting_market_group_id := d.next_betting_market_group_id + 1 }

/-- Modelled from the spec: the call `d.create<betting_market_object>(init)` of the object
store (outside this file's source): the new object gets the next instance number. -/
def database.create_betting_market (d : database) (init : betting_market_object) : database :=
  { d with
    betting_markets := d.betting_markets ++ [{ init with id := d.next_betting_market_id }]
    next_betting_market_id := d.next_betting_market_id + 1 }

/-- A write to a field of a stored rules object. -/
def database.modify_betting_market_rules (d : database) (id : betting_market_rules_id_type)
    (f : betting_market_rules_object → betting_market_rules_object) : database :=
  { d with betting_market_rules := update_first (fun r => r.id == id) f d.betting_market_rules }

/-- A write to a field of a stored market object. -/
def database.modify_betting_market (d : database) (id : betting_market_id_type)
    (f : betting_market_object → betting_market_object) : database :=
  { d with betting_markets := update_first (fun m => m.id == id) f d.betting_markets }

/-- Source function `betting_market_rules_create_evaluator::do_apply`: the id of the new
object and the store. -/
def betting_market_rules_create_evaluator.do_apply (d : database)
    (op : betting_market_rules_create_operation) : object_id_type × database :=
  (object_id betting_market_rules_object_type d.next_betting_market_rules_id,
   d.create_betting_market_rules { id := 0, name := op.name, description := op.description })

/-- Source function `betting_market_rules_update_evaluator::do_apply`.  `none` when the
pointer `_rules` dangles. -/
def betting_market_rules_update_evaluator.do_apply (ev : betting_market_rules_update_evaluator)
    (d : database) (op : betting_market_rules_update_operation) : Option database := do
  let _ ← d.find_betting_market_rules ev._rules
  let d1 := match op.new_name with
    | some v => d.modify_betting_market_rules ev._rules (fun r => { r with name := v })
    | none => d
  let d2 := match op.new_description with
    | some v => d1.modify_betting_market_rules ev._rules (fun r => { r with description := v })
    | none => d1
  some d2

/-- Source function `betting_market_group_create_evaluator::do_apply`: the id of the new
object and the store. -/
def betting_market_group_create_evaluator.do_apply (ev : betting_market_group_create_evaluator)
    (d : database) (op : betting_market_group_create_operation) : object_id_type × database :=
  (object_id betting_market_group_object_type d.next_betting_market_group_id,
   d.create_betting_market_group
     { id := 0
       event_id := ev._event_id
       rules_id := ev._rules_id
       description := op.description
       asset_id := op.asset_id
       frozen := false
       delay_bets := false })

/-- Source function `betting_market_create_evaluator::do_apply`: the id of the new object
and the store. -/
def betting_market_create_evaluator.do_apply (ev : betting_market_create_evaluator)
    (d : database) (op : betting_market_create_operation) : object_id_type × database :=
  (object_id betting_market_object_type d.next_betting_market_id,
   d.create_betting_market
     { id := 0
       group_id := ev._group_id
       description := op.description
       payout_condition := op.payout_condition })

/-- Source function `betting_market_update_evaluator::do_apply`.  `none` when the pointer
`_betting_market` dangles. -/
def betting_market_update_evaluator.do_apply (ev : betting_market_update_evaluator)
    (d : database) (op : betting_market_update_operation) : Option database := do
  let _ ← d.find_betting_market ev._betting_market
  let d1 := if op.new_group_id.isSome then
      d.modify_betting_market ev._betting_market (fun m => { m with group_id := ev._group_id })
    else d
  let d2 := match op.new_payout_condition with
    | some v => d1.modify_betting_market ev._betting_market
        (fun m => { m with payout_condition := v })
    | none => d1
  let d3 := match op.new_description with
    | some v => d2.modify_betting_market ev._betting_market (fun m => { m with description := v })
    | none => d2
  some d3

/-! ## bet_cancel -/

structure bet_cancel_operation where
  bettor_id : account_id_type
  bet_to_cancel : bet_id_type
deriving DecidableEq, Repr

structure bet_cancel_evaluator where
  _bet_to_cancel : bet_id_type
deriving DecidableEq, Repr

/-- Source function `bet_cancel_evaluator::do_evaluate`. -/
def bet_cancel_evaluator.do_evaluate (d : database) (op : bet_cancel_operation) :
    Except evaluation_error bet_cancel_evaluator := do
  let _bet_to_cancel ← deref (d.find_bet op.bet_to_cancel)
  fc_assert (op.bettor_id == _bet_to_cancel.bettor_id) .cancel_foreign_bet
  return { _bet_to_cancel := _bet_to_cancel.id }

/-- Source function `bet_cancel_evaluator::do_apply`.  `cancel_bet` is a member of `database`
defined outside this file's source, a parameter; `none` when the pointer dangles. -/
def bet_cancel_evaluator.do_apply (cancel_bet : database → bet_object → database)
    (ev : bet_cancel_evaluator) (d : database) (_op : bet_cancel_operation) : Option database := do
  let bet ← d.find_bet ev._bet_to_cancel
  some (cancel_bet d bet)

/-! ## Group resolve and mass cancel: apply -/

/-- Source function `betting_market_group_resolve_evaluator::do_apply`.
`resolve_betting_market_group` is a member of `database` defined outside this file's source,
a parameter; `none` when the pointer dangles. -/
def betting_market_group_resolve_evaluator.do_apply
    (resolve_betting_market_group : database → betting_market_group_object →
      List (betting_market_id_type × betting_market_resolution_type) → database)
    (ev : betting_market_group_resolve_evaluator) (d : database)
    (op : betting_market_group_resolve_operation) : Option database := do
  let g ← d.find_betting_market_group ev._betting_market_group
  some (resolve_betting_market_group d g op.resolutions)

/-- Source function `betting_market_group_cancel_unmatched_bets_evaluator::do_apply`.
`cancel_all_unmatched_bets_on_betting_market_group` is a member of `database` defined
outside this file's source, a parameter; `none` when the pointer dangles. -/
def betting_market_group_cancel_unmatched_bets_evaluator.do_apply
    (cancel_all_unmatched_bets_on_betting_market_group :
      database → betting_market_group_object → database)
    (ev : betting_market_group_cancel_unmatched_bets_evaluator) (d : database)
    (_op : betting_market_group_cancel_unmatched_bets_operation) : Option database := do
  let g ← d.find_betting_market_group ev._betting_market_group
  some (cancel_all_unmatched_bets_on_betting_market_group d g)

/-! ## The operations as one variant, and their host -/

/-- The operations of this file as a tagged variant. -/
inductive operation where
  | betting_market_rules_create (op : betting_market_rules_create_operation)
  | betting_market_rules_update (op : betting_market_rules_update_operation)
  | betting_market_group_create (op : betting_market_group_create_operation)
  | betting_market_group_update (op : betting_market_group_update_operation)
  | betting_market_create (op : betting_market_create_operation)
  | betting_market_update (op : betting_market_update_operation)
  | bet_place (op : bet_place_operation)
  | bet_cancel (op : bet_cancel_operation)
  | betting_market_group_resolve (op : betting_market_group_resolve_operation)
  | betting_market_group_cancel_unmatched_bets
      (op : betting_market_group_cancel_unmatched_bets_operation)
deriving DecidableEq, Repr

/-- The members of `database` and the predicates the evaluators call that are defined
outside this file's source. -/
structure database_members where
  is_authorized_asset : database → account_object → asset_object → Bool
  place_bet : database → bet_object → database
  cancel_bet : database → bet_object → database
  validate_betting_market_group_resolutions : database → betting_market_group_object →
    List (betting_market_id_type × betting_market_resolution_type) → Bool
  resolve_betting_market_group : database → betting_market_group_object →
    List (betting_market_id_type × betting_market_resolution_type) → database
  cancel_all_unmatched_bets_on_betting_market_group :
    database → betting_market_group_object → database

/-- Modelled from the spec: the evaluator framework (outside this file's source), "a
two-phase evaluator: validate (read-only, may fail) and apply (mutates the store)": runs
`do_evaluate` on the store and, when it returns, `do_apply` on the same store.  `none` when
either phase throws. -/
def evaluate_and_apply (db_members : database_members) (fuel : Nat)
    (trx_state : transaction_evaluation_state) (d : database) : operation → Option database
  | .betting_market_rules_create op =>
    match betting_market_rules_create_evaluator.do_evaluate trx_state d op with
    | .error _ => none
    | .ok _ => some (betting_market_rules_create_evaluator.do_apply d op).2
  | .betting_market_rules_update op =>
    match betting_market_rules_update_evaluator.do_evaluate trx_state d op with
    | .error _ => none
    | .ok ev => betting_market_rules_update_evaluator.do_apply ev d op
  | .betting_market_group_create op =>
    match betting_market_group_create_evaluator.do_evaluate trx_state d op with
    | .error _ => none
    | .ok ev => some (betting_market_group_create_evaluator.do_apply ev d op).2
  | .betting_market_group_update op =>
    match betting_market_group_update_evaluator.do_evaluate trx_state d op with
    | .error _ => none
    | .ok ev =>
      (betting_market_group_update_evaluator.do_apply db_members.place_bet fuel ev d op).map
        (fun s => s.db)
  | .betting_market_create op =>
    match betting_market_create_evaluator.do_evaluate trx_state d op with
    | .error _ => none
    | .ok ev => some (betting_market_create_evaluator.do_apply ev d op).2
  | .betting_market_update op =>
    match betting_market_update_evaluator.do_evaluate trx_state d op with
    | .error _ => none
    | .ok ev => betting_market_update_evaluator.do_apply ev d op
  | .bet_place op =>
    match bet_place_evaluator.do_evaluate db_members.is_authorized_asset d ⟨op.fee_payer⟩ op with
    | .error _ => none
    | .ok ev => (bet_place_evaluator.do_apply db_members.place_bet ev d op).map (fun r => r.2.db)
  | .bet_cancel op =>
    match bet_cancel_evaluator.do_evaluate d op with
    | .error _ => none
    | .ok ev => bet_cancel_evaluator.do_apply db_members.cancel_bet ev d op
  | .betting_market_group_resolve op =>
    match betting_market_group_resolve_evaluator.do_evaluate
        db_members.validate_betting_market_group_resolutions trx_state d op with
    | .error _ => none
    | .ok ev =>
      betting_market_group_resolve_evaluator.do_apply db_members.resolve_betting_market_group
        ev d op
  | .betting_market_group_cancel_unmatched_bets op =>
    match betting_market_group_cancel_unmatched_bets_evaluator.do_evaluate trx_state d op with
    | .error _ => none
    | .ok ev =>
      betting_market_group_cancel_unmatched_bets_evaluator.do_apply
        db_members.cancel_all_unmatched_bets_on_betting_market_group ev d op

/-- Modelled from the spec: the host of the evaluators ("on any evaluator failure the host
rolls back the whole transaction"): the store after an operation has been processed. -/
def process_operation (db_members : database_members) (fuel : Nat)
    (trx_state : transaction_evaluation_state) (d : database) (op : operation) : database :=
  match evaluate_and_apply db_members fuel trx_state d op with
  | some d2 => d2
  | none => d

/-! ## The proposal guard -/

/-- Modelled from the spec: a pending `proposal_object` (§4.9), reduced to the operations of
its `proposed_transaction`.  `Op` is the type of operations; equality of operations is
equality of their canonical encodings. -/
structure proposal_object (Op : Type) where
  proposed_transaction : List Op

/-- Modelled from the spec: an operation of an incoming transaction: a `proposal_create`
with the operations it proposes, or any other operation. -/
inductive transaction_operation (Op : Type) where
  | proposal_create (proposed_ops : List Op)
  | other (op : Op)

/-- Modelled from the spec: "all operations inside every existing proposal_object's
proposed_transaction.operations". -/
def existed_operations {Op : Type} (proposals : List (proposal_object Op)) : List Op :=
  (proposals.map (fun p => p.proposed_transaction)).flatten

/-- Modelled from the spec: "all operations inside the incoming transaction's new
proposal_create operations". -/
def proposed_operations {Op : Type} (trx : List (transaction_operation Op)) : List Op :=
  (trx.map (fun o =>
    match o with
    | .proposal_create proposed_ops => proposed_ops
    | .other _ => [])).flatten

/-- Modelled from the spec: the proposal guard `check_tansaction_for_duplicated_operations`
(a member of `database` defined outside this file's source; only its tests are in it): it
"rejects transactions that duplicate operations already in a pending proposal", that is, it
throws when an operation proposed by the incoming transaction is equal to an operation of a
pending proposal. -/
def check_tansaction_for_duplicated_operations {Op : Type} [DecidableEq Op]
    (proposals : List (proposal_object Op)) (trx : List (transaction_operation Op)) :
    Except evaluation_error Unit :=
  fc_assert ((proposed_operations trx).all
      (fun o => !(existed_operations proposals).contains o))
    .duplicate_proposed_operation

/-- The `transfer_operation` the tests of the guard propose, with its fields `from`, `to`
and `amount`. -/
structure transfer_operation where
  from_account : account_id_type
  to_account : account_id_type
  amount : asset
deriving DecidableEq, Repr

/-- The helper `make_transfer_operation` of the tests. -/
def make_transfer_operation (from_account to_account : account_id_type) (amount : asset) :
    transfer_operation :=
  { from_account := from_account, to_account := to_account, amount := amount }

/-! ## The validate phase as a computation on the store -/

/-- A computation of an evaluator on the store it reaches through `db()`: from the store it
starts on, the value it returns or the exception it throws, and the store it leaves. -/
def store_computation (α : Type) : Type := database → Except evaluation_error α × database

/-- Returning a value: the store is left as it is. -/
def store_computation.pure {α : Type} (a : α) : store_computation α := fun d => (.ok a, d)

/-- Sequencing: the second computation starts on the store the first one left; an exception
ends the sequence, on the store reached by then. -/
def store_computation.bind {α β : Type} (x : store_computation α)
    (f : α → store_computation β) : store_computation β :=
  fun d =>
    match x d with
    | (.ok a, d1) => f a d1
    | (.error e, d1) => (.error e, d1)

instance : Monad store_computation where
  pure := store_computation.pure
  bind := store_computation.bind

/-- A call of an accessor of the store that answers from it (`find_object`, `get_balance`,
`get_global_properties`, and the predicates that take the store as an argument): the
answer, on the store as it is. -/
def store_read {α : Type} (f : database → α) : store_computation α := fun d => (.ok (f d), d)

/-- A call of a member of the store that changes it (`create`, `modify`, `adjust_balance`,
`place_bet`, `cancel_bet`, ...): the store it leaves is the changed one. -/
def store_write (f : database → database) : store_computation Unit := fun d => (.ok (), f d)

/-- Source function `betting_market_rules_create_evaluator::do_apply`, call by call on the
store: the one call is `create`, which changes the store. -/
def betting_market_rules_create_evaluator.do_apply_on_store
    (op : betting_market_rules_create_operation) : store_computation object_id_type := do
  let new_id ← store_read
    (fun d => object_id betting_market_rules_object_type d.next_betting_market_rules_id)
  store_write (fun d => d.create_betting_market_rules
    { id := 0, name := op.name, description := op.description })
  return new_id

/-- Strictly ascending keys: the representation invariant of a `flat_map`. -/
def flat_map_sorted (incs : List (bet_multiplier_type × bet_multiplier_type)) : Prop :=
  incs.Pairwise (fun a b => a.1 < b.1)

/-- The bets with `end_of_delay` set, in index order. -/
def delayed_bets (bets : List bet_object) : List bet_object :=
  bets.filter (fun b => b.end_of_delay.isSome)

/-- The index lists every bet with `end_of_delay` set before every bet without it. -/
def delayed_first (bets : List bet_object) : Prop :=
  bets = delayed_bets bets ++ bets.filter (fun b => !b.end_of_delay.isSome)

/-- No two stored bets share an id. -/
def bet_ids_unique (bets : List bet_object) : Prop :=
  (bets.map (fun b => b.id)).Nodup

/-- What the flush theorems assume of the matching engine, which works on the book: placing
a bet that is not delayed leaves markets and groups as they are, keeps bet ids unique and
the delayed bets in front, and neither adds, removes nor changes a delayed bet. -/
def place_bet_frame (place_bet : database → bet_object → database) : Prop :=
  ∀ (d : database) (b : bet_object), b.end_of_delay = none →
    (place_bet d b).betting_markets = d.betting_markets ∧
    (place_bet d b).betting_market_groups = d.betting_market_groups ∧
    (bet_ids_unique d.bets → bet_ids_unique (place_bet d b).bets) ∧
    (delayed_first d.bets → delayed_first (place_bet d b).bets) ∧
    delayed_bets (place_bet d b).bets = delayed_bets d.bets

/-- Whether the market of a bet belongs to the group. -/
def bet_in_group (d : database) (group_id : betting_market_group_id_type) (b : bet_object) : Bool :=
  match d.find_betting_market b.betting_market_id with
  | some m => m.group_id == group_id
  | none => false

/-- Whether the flush loop of `group_update` pushes a delayed bet through: the test of
source line 180, for the group as it is stored when the loop runs. -/
def flushes (d : database) (op : betting_market_group_update_operation)
    (group : betting_market_group_object) (b : bet_object) : Bool :=
  bet_in_group d op.betting_market_group_id b && !group.frozen

/-- The bet object after `end_of_delay.reset()`. -/
def clear_end_of_delay (b : bet_object) : bet_object := { b with end_of_delay := none }

/-- Every stored bet with `end_of_delay` set refers to an existing market. -/
def delayed_bets_have_markets (d : database) : Prop :=
  ∀ b ∈ delayed_bets d.bets, (d.find_betting_market b.betting_market_id).isSome = true

/-- Sum of the balances held in an asset. -/
def total_balance (d : database) (asset_id : asset_id_type) : Int :=
  ((d.account_balances.filter (fun b => b.asset_type == asset_id)).map (fun b => b.balance)).sum

/-- Sum of the amounts escrowed in bets of an asset. -/
def total_escrow (d : database) (asset_id : asset_id_type) : Int :=
  ((d.bets.filter (fun b => b.amount_to_bet.asset_id == asset_id)).map
    (fun b => b.amount_to_bet.amount)).sum

/-- Modelled from the spec: the host of the evaluators ("on any evaluator failure the host
rolls back the whole transaction"), for one `group_update`: validate, then apply; a failure
leaves the store as it was.  The flag says whether the operation was applied. -/
def process_group_update (place_bet : database → bet_object → database) (fuel : Nat)
    (trx_state : transaction_evaluation_state) (d : database)
    (op : betting_market_group_update_operation) : database × Bool :=
  match betting_market_group_update_evaluator.do_evaluate trx_state d op with
  | .error _ => (d, false)
  | .ok ev =>
    match betting_market_group_update_evaluator.do_apply place_bet fuel ev d op with
    | none => (d, false)
    | some s => (s.db, true)

/-- The same operation submitted `n` times in a row: the final store and the flags. -/
def process_group_update_repeated (place_bet : database → bet_object → database) (fuel : Nat)
    (trx_state : transaction_evaluation_state) (op : betting_market_group_update_operation) :
    Nat → database → database × List Bool
  | 0, d => (d, [])
  | n + 1, d =>
    let r := process_group_update place_bet fuel trx_state d op
    let rest := process_group_update_repeated place_bet fuel trx_state op n r.1
    (rest.1, r.2 :: rest.2)

/-- Whether the bet's asset is the asset of the group that owns the bet's market. -/
def bet_matches_group_asset (d : database) (b : bet_object) : Bool :=
  match d.find_betting_market b.betting_market_id with
  | none => false
  | some m =>
    match d.find_betting_market_group m.group_id with
    | none => false
    | some g => b.amount_to_bet.asset_id == g.asset_id

/-- For every bet in the store, the bet's asset equals the `asset_id` of the group that owns
the bet's market. -/
def bets_match_group_asset (d : database) : Prop :=
  ∀ b ∈ d.bets, bet_matches_group_asset d b = true

/-- Referential integrity: every group's `event_id` and `rules_id` refer to existing objects
(an event, a rules object), and every market's `group_id` refers to an existing group. -/
def referential_integrity (d : database) : Prop :=
  (∀ g ∈ d.betting_market_groups,
    d.find_object (object_id event_object_type g.event_id) = true ∧
    d.find_object (object_id betting_market_rules_object_type g.rules_id) = true) ∧
  (∀ m ∈ d.betting_markets,
    d.find_object (object_id betting_market_group_object_type m.group_id) = true)

/-- What the invariant theorems assume of the matching engine: it leaves events, rules,
groups and markets as they are. -/
def place_bet_keeps_catalogue (place_bet : database → bet_object → database) : Prop :=
  ∀ (d : database) (b : bet_object),
    (place_bet d b).events = d.events ∧
    (place_bet d b).betting_market_rules = d.betting_market_rules ∧
    (place_bet d b).betting_market_groups = d.betting_market_groups ∧
    (place_bet d b).betting_markets = d.betting_markets

/-! ## Example stores -/

/-- A store with two groups (group 1 delays bets), one market in each, and two funded
accounts; the odds schedule has ticks of 1 below 200, of 2 below 300 and of 5 from there. -/
def example_db : database :=
  { head_block_time := ⟨1000⟩
    global_properties :=
      { parameters :=
          { min_bet_multiplier := 101
            max_bet_multiplier := 1000
            permitted_betting_odds_increments := [(200, 1), (300, 2), (1000, 5)]
            live_betting_delay_time := 5 } }
    events := [0]
    assets := [⟨0⟩]
    account_balances := [⟨7, 0, 100⟩, ⟨8, 0, 50⟩]
    betting_market_rules := [⟨0, [], []⟩]
    betting_market_groups := [⟨0, [], 0, 0, 0, false, false⟩, ⟨1, [], 0, 0, 0, false, true⟩]
    betting_markets := [⟨0, 0, [], []⟩, ⟨1, 1, [], []⟩]
    bets := []
    next_betting_market_rules_id := 1
    next_betting_market_group_id := 2
    next_betting_market_id := 2
    next_bet_id := 0 }

/-- Account 7 backs market 0 (group 0, not delayed) with 10 units at odds 150. -/
def example_bet_place : bet_place_operation :=
  { bettor_id := 7
    betting_market_id := 0
    amount_to_bet := ⟨10, 0⟩
    backer_multiplier := 150
    back_or_lay := bet_type.back }

/-- Account 8 lays market 1 (group 1, delayed) with 20 units at odds 250. -/
def example_delayed_bet_place : bet_place_operation :=
  { bettor_id := 8
    betting_market_id := 1
    amount_to_bet := ⟨20, 0⟩
    backer_multiplier := 250
    back_or_lay := bet_type.lay }

/-- Every account may transact every asset. -/
def authorize_all : database → account_object → asset_object → Bool := fun _ _ _ => true

/-- The store of `example_db` with odds from 0 and a schedule whose only increment is 0. -/
def zero_increment_db : database :=
  { example_db with
    global_properties :=
      { parameters :=
          { min_bet_multiplier := 0
            max_bet_multiplier := 1000
            permitted_betting_odds_increments := [(10, 0)]
            live_betting_delay_time := 5 } } }

/-- Account 7 backs market 0 with 10 units at odds 0. -/
def zero_odds_bet_place : bet_place_operation :=
  { example_bet_place with backer_multiplier := 0 }

/-- The store `example_db` after account 8 has placed `example_delayed_bet_place`: the bet
waits, delayed, at the front of the index. -/
def delayed_db : database :=
  { example_db with
    account_balances := [⟨7, 0, 100⟩, ⟨8, 0, 30⟩]
    bets := [⟨0, 8, 1, ⟨20, 0⟩, 250, bet_type.lay, some ⟨1005⟩⟩]
    next_bet_id := 1 }

/-- A store with three groups that delay bets (group 3 is frozen as well), one market in
each, three delayed bets on group 1, one on group 2, one on group 3, and one bet of group 1
in the book. -/
def busy_db : database :=
  { example_db with
    betting_market_groups :=
      [⟨0, [], 0, 0, 0, false, false⟩, ⟨1, [], 0, 0, 0, false, true⟩,
       ⟨2, [], 0, 0, 0, false, true⟩, ⟨3, [], 0, 0, 0, true, true⟩]
    betting_markets := [⟨0, 0, [], []⟩, ⟨1, 1, [], []⟩, ⟨2, 2, [], []⟩, ⟨3, 3, [], []⟩]
    bets :=
      [⟨0, 8, 1, ⟨20, 0⟩, 250, bet_type.lay, some ⟨1005⟩⟩,
       ⟨1, 7, 2, ⟨10, 0⟩, 150, bet_type.back, some ⟨1006⟩⟩,
       ⟨2, 7, 1, ⟨10, 0⟩, 250, bet_type.back, some ⟨1007⟩⟩,
       ⟨4, 8, 3, ⟨5, 0⟩, 300, bet_type.lay, some ⟨1008⟩⟩,
       ⟨5, 8, 1, ⟨5, 0⟩, 400, bet_type.lay, some ⟨1009⟩⟩,
       ⟨3, 7, 1, ⟨10, 0⟩, 150, bet_type.back, none⟩]
    next_betting_market_group_id := 4
    next_betting_market_id := 4
    next_bet_id := 6 }

/-- A matching engine that fills every bet it is handed completely: the bet leaves the
book. -/
def fill_completely (d : database) (b : bet_object) : database :=
  { d with bets := d.bets.filter (fun x => x.end_of_delay.isSome || x.id != b.id) }

/-- The store of `example_db` with `live_betting_delay_time = 0`. -/
def zero_delay_db : database :=
  { example_db with
    global_properties :=
      { parameters :=
          { min_bet_multiplier := 101
            max_bet_multiplier := 1000
            permitted_betting_odds_increments := [(200, 1), (300, 2), (1000, 5)]
            live_betting_delay_time := 0 } } }

/-- A store with two assets: group 0 settles in asset 0, group 1 in asset 1; market 0 is in
group 0 and carries a bet of 10 units of asset 0. -/
def two_asset_db : database :=
  { example_db with
    assets := [⟨0⟩, ⟨1⟩]
    betting_market_groups := [⟨0, [], 0, 0, 0, false, false⟩, ⟨1, [], 0, 0, 1, false, false⟩]
    bets := [⟨0, 7, 0, ⟨10, 0⟩, 150, bet_type.back, none⟩]
    account_balances := [⟨7, 0, 90⟩, ⟨8, 0, 50⟩]
    next_bet_id := 1 }

/-- The update that moves market 0 to group 1. -/
def move_market_update : betting_market_update_operation :=
  { betting_market_id := 0
    new_group_id := some (object_id betting_market_group_object_type 1)
    new_description := none
    new_payout_condition := none }

/-- Members of `database` that do nothing beyond what the evaluators need: every asset is
authorised, every bet is filled completely, a cancelled bet is removed, every resolution
list is valid, and resolution and mass cancel leave the store alone. -/
def example_members : database_members :=
  { is_authorized_asset := authorize_all
    place_bet := fill_completely
    cancel_bet := fun d b => { d with bets := d.bets.filter (fun x => x.id != b.id) }
    validate_betting_market_group_resolutions := fun _ _ _ => true
    resolve_betting_market_group := fun d _ _ => d
    cancel_all_unmatched_bets_on_betting_market_group := fun d _ => d }

/-- No account may transact any asset. -/
def authorize_none : database → account_object → asset_object → Bool := fun _ _ _ => false

/-- Account 8 lays market 3 of `busy_db` (group 3, frozen) with 5 units at odds 300. -/
def frozen_market_bet_place : bet_place_operation :=
  { bettor_id := 8
    betting_market_id := 3
    amount_to_bet := ⟨5, 0⟩
    backer_multiplier := 300
    back_or_lay := bet_type.lay }

/-- The update that unfreezes a group and switches its `delay_bets` off at once, for
group 3 of `busy_db`. -/
def thaw_and_flush_update : betting_market_group_update_operation :=
  { betting_market_group_id := 3
    new_description := none
    new_rules_id := none
    freeze := some false
    delay_bets := some false }

/-! # Theorems -/

/-! ## Evaluation results -/

theorem succeeded_bind_iff {α β : Type} (x : Except evaluation_error α)
    (f : α → Except evaluation_error β) :
    succeeded (x >>= f) = true ↔ ∃ a, x = .ok a ∧ succeeded (f a) = true := by
  cases x with
  | error e => simp [succeeded, bind, Except.bind]
  | ok a => simp [bind, Except.bind]

theorem succeeded_of_eq_ok {α : Type} {x : Except evaluation_error α} {a : α}
    (h : x = .ok a) : succeeded x = true := by
  subst h; rfl

theorem succeeded_iff_exists_ok {α : Type} (x : Except evaluation_error α) :
    succeeded x = true ↔ ∃ a, x = .ok a := by
  cases x <;> simp [succeeded]

theorem fc_assert_eq_ok (c : Bool) (e : evaluation_error) (u : Unit) :
    fc_assert c e = .ok u ↔ c = true := by
  cases c <;> simp [fc_assert]

theorem find_asset_id (d : database) (id : asset_id_type) (a : asset_object)
    (h : d.find_asset id = some a) : a.id = id := by
  unfold database.find_asset at h
  simpa using List.find?_some h

theorem find_betting_market_group_id (d : database) (id : betting_market_group_id_type)
    (g : betting_market_group_object) (h : d.find_betting_market_group id = some g) :
    g.id = id := by
  unfold database.find_betting_market_group at h
  simpa using List.find?_some h

/-! ## The odds increment schedule -/

theorem succeeded_check_odds_increment (params : chain_parameters) (m : bet_multiplier_type) :
    succeeded (check_odds_increment params m) = true ↔
      (params.permitted_betting_odds_increments ≠ [] →
        ∃ inc, allowed_increment params.permitted_betting_odds_increments m = some inc ∧
          inc ≠ 0 ∧ inc ∣ m) := by
  unfold check_odds_increment
  cases hl : params.permitted_betting_odds_increments with
  | nil => simp [succeeded]
  | cons e es =>
    simp only [List.isEmpty_cons, Bool.not_false, if_true, ne_eq, reduceCtorEq, not_false_eq_true,
      true_implies]
    cases hinc : allowed_increment (e :: es) m with
    | none => simp [succeeded]
    | some inc =>
      by_cases h0 : inc = 0
      · simp [h0, checked_mod, succeeded, bind, Except.bind]
      · by_cases hmod : m % inc = 0
        · simp [h0, hmod, checked_mod, succeeded, bind, Except.bind, fc_assert,
            Nat.dvd_iff_mod_eq_zero]
        · simp [h0, hmod, checked_mod, succeeded, bind, Except.bind, fc_assert,
            Nat.dvd_iff_mod_eq_zero]

theorem upper_bound_least (incs : List (bet_multiplier_type × bet_multiplier_type))
    (m : bet_multiplier_type) (e : bet_multiplier_type × bet_multiplier_type)
    (hs : flat_map_sorted incs) (h : upper_bound incs m = some e) :
    e ∈ incs ∧ m < e.1 ∧ ∀ e2 ∈ incs, m < e2.1 → e.1 ≤ e2.1 := by
  unfold upper_bound at h
  induction incs with
  | nil => simp at h
  | cons x xs ih =>
    have hs2 := List.pairwise_cons.mp hs
    by_cases hx : m < x.1
    · simp [List.find?_cons, hx] at h
      subst h
      refine ⟨List.mem_cons_self _ _, hx, ?_⟩
      intro e2 he2 _
      rcases List.mem_cons.mp he2 with rfl | hmem
      · exact le_refl _
      · exact le_of_lt (hs2.1 e2 hmem)
    · simp [List.find?_cons, hx] at h
      have := ih hs2.2 (by simpa using h)
      refine ⟨List.mem_cons_of_mem _ this.1, this.2.1, ?_⟩
      intro e2 he2 hlt
      rcases List.mem_cons.mp he2 with rfl | hmem
      · exact absurd hlt hx
      · exact this.2.2 e2 hmem hlt

theorem upper_bound_none (incs : List (bet_multiplier_type × bet_multiplier_type))
    (m : bet_multiplier_type) :
    upper_bound incs m = none ↔ ∀ e ∈ incs, e.1 ≤ m := by
  unfold upper_bound
  simp [List.find?_eq_none]

theorem flat_map_key_unique (incs : List (bet_multiplier_type × bet_multiplier_type))
    (hs : flat_map_sorted incs) (e1 e2 : bet_multiplier_type × bet_multiplier_type)
    (h1 : e1 ∈ incs) (h2 : e2 ∈ incs) (hk : e1.1 = e2.1) : e1 = e2 := by
  induction incs with
  | nil => simp at h1
  | cons x xs ih =>
    have hs2 := List.pairwise_cons.mp hs
    rcases List.mem_cons.mp h1 with rfl | hm1 <;> rcases List.mem_cons.mp h2 with rfl | hm2
    · rfl
    · exact absurd hk (Nat.ne_of_lt (hs2.1 e2 hm2))
    · exact absurd hk.symm (Nat.ne_of_lt (hs2.1 e1 hm1))
    · exact ih hs2.2 hm1 hm2

theorem flat_map_last_greatest (incs : List (bet_multiplier_type × bet_multiplier_type))
    (hs : flat_map_sorted incs) (e : bet_multiplier_type × bet_multiplier_type)
    (h : incs.getLast? = some e) : e ∈ incs ∧ ∀ e2 ∈ incs, e2.1 ≤ e.1 := by
  induction incs with
  | nil => simp at h
  | cons x xs ih =>
    have hs2 := List.pairwise_cons.mp hs
    cases xs with
    | nil =>
      simp at h
      subst h
      simp
    | cons y ys =>
      rw [List.getLast?_cons_cons] at h
      have := ih hs2.2 h
      refine ⟨List.mem_cons_of_mem _ this.1, ?_⟩
      intro e2 he2
      rcases List.mem_cons.mp he2 with rfl | hmem
      · exact le_of_lt (hs2.1 e this.1)
      · exact this.2 e2 hmem

/-! ## bet_place: validation -/

theorem bet_place_do_evaluate_succeeded_iff
    (is_authorized_asset : database → account_object → asset_object → Bool)
    (d : database) (fee_paying_account : account_object) (op : bet_place_operation)
    (m : betting_market_object) (g : betting_market_group_object)
    (hm : d.find_betting_market op.betting_market_id = some m)
    (hg : d.find_betting_market_group m.group_id = some g) :
    succeeded (bet_place_evaluator.do_evaluate is_authorized_asset d fee_paying_account op) = true ↔
      (op.amount_to_bet.asset_id = g.asset_id ∧
       g.frozen = false ∧
       (∃ a, d.find_asset g.asset_id = some a ∧ is_authorized_asset d fee_paying_account a = true) ∧
       d.global_properties.parameters.min_bet_multiplier ≤ op.backer_multiplier ∧
       op.backer_multiplier ≤ d.global_properties.parameters.max_bet_multiplier ∧
       succeeded (check_odds_increment d.global_properties.parameters op.backer_multiplier) = true ∧
       0 < op.amount_to_bet.amount ∧
       op.amount_to_bet.amount ≤ (d.get_balance fee_paying_account.id g.asset_id).amount) := by
  unfold bet_place_evaluator.do_evaluate
  simp only [hm, hg, deref, succeeded_bind_iff, fc_assert_eq_ok, Except.ok.injEq,
    exists_eq_left', database.get_global_properties, exists_const]
  cases ha : d.find_asset g.asset_id with
  | none => simp
  | some a =>
    have hid := find_asset_id d g.asset_id a ha
    have hsucc : ∀ u : Unit,
        (check_odds_increment d.global_properties.parameters op.backer_multiplier = Except.ok u) ↔
        succeeded (check_odds_increment d.global_properties.parameters op.backer_multiplier) = true := by
      intro u
      cases h : check_odds_increment d.global_properties.parameters op.backer_multiplier <;>
        simp [succeeded]
    have hpure : ∀ x : bet_place_evaluator,
        succeeded (pure x : Except evaluation_error bet_place_evaluator) = true := fun _ => rfl
    simp only [Except.ok.injEq, exists_eq_left', hsucc, hid, hpure, and_true,
      Option.some.injEq, Bool.and_eq_true, decide_eq_true_eq, beq_iff_eq, Bool.not_eq_true',
      ge_iff_le, gt_iff_lt, exists_const]
    constructor
    · rintro ⟨h1, h2, h3, ⟨h4, h5⟩, h6, h7, h8⟩
      exact ⟨h1, h2, h3, h4, h5, h6, h7, h8⟩
    · rintro ⟨h1, h2, h3, h4, h5, h6, h7, h8⟩
      exact ⟨h1, h2, h3, ⟨h4, h5⟩, h6, h7, h8⟩

/-- What a successful `bet_place_evaluator::do_evaluate` has established, and what it leaves
in the evaluator. -/
theorem bet_place_do_evaluate_ok
    (is_authorized_asset : database → account_object → asset_object → Bool)
    (d : database) (fee_paying_account : account_object) (op : bet_place_operation)
    (ev : bet_place_evaluator)
    (h : bet_place_evaluator.do_evaluate is_authorized_asset d fee_paying_account op = .ok ev) :
    ∃ m g, d.find_betting_market op.betting_market_id = some m ∧
      d.find_betting_market_group m.group_id = some g ∧
      ev.fee_paying_account = fee_paying_account ∧
      ev._betting_market_group = g.id ∧ g.id = m.group_id ∧
      op.amount_to_bet.asset_id = g.asset_id ∧
      g.frozen = false ∧
      d.global_properties.parameters.min_bet_multiplier ≤ op.backer_multiplier ∧
      op.backer_multiplier ≤ d.global_properties.parameters.max_bet_multiplier ∧
      succeeded (check_odds_increment d.global_properties.parameters op.backer_multiplier) = true ∧
      0 < op.amount_to_bet.amount ∧
      op.amount_to_bet.amount ≤ (d.get_balance fee_paying_account.id g.asset_id).amount := by
  cases hm : d.find_betting_market op.betting_market_id with
  | none => simp [bet_place_evaluator.do_evaluate, hm, deref, bind, Except.bind] at h
  | some m =>
    cases hg : d.find_betting_market_group m.group_id with
    | none => simp [bet_place_evaluator.do_evaluate, hm, hg, deref, bind, Except.bind] at h
    | some g =>
      have hs := (bet_place_do_evaluate_succeeded_iff is_authorized_asset d fee_paying_account op
        m g hm hg).mp (succeeded_of_eq_ok h)
      obtain ⟨h1, h2, ⟨a, ha, hauth⟩, h4, h5, h6, h7, h8⟩ := hs
      refine ⟨m, g, rfl, hg, ?_, ?_, find_betting_market_group_id d _ g hg, h1, h2, h4, h5, h6,
        h7, h8⟩
      all_goals
        obtain ⟨u, hu⟩ := (succeeded_iff_exists_ok _).mp h6
        have h2' : (!g.frozen) = true := by simp [h2]
        have h45 : (decide (op.backer_multiplier ≥ d.global_properties.parameters.min_bet_multiplier) &&
             decide (op.backer_multiplier ≤ d.global_properties.parameters.max_bet_multiplier)) = true := by
          simp [h4, h5]
        have h8' : decide ((d.get_balance fee_paying_account.id a.id).amount ≥ op.amount_to_bet.amount) = true := by
          rw [find_asset_id d _ a ha]; simpa using h8
        simp [bet_place_evaluator.do_evaluate, hm, hg, ha, deref, bind, Except.bind, fc_assert, h1,
          h2', hauth, h45, hu, h7, h8', database.get_global_properties, pure, Except.pure] at h
        rw [← h]

/-- C1 (as amended): when the market and its owning group exist, `bet_place` validation
succeeds if and only if the bet's asset is the group's asset, the group is not frozen, the
paying account is authorised for that asset (the asset object is found and
`is_authorized_asset` holds of it), the multiplier lies in
`[min_bet_multiplier, max_bet_multiplier]`, the applicable increment of a non-empty schedule
is non-zero and divides the multiplier, the amount is strictly positive, and the account's
balance in that asset is at least the amount. -/
theorem C1_bet_place_validation_iff
    (is_authorized_asset : database → account_object → asset_object → Bool)
    (d : database) (fee_paying_account : account_object) (op : bet_place_operation)
    (m : betting_market_object) (g : betting_market_group_object)
    (hm : d.find_betting_market op.betting_market_id = some m)
    (hg : d.find_betting_market_group m.group_id = some g) :
    succeeded (bet_place_evaluator.do_evaluate is_authorized_asset d fee_paying_account op) = true ↔
      (op.amount_to_bet.asset_id = g.asset_id ∧
       g.frozen = false ∧
       (∃ a, d.find_asset g.asset_id = some a ∧ is_authorized_asset d fee_paying_account a = true) ∧
       d.global_properties.parameters.min_bet_multiplier ≤ op.backer_multiplier ∧
       op.backer_multiplier ≤ d.global_properties.parameters.max_bet_multiplier ∧
       (d.global_properties.parameters.permitted_betting_odds_increments ≠ [] →
          ∃ inc, allowed_increment d.global_properties.parameters.permitted_betting_odds_increments
                   op.backer_multiplier = some inc ∧ inc ≠ 0 ∧ inc ∣ op.backer_multiplier) ∧
       0 < op.amount_to_bet.amount ∧
       op.amount_to_bet.amount ≤ (d.get_balance fee_paying_account.id g.asset_id).amount) := by
  rw [bet_place_do_evaluate_succeeded_iff is_authorized_asset d fee_paying_account op m g hm hg,
    succeeded_check_odds_increment]

/-- C1, witness: the theorem at `example_db`, where account 7 backs market 0. -/
theorem C1_bet_place_validation_iff_witness :
    example_db.find_betting_market example_bet_place.betting_market_id = some ⟨0, 0, [], []⟩ ∧
    example_db.find_betting_market_group 0 = some ⟨0, [], 0, 0, 0, false, false⟩ ∧
    (succeeded (bet_place_evaluator.do_evaluate authorize_all example_db ⟨7⟩ example_bet_place) = true ↔
      (example_bet_place.amount_to_bet.asset_id = 0 ∧
       false = false ∧
       (∃ a, example_db.find_asset 0 = some a ∧ authorize_all example_db ⟨7⟩ a = true) ∧
       example_db.global_properties.parameters.min_bet_multiplier ≤ example_bet_place.backer_multiplier ∧
       example_bet_place.backer_multiplier ≤ example_db.global_properties.parameters.max_bet_multiplier ∧
       (example_db.global_properties.parameters.permitted_betting_odds_increments ≠ [] →
          ∃ inc, allowed_increment example_db.global_properties.parameters.permitted_betting_odds_increments
                   example_bet_place.backer_multiplier = some inc ∧ inc ≠ 0 ∧
                   inc ∣ example_bet_place.backer_multiplier) ∧
       0 < example_bet_place.amount_to_bet.amount ∧
       example_bet_place.amount_to_bet.amount ≤ (example_db.get_balance 7 0).amount)) :=
  ⟨rfl, rfl, C1_bet_place_validation_iff authorize_all example_db ⟨7⟩ example_bet_place
    ⟨0, 0, [], []⟩ ⟨0, [], 0, 0, 0, false, false⟩ rfl rfl⟩

/-- C1, counterexample to the claim as stated: in `zero_increment_db` the schedule selects
the increment 0 for the multiplier 0, which is a multiple of it, and every other listed
condition holds, yet validation does not succeed (the remainder is taken modulo zero). -/
theorem C1_counterexample_zero_increment :
    zero_increment_db.find_betting_market zero_odds_bet_place.betting_market_id
      = some ⟨0, 0, [], []⟩ ∧
    zero_increment_db.find_betting_market_group 0 = some ⟨0, [], 0, 0, 0, false, false⟩ ∧
    (zero_odds_bet_place.amount_to_bet.asset_id = 0 ∧
     (∃ a, zero_increment_db.find_asset 0 = some a ∧
        authorize_all zero_increment_db ⟨7⟩ a = true) ∧
     zero_increment_db.global_properties.parameters.min_bet_multiplier
        ≤ zero_odds_bet_place.backer_multiplier ∧
     zero_odds_bet_place.backer_multiplier
        ≤ zero_increment_db.global_properties.parameters.max_bet_multiplier ∧
     (∃ inc, allowed_increment
          zero_increment_db.global_properties.parameters.permitted_betting_odds_increments
          zero_odds_bet_place.backer_multiplier = some inc ∧
        inc ∣ zero_odds_bet_place.backer_multiplier) ∧
     0 < zero_odds_bet_place.amount_to_bet.amount ∧
     zero_odds_bet_place.amount_to_bet.amount ≤ (zero_increment_db.get_balance 7 0).amount) ∧
    succeeded (bet_place_evaluator.do_evaluate authorize_all zero_increment_db ⟨7⟩
      zero_odds_bet_place) = false := by
  refine ⟨rfl, rfl, ⟨rfl, ⟨⟨0⟩, rfl, rfl⟩, by decide, by decide, ⟨0, rfl, by decide⟩,
    by decide, by decide⟩, rfl⟩

/-- C2 (as amended): for a non-empty schedule (a `flat_map`, keys strictly ascending) and a
multiplier `m`, the increment validation applies is the value of the entry with the least
key strictly greater than `m`, or the value of the last entry, which has the greatest key,
when no key is strictly greater than `m`; the increment check rejects exactly when that
increment is zero or `m` is not divisible by it; and every bet created after a successful
validation has a multiplier inside `[min_bet_multiplier, max_bet_multiplier]` that is a
multiple of the selected increment. -/
theorem C2_allowed_increment
    (incs : List (bet_multiplier_type × bet_multiplier_type)) (m : bet_multiplier_type)
    (hne : incs ≠ []) (hs : flat_map_sorted incs) :
    ∃ inc, allowed_increment incs m = some inc ∧
      ((∃ e ∈ incs, m < e.1 ∧ (∀ e2 ∈ incs, m < e2.1 → e.1 ≤ e2.1) ∧ inc = e.2) ∨
       ((∀ e2 ∈ incs, e2.1 ≤ m) ∧
        ∃ e, incs.getLast? = some e ∧ (∀ e2 ∈ incs, e2.1 ≤ e.1) ∧ inc = e.2)) ∧
      (∀ e ∈ incs, m < e.1 → (∀ e2 ∈ incs, m < e2.1 → e.1 ≤ e2.1) → inc = e.2) ∧
      (∀ params : chain_parameters, params.permitted_betting_odds_increments = incs →
        (succeeded (check_odds_increment params m) = false ↔ (inc = 0 ∨ ¬ inc ∣ m))) ∧
      (∀ (is_authorized_asset : database → account_object → asset_object → Bool)
         (d : database) (fee_paying_account : account_object) (op : bet_place_operation)
         (ev : bet_place_evaluator) (g : betting_market_group_object),
        d.global_properties.parameters.permitted_betting_odds_increments = incs →
        op.backer_multiplier = m →
        bet_place_evaluator.do_evaluate is_authorized_asset d fee_paying_account op = .ok ev →
        d.global_properties.parameters.min_bet_multiplier
          ≤ (bet_place_evaluator.new_bet g d op).backer_multiplier ∧
        (bet_place_evaluator.new_bet g d op).backer_multiplier
          ≤ d.global_properties.parameters.max_bet_multiplier ∧
        inc ∣ (bet_place_evaluator.new_bet g d op).backer_multiplier) := by
  have hsel : ∃ inc, allowed_increment incs m = some inc ∧
      ((∃ e ∈ incs, m < e.1 ∧ (∀ e2 ∈ incs, m < e2.1 → e.1 ≤ e2.1) ∧ inc = e.2) ∨
       ((∀ e2 ∈ incs, e2.1 ≤ m) ∧
        ∃ e, incs.getLast? = some e ∧ (∀ e2 ∈ incs, e2.1 ≤ e.1) ∧ inc = e.2)) := by
    unfold allowed_increment
    cases hub : upper_bound incs m with
    | some e =>
      have := upper_bound_least incs m e hs hub
      exact ⟨e.2, rfl, Or.inl ⟨e, this.1, this.2.1, this.2.2, rfl⟩⟩
    | none =>
      have hall := (upper_bound_none incs m).mp hub
      cases hl : incs.getLast? with
      | none => exact absurd (List.getLast?_eq_none_iff.mp hl) hne
      | some e =>
        have := flat_map_last_greatest incs hs e hl
        exact ⟨e.2, rfl, Or.inr ⟨hall, e, rfl, this.2, rfl⟩⟩
  obtain ⟨inc, hinc, hchar⟩ := hsel
  refine ⟨inc, hinc, hchar, ?_, ?_, ?_⟩
  · intro e he hlt hleast
    rcases hchar with ⟨e0, he0, hlt0, hleast0, rfl⟩ | ⟨hall, _⟩
    · have : e0 = e :=
        flat_map_key_unique incs hs e0 e he0 he (le_antisymm (hleast0 e he hlt) (hleast e0 he0 hlt0))
      rw [this]
    · exact absurd (hall e he) (not_le.mpr hlt)
  · intro params hp
    have h := succeeded_check_odds_increment params m
    rw [hp] at h
    constructor
    · intro hf
      by_contra hcon
      push_neg at hcon
      have : succeeded (check_odds_increment params m) = true :=
        h.mpr (fun _ => ⟨inc, hinc, hcon.1, hcon.2⟩)
      rw [hf] at this
      exact Bool.noConfusion this
    · intro hbad
      cases hsu : succeeded (check_odds_increment params m) with
      | false => rfl
      | true =>
        obtain ⟨inc2, hinc2, hnz, hdvd⟩ := h.mp hsu hne
        rw [hinc] at hinc2
        cases hinc2
        rcases hbad with h0 | hnd
        · exact absurd h0 hnz
        · exact absurd hdvd hnd
  · intro auth d acct op ev g hp hm hok
    obtain ⟨_, _, _, _, _, _, _, _, _, hmin, hmax, hchk, _, _⟩ :=
      bet_place_do_evaluate_ok auth d acct op ev hok
    have h := (succeeded_check_odds_increment d.global_properties.parameters op.backer_multiplier).mp hchk
    rw [hp] at h
    obtain ⟨inc2, hinc2, _, hdvd⟩ := h hne
    rw [hm, hinc] at hinc2
    cases hinc2
    exact ⟨hmin, hmax, hdvd⟩

/-- C2, witness: the theorem at the schedule of `example_db` and the multiplier 250. -/
theorem C2_allowed_increment_witness :
    [(200, 1), (300, 2), (1000, 5)] ≠ ([] : List (bet_multiplier_type × bet_multiplier_type)) ∧
    flat_map_sorted [(200, 1), (300, 2), (1000, 5)] ∧
    ∃ inc, allowed_increment [(200, 1), (300, 2), (1000, 5)] 250 = some inc :=
  ⟨by decide, by unfold flat_map_sorted; decide,
    (C2_allowed_increment [(200, 1), (300, 2), (1000, 5)] 250 (by decide)
      (by unfold flat_map_sorted; decide)).imp (fun _ h => h.1)⟩

/-- C2, counterexample to the claim as stated: the schedule `{10 ↦ 0}` selects the
increment 0 for the multiplier 0, which is divisible by it, yet the increment check does
not let the bet through. -/
theorem C2_counterexample_zero_increment :
    allowed_increment [(10, 0)] 0 = some 0 ∧ (0 : Nat) ∣ 0 ∧
    succeeded (check_odds_increment ⟨0, 1000, [(10, 0)], 5⟩ 0) = false ∧
    succeeded (bet_place_evaluator.do_evaluate authorize_all zero_increment_db ⟨8⟩
      { zero_odds_bet_place with bettor_id := 8 }) = false := by
  refine ⟨rfl, by decide, rfl, rfl⟩

/-! ## The balance ledger -/

theorem find_adjust_first_same (owner : account_id_type) (delta : asset)
    (l : List account_balance_object) :
    (adjust_first owner delta l).find? (fun b => b.owner == owner && b.asset_type == delta.asset_id)
      = (l.find? (fun b => b.owner == owner && b.asset_type == delta.asset_id)).map
          (fun b => { b with balance := b.balance + delta.amount }) := by
  induction l with
  | nil => rfl
  | cons x xs ih =>
    cases hx : (x.owner == owner && x.asset_type == delta.asset_id)
    · rw [adjust_first, hx, List.find?_cons, hx]
      simp only [Bool.false_eq_true, if_false, List.find?_cons, hx]
      exact ih
    · rw [adjust_first, hx, List.find?_cons, hx]
      simp only [if_true, List.find?_cons, hx, Option.map_some']

theorem find_adjust_first_other (owner : account_id_type) (delta : asset)
    (owner2 : account_id_type) (asset2 : asset_id_type)
    (hne : ¬ (owner2 = owner ∧ asset2 = delta.asset_id))
    (l : List account_balance_object) :
    (adjust_first owner delta l).find? (fun b => b.owner == owner2 && b.asset_type == asset2)
      = l.find? (fun b => b.owner == owner2 && b.asset_type == asset2) := by
  induction l with
  | nil => rfl
  | cons x xs ih =>
    cases hx : (x.owner == owner && x.asset_type == delta.asset_id)
    · rw [adjust_first, hx]
      simp only [Bool.false_eq_true, if_false, List.find?_cons, ih]
    · have hx2 : (x.owner == owner2 && x.asset_type == asset2) = false := by
        simp only [Bool.and_eq_true, beq_iff_eq] at hx
        simp only [Bool.and_eq_false_imp, beq_iff_eq, beq_eq_false_iff_ne, ne_eq]
        intro h1 h2
        exact hne ⟨by rw [← h1, hx.1], by rw [← h2, hx.2]⟩
      rw [adjust_first, hx]
      simp only [if_true, List.find?_cons, hx2]

theorem sum_adjust_first (owner : account_id_type) (delta : asset) (asset2 : asset_id_type)
    (l : List account_balance_object) :
    (((adjust_first owner delta l).filter (fun b => b.asset_type == asset2)).map
        (fun b => b.balance)).sum
      = ((l.filter (fun b => b.asset_type == asset2)).map (fun b => b.balance)).sum +
        (if (l.find? (fun b => b.owner == owner && b.asset_type == delta.asset_id)).isSome = true ∧
            delta.asset_id = asset2 then delta.amount else 0) := by
  induction l with
  | nil => simp [adjust_first]
  | cons x xs ih =>
    cases hx : (x.owner == owner && x.asset_type == delta.asset_id)
    · rw [adjust_first, hx, List.find?_cons, hx]
      simp only [Bool.false_eq_true, if_false]
      cases hxa : (x.asset_type == asset2)
      · rw [List.filter_cons, hxa, List.filter_cons, hxa]
        simp only [Bool.false_eq_true, if_false]
        exact ih
      · rw [List.filter_cons, hxa, List.filter_cons, hxa]
        simp only [if_true, List.map_cons, List.sum_cons]
        rw [ih]; ring
    · have hx' := hx
      simp only [Bool.and_eq_true, beq_iff_eq] at hx'
      rw [adjust_first, hx, List.find?_cons, hx]
      simp only [if_true, Option.isSome_some, true_and]
      by_cases ha : delta.asset_id = asset2
      · have hxa : (x.asset_type == asset2) = true := by simp [hx'.2, ha]
        rw [List.filter_cons, List.filter_cons, hxa]
        simp only [hxa, if_true, List.map_cons, List.sum_cons, ha]
        ring
      · have hxa : (x.asset_type == asset2) = false := by
          simp only [beq_eq_false_iff_ne, ne_eq, hx'.2]; exact ha
        rw [List.filter_cons, List.filter_cons, hxa]
        simp only [hxa, Bool.false_eq_true, if_false, ha, add_zero]

/-! ## The by_odds index -/

theorem by_odds_insert_perm (b : bet_object) (l : List bet_object) :
    (by_odds_insert b l).Perm (b :: l) := by
  induction l with
  | nil => exact List.Perm.refl _
  | cons x xs ih =>
    unfold by_odds_insert
    split
    · exact List.Perm.refl _
    · exact (List.Perm.cons x ih).trans (List.Perm.swap b x xs)

theorem total_escrow_perm (asset_id : asset_id_type) (l1 l2 : List bet_object)
    (h : l1.Perm l2) :
    ((l1.filter (fun b => b.amount_to_bet.asset_id == asset_id)).map
      (fun b => b.amount_to_bet.amount)).sum =
    ((l2.filter (fun b => b.amount_to_bet.asset_id == asset_id)).map
      (fun b => b.amount_to_bet.amount)).sum :=
  ((h.filter _).map _).sum_eq

/-! ## bet_place: apply -/

/-- After a successful validation `do_apply` runs to its end: it sorts the new bet into the
index, debits the paying account, and then either calls `place_bet` once or not at all. -/
theorem bet_place_do_apply_eq
    (is_authorized_asset : database → account_object → asset_object → Bool)
    (place_bet : database → bet_object → database)
    (d : database) (fee_paying_account : account_object) (op : bet_place_operation)
    (ev : bet_place_evaluator)
    (h : bet_place_evaluator.do_evaluate is_authorized_asset d fee_paying_account op = .ok ev) :
    ∃ m g b, d.find_betting_market op.betting_market_id = some m ∧
      d.find_betting_market_group m.group_id = some g ∧
      d.account_balances.find? (fun x => x.owner == fee_paying_account.id &&
        x.asset_type == op.amount_to_bet.asset_id) = some b ∧
      op.amount_to_bet.amount ≤ b.balance ∧ 0 < op.amount_to_bet.amount ∧
      bet_place_evaluator.do_apply place_bet ev d op =
        some (d.next_bet_id,
          if !g.delay_bets || decide (d.global_properties.parameters.live_betting_delay_time ≤ 0) then
            call_place_bet place_bet
              { db := { d with
                          bets := by_odds_insert (bet_place_evaluator.new_bet g d op) d.bets
                          next_bet_id := d.next_bet_id + 1
                          account_balances :=
                            adjust_first fee_paying_account.id op.amount_to_bet.neg d.account_balances }
                place_bet_calls := [] }
              (bet_place_evaluator.new_bet g d op)
          else
            { db := { d with
                        bets := by_odds_insert (bet_place_evaluator.new_bet g d op) d.bets
                        next_bet_id := d.next_bet_id + 1
                        account_balances :=
                          adjust_first fee_paying_account.id op.amount_to_bet.neg d.account_balances }
              place_bet_calls := [] }) := by
  obtain ⟨m, g, hm, hg, hfee, hev, hgid, hasset, _, _, _, _, hpos, hbal⟩ :=
    bet_place_do_evaluate_ok is_authorized_asset d fee_paying_account op ev h
  have hg' : d.find_betting_market_group ev._betting_market_group = some g := by
    rw [hev, hgid]; exact hg
  rw [← hasset] at hbal
  cases hb : d.account_balances.find? (fun x => x.owner == fee_paying_account.id &&
        x.asset_type == op.amount_to_bet.asset_id) with
  | none =>
    simp only [database.get_balance, hb] at hbal
    exact absurd (lt_of_lt_of_le hpos hbal) (lt_irrefl _)
  | some b =>
    simp only [database.get_balance, hb] at hbal
    refine ⟨m, g, b, hm, hg, rfl, hbal, hpos, ?_⟩
    have hne : ¬ (-op.amount_to_bet.amount = 0) := neg_ne_zero.mpr (ne_of_gt hpos)
    have hcov : ¬ (-op.amount_to_bet.amount < 0 ∧ b.balance < - -op.amount_to_bet.amount) := by
      rintro ⟨_, h2⟩
      rw [neg_neg] at h2
      exact absurd hbal (not_le.mpr h2)
    simp only [bet_place_evaluator.do_apply, hg', database.adjust_balance, database.create_bet,
      asset.neg, hne, hfee, hb, hcov, if_false, Option.bind_eq_bind, Option.some_bind,
      database.find_betting_market_group, database.get_global_properties,
      bet_place_evaluator.new_bet]
    simp only [database.find_betting_market_group] at hg'
    simp only [hg', Option.some_bind]
    cases hc : (!g.delay_bets || decide (d.global_properties.parameters.live_betting_delay_time ≤ 0))
    · simp only [Bool.false_eq_true, if_false]
    · simp only [if_true]

/-- What the code does: the bet `bet_place` creates has `end_of_delay` set exactly when the
group has `delay_bets`, whatever `live_betting_delay_time` is (source line 315). -/
theorem bet_place_new_bet_end_of_delay (g : betting_market_group_object) (d : database)
    (op : bet_place_operation) :
    (bet_place_evaluator.new_bet g d op).end_of_delay.isSome = g.delay_bets := by
  unfold bet_place_evaluator.new_bet
  cases g.delay_bets <;> rfl

/-- C3, the code at the failing input: in `zero_delay_db` (group 1 has `delay_bets = true`,
`live_betting_delay_time = 0`) a validated `bet_place` creates a bet whose `end_of_delay`
is set (to the head block time) and hands that bet to `place_bet`. -/
theorem C3_end_of_delay_set_at_zero_delay :
    zero_delay_db.global_properties.parameters.live_betting_delay_time = 0 ∧
    zero_delay_db.find_betting_market_group 1 = some ⟨1, [], 0, 0, 0, false, true⟩ ∧
    bet_place_evaluator.do_evaluate authorize_all zero_delay_db ⟨8⟩ example_delayed_bet_place
      = .ok ⟨⟨8⟩, 1, 1, 0⟩ ∧
    ∀ place_bet : database → bet_object → database,
      (bet_place_evaluator.do_apply place_bet ⟨⟨8⟩, 1, 1, 0⟩ zero_delay_db
        example_delayed_bet_place).map (fun r => r.2.place_bet_calls)
        = some [⟨0, 8, 1, ⟨20, 0⟩, 250, bet_type.lay, some ⟨1000⟩⟩] := by
  refine ⟨rfl, rfl, rfl, ?_⟩
  intro place_bet
  rfl

/-- C4: for a validated `bet_place`, when the group has `delay_bets = true` and
`live_betting_delay_time > 0`, apply stores the new bet with
`end_of_delay = head_block_time + live_betting_delay_time` and makes no call of `place_bet`;
in every other case apply calls `place_bet` exactly once, on the newly created bet. -/
theorem C4_bet_place_delay_or_match
    (is_authorized_asset : database → account_object → asset_object → Bool)
    (place_bet : database → bet_object → database)
    (d : database) (fee_paying_account : account_object) (op : bet_place_operation)
    (ev : bet_place_evaluator)
    (h : bet_place_evaluator.do_evaluate is_authorized_asset d fee_paying_account op = .ok ev) :
    ∃ g d2, d.find_betting_market_group ev._betting_market_group = some g ∧
      (bet_place_evaluator.new_bet g d op).id = d.next_bet_id ∧
      bet_place_evaluator.new_bet g d op ∈ d2.bets ∧
      (g.delay_bets = true ∧ 0 < d.global_properties.parameters.live_betting_delay_time →
        bet_place_evaluator.do_apply place_bet ev d op
          = some (d.next_bet_id, { db := d2, place_bet_calls := [] }) ∧
        (bet_place_evaluator.new_bet g d op).end_of_delay
          = some (d.head_block_time.add d.global_properties.parameters.live_betting_delay_time)) ∧
      (¬ (g.delay_bets = true ∧ 0 < d.global_properties.parameters.live_betting_delay_time) →
        bet_place_evaluator.do_apply place_bet ev d op
          = some (d.next_bet_id,
              { db := place_bet d2 (bet_place_evaluator.new_bet g d op)
                place_bet_calls := [bet_place_evaluator.new_bet g d op] })) := by
  obtain ⟨m, g, b, hm, hg, hb, hbal, hpos, happly⟩ :=
    bet_place_do_apply_eq is_authorized_asset place_bet d fee_paying_account op ev h
  obtain ⟨m2, g2, hm2, hg2, _, hev, hgid, _⟩ :=
    bet_place_do_evaluate_ok is_authorized_asset d fee_paying_account op ev h
  rw [hm] at hm2
  cases hm2
  rw [hg] at hg2
  cases hg2
  refine ⟨g,
    { d with
        bets := by_odds_insert (bet_place_evaluator.new_bet g d op) d.bets
        next_bet_id := d.next_bet_id + 1
        account_balances :=
          adjust_first fee_paying_account.id op.amount_to_bet.neg d.account_balances },
    by rw [hev, hgid]; exact hg, rfl,
    (by_odds_insert_perm (bet_place_evaluator.new_bet g d op) d.bets).symm.subset
      (List.mem_cons_self _ _), ?_, ?_⟩
  · rintro ⟨hdel, hlive⟩
    have hc : (!g.delay_bets ||
        decide (d.global_properties.parameters.live_betting_delay_time ≤ 0)) = false := by
      simp [hdel]; omega
    rw [happly, hc]
    refine ⟨rfl, ?_⟩
    simp [bet_place_evaluator.new_bet, hdel, database.get_global_properties]
  · intro hnot
    have hc : (!g.delay_bets ||
        decide (d.global_properties.parameters.live_betting_delay_time ≤ 0)) = true := by
      cases hdel : g.delay_bets
      · simp
      · simp only [Bool.not_true, Bool.false_or, decide_eq_true_eq]
        by_contra hl
        exact hnot ⟨hdel, by omega⟩
    rw [happly, hc]
    rfl

/-- C4, witness: the theorem at `example_db`, where account 8 bets on the delayed group. -/
theorem C4_bet_place_delay_or_match_witness :
    bet_place_evaluator.do_evaluate authorize_all example_db ⟨8⟩ example_delayed_bet_place
      = .ok ⟨⟨8⟩, 1, 1, 0⟩ ∧
    ∃ (g : betting_market_group_object) (d2 : database),
      example_db.find_betting_market_group 1 = some g ∧
      (bet_place_evaluator.new_bet g example_db example_delayed_bet_place).id
        = example_db.next_bet_id ∧
      bet_place_evaluator.new_bet g example_db example_delayed_bet_place ∈ d2.bets :=
  ⟨rfl, by
    obtain ⟨g, d2, hg, hid, hmem, _⟩ :=
      C4_bet_place_delay_or_match authorize_all (fun d _ => d) example_db ⟨8⟩
        example_delayed_bet_place ⟨⟨8⟩, 1, 1, 0⟩ rfl
    exact ⟨g, d2, hg, hid, hmem⟩⟩

/-- C5: a validated `bet_place` whose paying account is the bettor debits the bettor's
balance in the bet asset by exactly `amount_to_bet`, leaving it non-negative and every
other balance unchanged, and creates one bet record carrying the operation's bettor,
market, amount, multiplier and side; in the store so reached, on which `place_bet` is then
called or (the delayed case) which is the final store, balances plus escrowed bet amounts
sum to what they did before the operation. -/
theorem C5_bet_place_escrow
    (is_authorized_asset : database → account_object → asset_object → Bool)
    (place_bet : database → bet_object → database)
    (d : database) (fee_paying_account : account_object) (op : bet_place_operation)
    (ev : bet_place_evaluator)
    (hpayer : fee_paying_account.id = op.fee_payer)
    (h : bet_place_evaluator.do_evaluate is_authorized_asset d fee_paying_account op = .ok ev) :
    ∃ g d2 new_bet, d.find_betting_market_group ev._betting_market_group = some g ∧
      bet_place_evaluator.do_apply place_bet ev d op
        = some (new_bet.id,
            if g.delay_bets = true ∧ 0 < d.global_properties.parameters.live_betting_delay_time
            then { db := d2, place_bet_calls := [] }
            else { db := place_bet d2 new_bet, place_bet_calls := [new_bet] }) ∧
      (d2.get_balance op.bettor_id op.amount_to_bet.asset_id).amount
        = (d.get_balance op.bettor_id op.amount_to_bet.asset_id).amount - op.amount_to_bet.amount ∧
      0 ≤ (d2.get_balance op.bettor_id op.amount_to_bet.asset_id).amount ∧
      (∀ (account : account_id_type) (asset_id : asset_id_type),
        ¬ (account = op.bettor_id ∧ asset_id = op.amount_to_bet.asset_id) →
        d2.get_balance account asset_id = d.get_balance account asset_id) ∧
      new_bet.bettor_id = op.bettor_id ∧
      new_bet.betting_market_id = op.betting_market_id ∧
      new_bet.amount_to_bet = op.amount_to_bet ∧
      new_bet.backer_multiplier = op.backer_multiplier ∧
      new_bet.back_or_lay = op.back_or_lay ∧
      d2.bets.Perm (new_bet :: d.bets) ∧
      (∀ asset_id : asset_id_type,
        total_balance d2 asset_id + total_escrow d2 asset_id
          = total_balance d asset_id + total_escrow d asset_id) := by
  obtain ⟨m, g, b, hm, hg, hb, hbal, hpos, happly⟩ :=
    bet_place_do_apply_eq is_authorized_asset place_bet d fee_paying_account op ev h
  obtain ⟨m2, g2, hm2, hg2, _, hev, hgid, _⟩ :=
    bet_place_do_evaluate_ok is_authorized_asset d fee_paying_account op ev h
  rw [hm] at hm2
  cases hm2
  rw [hg] at hg2
  cases hg2
  have hid : fee_paying_account.id = op.bettor_id := hpayer
  rw [hid] at hb happly
  have hb' : d.account_balances.find? (fun x => x.owner == op.bettor_id &&
      x.asset_type == op.amount_to_bet.neg.asset_id) = some b := hb
  refine ⟨g,
    { d with
        bets := by_odds_insert (bet_place_evaluator.new_bet g d op) d.bets
        next_bet_id := d.next_bet_id + 1
        account_balances := adjust_first op.bettor_id op.amount_to_bet.neg d.account_balances },
    bet_place_evaluator.new_bet g d op, by rw [hev, hgid]; exact hg, ?_, ?_, ?_, ?_,
    rfl, rfl, rfl, rfl, rfl, by_odds_insert_perm _ _, ?_⟩
  · rw [happly]
    cases hdel : g.delay_bets
    · simp [call_place_bet, bet_place_evaluator.new_bet]
    · by_cases hl : 0 < d.global_properties.parameters.live_betting_delay_time
      · have hl' : ¬ d.global_properties.parameters.live_betting_delay_time = 0 := by omega
        simp [hl, hl', bet_place_evaluator.new_bet]
      · have hl' : d.global_properties.parameters.live_betting_delay_time = 0 := by omega
        simp [hl', call_place_bet, bet_place_evaluator.new_bet]
  · simp only [database.get_balance]
    have := find_adjust_first_same op.bettor_id op.amount_to_bet.neg d.account_balances
    rw [hb'] at this
    simp only [asset.neg] at this
    simp only [asset.neg, this, hb, Option.map_some']
    ring
  · simp only [database.get_balance]
    have := find_adjust_first_same op.bettor_id op.amount_to_bet.neg d.account_balances
    rw [hb'] at this
    simp only [asset.neg] at this
    simp only [asset.neg, this, Option.map_some']
    linarith
  · intro account asset_id hne
    simp only [database.get_balance]
    rw [find_adjust_first_other op.bettor_id op.amount_to_bet.neg account asset_id hne]
  · intro asset_id
    simp only [total_balance, total_escrow]
    rw [sum_adjust_first, hb',
      total_escrow_perm asset_id _ _ (by_odds_insert_perm (bet_place_evaluator.new_bet g d op) d.bets)]
    by_cases ha : op.amount_to_bet.asset_id = asset_id
    · have ha' : ((bet_place_evaluator.new_bet g d op).amount_to_bet.asset_id == asset_id) = true := by
        simp [bet_place_evaluator.new_bet, ha]
      rw [List.filter_cons, ha']
      simp only [asset.neg, ha, Option.isSome_some, and_self, if_true, List.map_cons, List.sum_cons,
        bet_place_evaluator.new_bet]
      ring
    · have ha' : ((bet_place_evaluator.new_bet g d op).amount_to_bet.asset_id == asset_id) = false := by
        simp [bet_place_evaluator.new_bet, ha]
      rw [List.filter_cons, ha']
      simp only [asset.neg, ha, and_false, if_false, add_zero, Bool.false_eq_true]

/-- C5, witness: the theorem at `example_db`, where account 7 backs market 0. -/
theorem C5_bet_place_escrow_witness :
    (⟨7⟩ : account_object).id = example_bet_place.fee_payer ∧
    bet_place_evaluator.do_evaluate authorize_all example_db ⟨7⟩ example_bet_place
      = .ok ⟨⟨7⟩, 0, 0, 0⟩ ∧
    ∃ d2 : database, (d2.get_balance 7 0).amount = (example_db.get_balance 7 0).amount - 10 :=
  ⟨rfl, rfl, by
    obtain ⟨_, d2, _, _, _, hbal, _⟩ :=
      C5_bet_place_escrow authorize_all (fun d _ => d) example_db ⟨7⟩ example_bet_place
        ⟨⟨7⟩, 0, 0, 0⟩ rfl rfl
    exact ⟨d2, hbal⟩⟩

/-! ## Lifecycle operations -/

/-- The six lifecycle validations that assert `trx_state->_is_proposed_trx` throw outside a
proposal. -/
theorem lifecycle_validation_requires_proposal (trx_state : transaction_evaluation_state)
    (d : database) (hp : trx_state._is_proposed_trx = false) :
    (∀ op, succeeded (betting_market_rules_create_evaluator.do_evaluate trx_state d op) = false) ∧
    (∀ op, succeeded (betting_market_rules_update_evaluator.do_evaluate trx_state d op) = false) ∧
    (∀ op, succeeded (betting_market_group_create_evaluator.do_evaluate trx_state d op) = false) ∧
    (∀ op, succeeded (betting_market_group_update_evaluator.do_evaluate trx_state d op) = false) ∧
    (∀ op, succeeded (betting_market_create_evaluator.do_evaluate trx_state d op) = false) ∧
    (∀ op, succeeded (betting_market_update_evaluator.do_evaluate trx_state d op) = false) := by
  refine ⟨?_, ?_, ?_, ?_, ?_, ?_⟩ <;> intro op
  · simp [betting_market_rules_create_evaluator.do_evaluate, hp, fc_assert, bind, Except.bind,
      succeeded]
  · simp [betting_market_rules_update_evaluator.do_evaluate, hp, fc_assert, bind, Except.bind,
      succeeded]
  · simp [betting_market_group_create_evaluator.do_evaluate, hp, fc_assert, bind, Except.bind,
      succeeded]
  · simp [betting_market_group_update_evaluator.do_evaluate, hp, fc_assert, bind, Except.bind,
      succeeded]
  · simp [betting_market_create_evaluator.do_evaluate, hp, fc_assert, bind, Except.bind,
      succeeded]
  · simp [betting_market_update_evaluator.do_evaluate, hp, fc_assert, bind, Except.bind,
      succeeded]

/-- C6, the code at the failing inputs: outside a proposal (`_is_proposed_trx = false`),
validation of `group_cancel_unmatched_bets` on an existing group succeeds, and so does
validation of `group_resolve` whenever the resolutions themselves are valid. -/
theorem C6_resolve_and_cancel_validate_outside_proposal :
    succeeded (betting_market_group_cancel_unmatched_bets_evaluator.do_evaluate
      ⟨false, []⟩ example_db ⟨0⟩) = true ∧
    succeeded (betting_market_group_resolve_evaluator.do_evaluate (fun _ _ _ => true)
      ⟨false, []⟩ example_db ⟨0, [(0, betting_market_resolution_type.win)]⟩) = true :=
  ⟨rfl, rfl⟩

/-- A `group_update` whose `freeze` or `delay_bets` repeats the group's current value is
rejected. -/
theorem group_update_no_op_rejected (trx_state : transaction_evaluation_state) (d : database)
    (op : betting_market_group_update_operation) (g : betting_market_group_object)
    (hg : d.find_betting_market_group op.betting_market_group_id = some g)
    (hnoop : op.freeze = some g.frozen ∨ op.delay_bets = some g.delay_bets) :
    succeeded (betting_market_group_update_evaluator.do_evaluate trx_state d op) = false := by
  unfold betting_market_group_update_evaluator.do_evaluate
  cases hp : trx_state._is_proposed_trx
  · simp [fc_assert, bind, Except.bind, succeeded]
  · cases hn : (op.new_description.isSome || op.new_rules_id.isSome || op.freeze.isSome ||
        op.delay_bets.isSome)
    · simp [fc_assert, bind, Except.bind, succeeded, hg, deref, hn]
    · cases hr : evaluate_new_rules_id trx_state d op.new_rules_id with
      | error e => simp [fc_assert, bind, Except.bind, succeeded, hg, deref, hn, hr]
      | ok r =>
        rcases hnoop with hf | hdl
        · simp [fc_assert, bind, Except.bind, succeeded, hg, deref, hn, hr, hf]
        · cases hfr : op.freeze with
          | none =>
            simp [fc_assert, bind, Except.bind, succeeded, hg, deref, hn, hr, hdl, hfr, pure,
              Except.pure]
          | some v =>
            by_cases hv : g.frozen = v
            · simp [fc_assert, bind, Except.bind, succeeded, hg, deref, hn, hr, hdl, hfr, hv]
            · simp [fc_assert, bind, Except.bind, succeeded, hg, deref, hn, hr, hdl, hfr, hv]

/-- C7: a `group_update` carrying a `freeze` value equal to the group's current `frozen`
flag, or a `delay_bets` value equal to its current `delay_bets` flag, fails validation; the
store is left as it was, so the same operation submitted any number of times in a row fails
every time. -/
theorem C7_group_update_no_op_rejected_every_time
    (place_bet : database → bet_object → database) (fuel : Nat)
    (trx_state : transaction_evaluation_state) (d : database)
    (op : betting_market_group_update_operation) (g : betting_market_group_object)
    (hg : d.find_betting_market_group op.betting_market_group_id = some g)
    (hnoop : op.freeze = some g.frozen ∨ op.delay_bets = some g.delay_bets) :
    succeeded (betting_market_group_update_evaluator.do_evaluate trx_state d op) = false ∧
    process_group_update place_bet fuel trx_state d op = (d, false) ∧
    ∀ n : Nat, process_group_update_repeated place_bet fuel trx_state op n d
      = (d, List.replicate n false) := by
  have hrej := group_update_no_op_rejected trx_state d op g hg hnoop
  have hone : process_group_update place_bet fuel trx_state d op = (d, false) := by
    unfold process_group_update
    cases he : betting_market_group_update_evaluator.do_evaluate trx_state d op with
    | error e => rfl
    | ok ev => rw [he] at hrej; exact Bool.noConfusion hrej
  refine ⟨hrej, hone, ?_⟩
  intro n
  induction n with
  | zero => rfl
  | succ k ih =>
    simp only [process_group_update_repeated, hone, ih, List.replicate_succ]

/-- C7, witness: the theorem at `example_db`, for an update that sets `freeze = false` on
group 0, which is not frozen. -/
theorem C7_group_update_no_op_rejected_every_time_witness :
    example_db.find_betting_market_group 0 = some ⟨0, [], 0, 0, 0, false, false⟩ ∧
    process_group_update_repeated (fun d _ => d) 10 ⟨true, []⟩
      ⟨0, none, none, some false, none⟩ 3 example_db = (example_db, [false, false, false]) :=
  ⟨rfl, (C7_group_update_no_op_rejected_every_time (fun d _ => d) 10 ⟨true, []⟩ example_db
    ⟨0, none, none, some false, none⟩ ⟨0, [], 0, 0, 0, false, false⟩ rfl (Or.inl rfl)).2.2 3⟩

/-! ## The flush of delayed bets: the index -/

theorem find_id_append (P l : List bet_object) (i : bet_id_type)
    (hP : ∀ x ∈ P, x.id ≠ i) :
    (P ++ l).find? (fun b => b.id == i) = l.find? (fun b => b.id == i) := by
  induction P with
  | nil => rfl
  | cons x xs ih =>
    have hx : (x.id == i) = false := by
      simpa using hP x (List.mem_cons_self _ _)
    rw [List.cons_append, List.find?_cons, hx]
    exact ih (fun y hy => hP y (List.mem_cons_of_mem _ hy))

theorem dropWhile_id_append (P l : List bet_object) (i : bet_id_type)
    (hP : ∀ x ∈ P, x.id ≠ i) :
    (P ++ l).dropWhile (fun b => b.id != i) = l.dropWhile (fun b => b.id != i) := by
  induction P with
  | nil => rfl
  | cons x xs ih =>
    have hx : (x.id != i) = true := by
      simpa using hP x (List.mem_cons_self _ _)
    rw [List.cons_append, List.dropWhile_cons, hx]
    exact ih (fun y hy => hP y (List.mem_cons_of_mem _ hy))

theorem eraseP_id_append (P l : List bet_object) (i : bet_id_type)
    (hP : ∀ x ∈ P, x.id ≠ i) :
    (P ++ l).eraseP (fun b => b.id == i) = P ++ l.eraseP (fun b => b.id == i) := by
  induction P with
  | nil => rfl
  | cons x xs ih =>
    have hx : (x.id == i) = false := by
      simpa using hP x (List.mem_cons_self _ _)
    rw [List.cons_append, List.eraseP_cons, hx, ih (fun y hy => hP y (List.mem_cons_of_mem _ hy))]
    rfl

theorem bet_ids_unique_split (P : List bet_object) (c : bet_object) (rest : List bet_object)
    (hu : bet_ids_unique (P ++ c :: rest)) :
    (∀ x ∈ P, x.id ≠ c.id) ∧ (∀ x ∈ rest, x.id ≠ c.id) := by
  unfold bet_ids_unique at hu
  rw [List.map_append, List.map_cons] at hu
  have h1 := List.nodup_append.mp hu
  have h2 := List.nodup_cons.mp h1.2.1
  constructor
  · intro x hx hid
    have hxm : x.id ∈ P.map (fun b => b.id) := List.mem_map_of_mem _ hx
    exact h1.2.2 hxm (by rw [hid]; exact List.mem_cons_self _ _)
  · intro x hx hid
    have hxm : x.id ∈ rest.map (fun b => b.id) := List.mem_map_of_mem _ hx
    rw [hid] at hxm
    exact h2.1 hxm

theorem find_bet_at (P : List bet_object) (c : bet_object) (rest : List bet_object)
    (hu : bet_ids_unique (P ++ c :: rest)) :
    (P ++ c :: rest).find? (fun b => b.id == c.id) = some c := by
  rw [find_id_append P _ c.id (bet_ids_unique_split P c rest hu).1]
  simp

theorem bet_index_next_at (P : List bet_object) (c : bet_object) (rest : List bet_object)
    (hu : bet_ids_unique (P ++ c :: rest)) :
    bet_index_next (P ++ c :: rest) c.id = rest.head?.map (fun b => b.id) := by
  unfold bet_index_next
  rw [dropWhile_id_append P _ c.id (bet_ids_unique_split P c rest hu).1]
  simp [List.dropWhile_cons]

theorem compare_not_delayed_delayed (b x : bet_object) (hb : b.end_of_delay = none)
    (hx : x.end_of_delay.isSome = true) : compare_bet_by_odds b x = false := by
  unfold compare_bet_by_odds
  cases hxe : x.end_of_delay with
  | none => rw [hxe] at hx; exact Bool.noConfusion hx
  | some t => rw [hb]

theorem by_odds_insert_after_delayed (b : bet_object) (D N : List bet_object)
    (hb : b.end_of_delay = none) (hD : ∀ x ∈ D, x.end_of_delay.isSome = true) :
    by_odds_insert b (D ++ N) = D ++ by_odds_insert b N := by
  induction D with
  | nil => rfl
  | cons x xs ih =>
    rw [List.cons_append, by_odds_insert,
      compare_not_delayed_delayed b x hb (hD x (List.mem_cons_self _ _))]
    simp only [Bool.false_eq_true, if_false, List.cons_append]
    rw [ih (fun y hy => hD y (List.mem_cons_of_mem _ hy))]

theorem delayed_bets_append (D N : List bet_object)
    (hD : ∀ x ∈ D, x.end_of_delay.isSome = true)
    (hN : ∀ x ∈ N, x.end_of_delay.isSome = false) :
    delayed_bets (D ++ N) = D ∧ delayed_first (D ++ N) := by
  have h1 : delayed_bets (D ++ N) = D := by
    unfold delayed_bets
    rw [List.filter_append, List.filter_eq_self.mpr hD, List.filter_eq_nil_iff.mpr, List.append_nil]
    intro x hx
    rw [hN x hx]
    exact Bool.false_ne_true
  refine ⟨h1, ?_⟩
  unfold delayed_first
  rw [h1, List.filter_append, List.filter_eq_nil_iff.mpr, List.nil_append, List.filter_eq_self.mpr]
  · intro x hx
    rw [hN x hx]; rfl
  · intro x hx
    rw [hD x hx]; simp

theorem delayed_first_split (bets : List bet_object) (h : delayed_first bets) :
    ∃ N, bets = delayed_bets bets ++ N ∧ (∀ x ∈ N, x.end_of_delay.isSome = false) ∧
      (∀ x ∈ delayed_bets bets, x.end_of_delay.isSome = true) := by
  refine ⟨bets.filter (fun b => !b.end_of_delay.isSome), h, ?_, ?_⟩
  · intro x hx
    have := (List.mem_filter.mp hx).2
    simpa using this
  · intro x hx
    exact (List.mem_filter.mp hx).2

theorem by_odds_insert_not_delayed (b : bet_object) (N : List bet_object)
    (hb : b.end_of_delay = none) (hN : ∀ x ∈ N, x.end_of_delay.isSome = false) :
    ∀ x ∈ by_odds_insert b N, x.end_of_delay.isSome = false := by
  intro x hx
  rcases List.mem_cons.mp ((by_odds_insert_perm b N).subset hx) with rfl | h
  · rw [hb]; rfl
  · exact hN x h

/-! ## The flush of delayed bets: the loop -/

theorem modify_bet_clear (d : database) (P : List bet_object) (c : bet_object)
    (R N : List bet_object)
    (hbets : d.bets = P ++ c :: (R ++ N)) (hu : bet_ids_unique d.bets)
    (hP : ∀ x ∈ P, x.end_of_delay.isSome = true)
    (hR : ∀ x ∈ R, x.end_of_delay.isSome = true) :
    d.modify_bet c.id (fun bet_obj => { bet_obj with end_of_delay := none })
      = { d with bets := (P ++ R) ++ by_odds_insert (clear_end_of_delay c) N } := by
  rw [hbets] at hu
  have hfind : d.find_bet c.id = some c := by
    unfold database.find_bet
    rw [hbets]
    exact find_bet_at P c (R ++ N) hu
  unfold database.modify_bet
  rw [hfind]
  simp only
  rw [hbets, eraseP_id_append P _ c.id (bet_ids_unique_split P c (R ++ N) hu).1]
  have he : (c :: (R ++ N)).eraseP (fun x => x.id == c.id) = R ++ N := by
    simp [List.eraseP_cons]
  rw [he, ← List.append_assoc]
  have hPR : ∀ x ∈ P ++ R, x.end_of_delay.isSome = true := by
    intro x hx
    rcases List.mem_append.mp hx with h | h
    · exact hP x h
    · exact hR x h
  rw [by_odds_insert_after_delayed _ (P ++ R) N rfl hPR]
  rfl

theorem bet_ids_unique_after_clear (P : List bet_object) (c : bet_object)
    (R N : List bet_object) (hu : bet_ids_unique (P ++ c :: (R ++ N))) :
    bet_ids_unique ((P ++ R) ++ by_odds_insert (clear_end_of_delay c) N) := by
  unfold bet_ids_unique at hu ⊢
  refine (List.Perm.nodup_iff ?_).mpr hu
  have h1 : ((P ++ R) ++ by_odds_insert (clear_end_of_delay c) N).Perm
      ((P ++ R) ++ clear_end_of_delay c :: N) :=
    List.Perm.append_left _ (by_odds_insert_perm _ _)
  have h2 : ((P ++ R) ++ clear_end_of_delay c :: N).Perm
      (clear_end_of_delay c :: ((P ++ R) ++ N)) := List.perm_middle
  have h3 : (P ++ c :: (R ++ N)).Perm (c :: (P ++ (R ++ N))) := List.perm_middle
  have h4 := ((h1.trans h2).map (fun b => b.id))
  have h5 := (h3.map (fun b => b.id))
  rw [List.map_cons] at h4 h5
  simp only [List.append_assoc, clear_end_of_delay] at h4
  simp only [List.append_assoc, clear_end_of_delay]
  exact h4.trans h5.symm

theorem flush_delayed_bets_done (place_bet : database → bet_object → database)
    (ev : betting_market_group_update_evaluator) (op : betting_market_group_update_operation)
    (fuel : Nat) (s : apply_state) (it : Option bet_id_type) :
    flush_delayed_bets place_bet ev op fuel s it true = some s := by
  cases fuel <;> rfl

theorem flush_delayed_bets_step (place_bet : database → bet_object → database)
    (ev : betting_market_group_update_evaluator) (op : betting_market_group_update_operation)
    (fuel : Nat) (s : apply_state) (c : bet_object) (m : betting_market_object)
    (g : betting_market_group_object)
    (hfind : s.db.find_bet c.id = some c)
    (hm : s.db.find_betting_market c.betting_market_id = some m)
    (hg : s.db.find_betting_market_group ev._betting_market_group = some g) :
    flush_delayed_bets place_bet ev op (fuel + 1) s (some c.id) false =
      if (m.group_id == op.betting_market_group_id && !g.frozen) = true then
        flush_delayed_bets place_bet ev op fuel
          (call_place_bet place_bet
            { s with
                db := (s.db.modify_bet c.id (fun bet_obj => { bet_obj with end_of_delay := none })) }
            (clear_end_of_delay c))
          (bet_index_next s.db.bets c.id)
          (bet_iter_last s.db.bets (bet_index_next s.db.bets c.id))
      else
        flush_delayed_bets place_bet ev op fuel s
          (bet_index_next s.db.bets c.id)
          (bet_iter_last s.db.bets (bet_index_next s.db.bets c.id)) := by
  simp only [flush_delayed_bets, hfind, hm, hg, clear_end_of_delay]

theorem bet_iter_last_at (P : List bet_object) (c : bet_object) (rest : List bet_object)
    (hu : bet_ids_unique (P ++ c :: rest)) :
    bet_iter_last (P ++ c :: rest) (some c.id) = c.end_of_delay.isNone := by
  unfold bet_iter_last
  simp only [find_bet_at P c rest hu]

theorem flushes_eq (d0 : database) (op : betting_market_group_update_operation)
    (g : betting_market_group_object) (c : bet_object) (m : betting_market_object)
    (hm : d0.find_betting_market c.betting_market_id = some m) :
    flushes d0 op g c = (m.group_id == op.betting_market_group_id && !g.frozen) := by
  simp only [flushes, bet_in_group, hm]

/-- One pass of the flush loop, for the iterator at the delayed bet `c`, when the delayed
bets of the index are `P ++ c :: R`. -/
theorem flush_delayed_bets_one
    (place_bet : database → bet_object → database)
    (ev : betting_market_group_update_evaluator) (op : betting_market_group_update_operation)
    (g : betting_market_group_object) (d0 : database)
    (hframe : g.frozen = false → place_bet_frame place_bet)
    (R : List bet_object) (c : bet_object) (P : List bet_object) (s : apply_state)
    (hg : s.db.find_betting_market_group ev._betting_market_group = some g)
    (hmk : s.db.betting_markets = d0.betting_markets)
    (hu : bet_ids_unique s.db.bets) (hdf : delayed_first s.db.bets)
    (hd : delayed_bets s.db.bets = P ++ c :: R)
    (hcm : (d0.find_betting_market c.betting_market_id).isSome = true) :
    ∃ s1 : apply_state,
      (R = [] → ∀ k, flush_delayed_bets place_bet ev op (k + 1) s (some c.id) false = some s1) ∧
      (∀ r R2, R = r :: R2 → ∀ k,
        flush_delayed_bets place_bet ev op (k + 1) s (some c.id) false =
          flush_delayed_bets place_bet ev op k s1 (some r.id) false) ∧
      s1.place_bet_calls = s.place_bet_calls ++
        ([c].filter (flushes d0 op g)).map clear_end_of_delay ∧
      delayed_bets s1.db.bets = P ++ [c].filter (fun b => !flushes d0 op g b) ++ R ∧
      s1.db.betting_markets = d0.betting_markets ∧
      s1.db.betting_market_groups = s.db.betting_market_groups ∧
      bet_ids_unique s1.db.bets ∧ delayed_first s1.db.bets ∧
      (g.frozen = true → s1 = s) := by
  obtain ⟨N, hsplit, hN, hD⟩ := delayed_first_split s.db.bets hdf
  rw [hd] at hsplit hD
  have hbets : s.db.bets = P ++ c :: (R ++ N) := by
    rw [hsplit]; simp [List.append_assoc]
  have hu' : bet_ids_unique (P ++ c :: (R ++ N)) := by rw [← hbets]; exact hu
  have hPd : ∀ x ∈ P, x.end_of_delay.isSome = true :=
    fun x hx => hD x (List.mem_append_left _ hx)
  have hRd : ∀ x ∈ R, x.end_of_delay.isSome = true :=
    fun x hx => hD x (List.mem_append_right _ (List.mem_cons_of_mem _ hx))
  have hcd : c.end_of_delay.isSome = true :=
    hD c (List.mem_append_right _ (List.mem_cons_self _ _))
  have hfind : s.db.find_bet c.id = some c := by
    unfold database.find_bet; rw [hbets]; exact find_bet_at P c (R ++ N) hu'
  obtain ⟨m, hm0⟩ := Option.isSome_iff_exists.mp hcm
  have hm : s.db.find_betting_market c.betting_market_id = some m := by
    unfold database.find_betting_market at hm0 ⊢; rw [hmk]; exact hm0
  have hnext : bet_index_next s.db.bets c.id = (R ++ N).head?.map (fun b => b.id) := by
    rw [hbets]; exact bet_index_next_at P c (R ++ N) hu'
  have hstep := fun k => flush_delayed_bets_step place_bet ev op k s c m g hfind hm hg
  have hfl := flushes_eq d0 op g c m hm0
  -- the loop variable `last` after `++bet_iter`
  have hlast_nil : R = [] →
      bet_iter_last s.db.bets (bet_index_next s.db.bets c.id) = true := by
    intro hR
    rw [hnext, hR, List.nil_append]
    cases hNl : N with
    | nil => rfl
    | cons n N2 =>
      have hu2 : bet_ids_unique ((P ++ [c]) ++ n :: N2) := by
        rw [hbets, hR, hNl] at hu; simpa [List.append_assoc] using hu
      have hb2 : s.db.bets = (P ++ [c]) ++ n :: N2 := by
        rw [hbets, hR, hNl]; simp [List.append_assoc]
      rw [hb2]
      simp only [List.head?_cons, Option.map_some']
      rw [bet_iter_last_at (P ++ [c]) n N2 hu2]
      have := hN n (by rw [hNl]; exact List.mem_cons_self _ _)
      cases hne : n.end_of_delay with
      | none => rfl
      | some t => rw [hne] at this; exact Bool.noConfusion this
  have hlast_cons : ∀ r R2, R = r :: R2 →
      bet_index_next s.db.bets c.id = some r.id ∧
      bet_iter_last s.db.bets (some r.id) = false := by
    intro r R2 hR
    have hu2 : bet_ids_unique ((P ++ [c]) ++ r :: (R2 ++ N)) := by
      rw [hbets, hR] at hu; simpa [List.append_assoc] using hu
    have hb2 : s.db.bets = (P ++ [c]) ++ r :: (R2 ++ N) := by
      rw [hbets, hR]; simp [List.append_assoc]
    refine ⟨by rw [hnext, hR]; rfl, ?_⟩
    rw [hb2, bet_iter_last_at (P ++ [c]) r (R2 ++ N) hu2]
    have := hRd r (by rw [hR]; exact List.mem_cons_self _ _)
    cases hre : r.end_of_delay with
    | none => rw [hre] at this; exact Bool.noConfusion this
    | some t => rfl
  cases hc : flushes d0 op g c
  · -- the bet is left delayed
    have hcond : ¬ ((m.group_id == op.betting_market_group_id && !g.frozen) = true) := by
      rw [← hfl, hc]; exact Bool.false_ne_true
    refine ⟨s, ?_, ?_, ?_, ?_, hmk, rfl, hu, hdf, fun _ => rfl⟩
    · intro hR k
      rw [hstep k, if_neg hcond, hlast_nil hR, flush_delayed_bets_done]
    · intro r R2 hR k
      rw [hstep k, if_neg hcond, (hlast_cons r R2 hR).1, (hlast_cons r R2 hR).2]
    · simp [List.filter_cons, hc]
    · rw [hd]; simp [List.filter_cons, hc]
  · -- the bet is pushed through
    have hcond : (m.group_id == op.betting_market_group_id && !g.frozen) = true := by
      rw [← hfl, hc]
    have hfz : g.frozen = false := by
      rw [hfl] at hc
      simp only [Bool.and_eq_true, Bool.not_eq_true'] at hc
      exact hc.2
    have hmod := modify_bet_clear s.db P c R N hbets hu hPd hRd
    have hce : (clear_end_of_delay c).end_of_delay = none := rfl
    obtain ⟨f1, f2, f3, f4, f5⟩ := hframe hfz
      { s.db with bets := (P ++ R) ++ by_odds_insert (clear_end_of_delay c) N }
      (clear_end_of_delay c) hce
    have hPR : ∀ x ∈ P ++ R, x.end_of_delay.isSome = true := by
      intro x hx
      rcases List.mem_append.mp hx with h | h
      · exact hPd x h
      · exact hRd x h
    have hins := delayed_bets_append (P ++ R) (by_odds_insert (clear_end_of_delay c) N) hPR
      (by_odds_insert_not_delayed _ N hce hN)
    refine ⟨call_place_bet place_bet
      { s with
          db := (s.db.modify_bet c.id (fun bet_obj => { bet_obj with end_of_delay := none })) }
      (clear_end_of_delay c), ?_, ?_, ?_, ?_, ?_, ?_, ?_, ?_, ?_⟩
    · intro hR k
      rw [hstep k, if_pos hcond, hlast_nil hR, flush_delayed_bets_done]
    · intro r R2 hR k
      rw [hstep k, if_pos hcond, (hlast_cons r R2 hR).1, (hlast_cons r R2 hR).2]
    · simp [call_place_bet, List.filter_cons, hc]
    · simp only [call_place_bet, hmod]
      rw [f5, hins.1]
      simp [List.filter_cons, hc]
    · simp only [call_place_bet, hmod]
      rw [f1]; exact hmk
    · simp only [call_place_bet, hmod]
      rw [f2]
    · simp only [call_place_bet, hmod]
      exact f3 (bet_ids_unique_after_clear P c R N hu')
    · simp only [call_place_bet, hmod]
      exact f4 hins.2
    · intro hfz2
      rw [hfz] at hfz2
      exact Bool.noConfusion hfz2

/-- The flush loop started at the delayed bet `c`, when the delayed bets of the index are
`P ++ c :: R`: it ends, having handed to `place_bet` exactly the bets of `c :: R` the test
of line 180 lets through, each with `end_of_delay` cleared, in index order. -/
theorem flush_delayed_bets_spec
    (place_bet : database → bet_object → database)
    (ev : betting_market_group_update_evaluator) (op : betting_market_group_update_operation)
    (g : betting_market_group_object) (d0 : database)
    (hframe : g.frozen = false → place_bet_frame place_bet) :
    ∀ (R : List bet_object) (c : bet_object) (P : List bet_object) (s : apply_state)
      (fuel : Nat),
      R.length < fuel →
      s.db.find_betting_market_group ev._betting_market_group = some g →
      s.db.betting_markets = d0.betting_markets →
      bet_ids_unique s.db.bets → delayed_first s.db.bets →
      delayed_bets s.db.bets = P ++ c :: R →
      (∀ b ∈ c :: R, (d0.find_betting_market b.betting_market_id).isSome = true) →
      ∃ s2 : apply_state,
        flush_delayed_bets place_bet ev op fuel s (some c.id) false = some s2 ∧
        s2.place_bet_calls = s.place_bet_calls ++
          ((c :: R).filter (flushes d0 op g)).map clear_end_of_delay ∧
        delayed_bets s2.db.bets = P ++ (c :: R).filter (fun b => !flushes d0 op g b) ∧
        s2.db.betting_markets = d0.betting_markets ∧
        s2.db.betting_market_groups = s.db.betting_market_groups ∧
        bet_ids_unique s2.db.bets ∧ delayed_first s2.db.bets ∧
        (g.frozen = true → s2 = s) := by
  intro R
  induction R with
  | nil =>
    intro c P s fuel hfuel hg hmk hu hdf hd hcm
    obtain ⟨s1, hnil, _, htr, hdel, hmk1, hgr1, hu1, hdf1, hfz1⟩ :=
      flush_delayed_bets_one place_bet ev op g d0 hframe [] c P s hg hmk hu hdf hd
        (hcm c (List.mem_cons_self _ _))
    obtain ⟨k, rfl⟩ : ∃ k, fuel = k + 1 := ⟨fuel - 1, by omega⟩
    refine ⟨s1, hnil rfl k, htr, ?_, hmk1, hgr1, hu1, hdf1, hfz1⟩
    rw [hdel, List.append_nil]
  | cons r R2 ih =>
    intro c P s fuel hfuel hg hmk hu hdf hd hcm
    obtain ⟨s1, _, hcons, htr, hdel, hmk1, hgr1, hu1, hdf1, hfz1⟩ :=
      flush_delayed_bets_one place_bet ev op g d0 hframe (r :: R2) c P s hg hmk hu hdf hd
        (hcm c (List.mem_cons_self _ _))
    obtain ⟨k, rfl⟩ : ∃ k, fuel = k + 1 := ⟨fuel - 1, by simp at hfuel; omega⟩
    have hg1 : s1.db.find_betting_market_group ev._betting_market_group = some g := by
      unfold database.find_betting_market_group at hg ⊢; rw [hgr1]; exact hg
    obtain ⟨s2, hrun, htr2, hdel2, hmk2, hgr2, hu2, hdf2, hfz2⟩ :=
      ih r (P ++ [c].filter (fun b => !flushes d0 op g b)) s1 k
        (by simp at hfuel; omega) hg1 hmk1 hu1 hdf1 hdel
        (fun b hb => hcm b (List.mem_cons_of_mem _ hb))
    refine ⟨s2, by rw [hcons r R2 rfl k]; exact hrun, ?_, ?_, hmk2, hgr2.trans hgr1, hu2, hdf2, ?_⟩
    · rw [htr2, htr, List.append_assoc, ← List.map_append, ← List.filter_append]
      rfl
    · rw [hdel2, List.append_assoc, ← List.filter_append]
      rfl
    · intro hfz
      rw [hfz2 hfz, hfz1 hfz]

/-! ## group_update: the stored group during apply -/

theorem find_update_first_id (id : betting_market_group_id_type)
    (f : betting_market_group_object → betting_market_group_object)
    (hf : ∀ x, (f x).id = x.id) (l : List betting_market_group_object) :
    (update_first (fun g => g.id == id) f l).find? (fun g => g.id == id)
      = (l.find? (fun g => g.id == id)).map f := by
  induction l with
  | nil => rfl
  | cons x xs ih =>
    cases hx : (x.id == id)
    · rw [update_first, hx, List.find?_cons, hx]
      simp only [Bool.false_eq_true, if_false, List.find?_cons, hx]
      exact ih
    · have hfx : ((f x).id == id) = true := by rw [hf x]; exact hx
      rw [update_first, hx, List.find?_cons, hx]
      simp only [if_true, List.find?_cons, hfx, Option.map_some']

theorem find_modify_betting_market_group (d : database) (id : betting_market_group_id_type)
    (f : betting_market_group_object → betting_market_group_object)
    (hf : ∀ x, (f x).id = x.id) :
    (d.modify_betting_market_group id f).find_betting_market_group id
      = (d.find_betting_market_group id).map f := by
  unfold database.modify_betting_market_group database.find_betting_market_group
  exact find_update_first_id id f hf d.betting_market_groups

/-- What a successful `betting_market_group_update_evaluator::do_evaluate` has
established. -/
theorem group_update_do_evaluate_ok (trx_state : transaction_evaluation_state) (d : database)
    (op : betting_market_group_update_operation) (ev : betting_market_group_update_evaluator)
    (h : betting_market_group_update_evaluator.do_evaluate trx_state d op = .ok ev) :
    ∃ g, d.find_betting_market_group op.betting_market_group_id = some g ∧
      ev._betting_market_group = op.betting_market_group_id ∧
      trx_state._is_proposed_trx = true ∧
      (∀ v, op.freeze = some v → g.frozen ≠ v) ∧
      (∀ v, op.delay_bets = some v → g.delay_bets ≠ v) := by
  cases hp : trx_state._is_proposed_trx
  · simp [betting_market_group_update_evaluator.do_evaluate, hp, fc_assert, bind, Except.bind] at h
  · cases hg : d.find_betting_market_group op.betting_market_group_id with
    | none =>
      simp [betting_market_group_update_evaluator.do_evaluate, hp, hg, deref, fc_assert, bind,
        Except.bind] at h
    | some g =>
      have hgid := find_betting_market_group_id d _ g hg
      refine ⟨g, rfl, ?_, rfl, ?_, ?_⟩
      · cases hn : (op.new_description.isSome || op.new_rules_id.isSome || op.freeze.isSome ||
            op.delay_bets.isSome)
        · simp [betting_market_group_update_evaluator.do_evaluate, hp, hg, deref, fc_assert, bind,
            Except.bind, hn] at h
        · cases hr : evaluate_new_rules_id trx_state d op.new_rules_id with
          | error e =>
            simp [betting_market_group_update_evaluator.do_evaluate, hp, hg, deref, fc_assert,
              bind, Except.bind, hn, hr] at h
          | ok r =>
            cases hfr : op.freeze <;> cases hdl : op.delay_bets <;>
              simp [betting_market_group_update_evaluator.do_evaluate, hp, hg, deref, fc_assert,
                bind, Except.bind, hn, hr, hfr, hdl, pure, Except.pure] at h <;>
              (try split at h) <;> (try split at h) <;>
              (try simp_all) <;> (try rw [← h])
      · intro v hv hfz
        have := group_update_no_op_rejected trx_state d op g hg (Or.inl (by rw [hv, hfz]))
        rw [h] at this
        exact Bool.noConfusion this
      · intro v hv hdl
        have := group_update_no_op_rejected trx_state d op g hg (Or.inr (by rw [hv, hdl]))
        rw [h] at this
        exact Bool.noConfusion this

/-- With the group frozen the flush loop walks over the delayed bets at the front of the
index and changes nothing. -/
theorem flush_delayed_bets_frozen
    (place_bet : database → bet_object → database)
    (ev : betting_market_group_update_evaluator) (op : betting_market_group_update_operation)
    (g : betting_market_group_object) (s : apply_state)
    (hfz : g.frozen = true)
    (hg : s.db.find_betting_market_group ev._betting_market_group = some g)
    (hu : bet_ids_unique s.db.bets)
    (hmk : delayed_bets_have_markets s.db) :
    ∀ (rest : List bet_object) (c : bet_object) (P : List bet_object) (fuel : Nat),
      rest.length < fuel → s.db.bets = P ++ c :: rest → c.end_of_delay.isSome = true →
      flush_delayed_bets place_bet ev op fuel s (some c.id) false = some s := by
  intro rest
  induction rest with
  | nil =>
    intro c P fuel hfuel hbets hcd
    obtain ⟨k, rfl⟩ : ∃ k, fuel = k + 1 := ⟨fuel - 1, by omega⟩
    have hu' : bet_ids_unique (P ++ c :: []) := by rw [← hbets]; exact hu
    have hfind : s.db.find_bet c.id = some c := by
      unfold database.find_bet; rw [hbets]; exact find_bet_at P c [] hu'
    obtain ⟨m, hm⟩ := Option.isSome_iff_exists.mp
      (hmk c (List.mem_filter.mpr ⟨by rw [hbets]; simp, hcd⟩))
    rw [flush_delayed_bets_step place_bet ev op k s c m g hfind hm hg, hfz]
    simp only [Bool.not_true, Bool.and_false, Bool.false_eq_true, if_false]
    have hnext : bet_index_next s.db.bets c.id = none := by
      rw [hbets, bet_index_next_at P c [] hu']; rfl
    rw [hnext]
    exact flush_delayed_bets_done place_bet ev op k s none
  | cons r rest2 ih =>
    intro c P fuel hfuel hbets hcd
    obtain ⟨k, rfl⟩ : ∃ k, fuel = k + 1 := ⟨fuel - 1, by simp at hfuel; omega⟩
    have hu' : bet_ids_unique (P ++ c :: r :: rest2) := by rw [← hbets]; exact hu
    have hfind : s.db.find_bet c.id = some c := by
      unfold database.find_bet; rw [hbets]; exact find_bet_at P c (r :: rest2) hu'
    obtain ⟨m, hm⟩ := Option.isSome_iff_exists.mp
      (hmk c (List.mem_filter.mpr ⟨by rw [hbets]; simp, hcd⟩))
    rw [flush_delayed_bets_step place_bet ev op k s c m g hfind hm hg, hfz]
    simp only [Bool.not_true, Bool.and_false, Bool.false_eq_true, if_false]
    have hnext : bet_index_next s.db.bets c.id = some r.id := by
      rw [hbets, bet_index_next_at P c (r :: rest2) hu']; rfl
    have hb2 : s.db.bets = (P ++ [c]) ++ r :: rest2 := by
      rw [hbets]; simp [List.append_assoc]
    have hu2 : bet_ids_unique ((P ++ [c]) ++ r :: rest2) := by rw [← hb2]; exact hu
    have hlast : bet_iter_last s.db.bets (some r.id) = r.end_of_delay.isNone := by
      rw [hb2]; exact bet_iter_last_at (P ++ [c]) r rest2 hu2
    rw [hnext, hlast]
    cases hre : r.end_of_delay with
    | none => exact flush_delayed_bets_done place_bet ev op k s (some r.id)
    | some t =>
      exact ih r (P ++ [c]) k (by simp at hfuel; omega) hb2 (by rw [hre]; rfl)

/-- The field writes of `do_apply` leave bets and markets alone, and leave the stored group
with the `frozen` flag the operation asks for. -/
theorem group_update_write_fields
    (ev : betting_market_group_update_evaluator) (d : database)
    (op : betting_market_group_update_operation) (g : betting_market_group_object)
    (hg : d.find_betting_market_group ev._betting_market_group = some g) :
    (betting_market_group_update_evaluator.write_fields ev d op).bets = d.bets ∧
    (betting_market_group_update_evaluator.write_fields ev d op).betting_markets
      = d.betting_markets ∧
    ∃ g4, (betting_market_group_update_evaluator.write_fields ev d op).find_betting_market_group
        ev._betting_market_group = some g4 ∧
      g4.frozen = (match op.freeze with | some v => v | none => g.frozen) := by
  unfold betting_market_group_update_evaluator.write_fields
  refine ⟨?_, ?_, ?_⟩
  · cases op.new_description <;> cases op.new_rules_id <;> cases op.freeze <;>
      cases op.delay_bets <;> rfl
  · cases op.new_description <;> cases op.new_rules_id <;> cases op.freeze <;>
      cases op.delay_bets <;> rfl
  · cases op.new_description <;> cases op.new_rules_id <;> cases op.freeze <;>
      cases op.delay_bets <;>
      simp [find_modify_betting_market_group, hg]

theorem bet_iter_last_begin (bets : List bet_object) (hu : bet_ids_unique bets) :
    bet_iter_last bets (bet_index_begin bets) =
      (bets.head?.map (fun c => c.end_of_delay.isNone)).getD true := by
  cases bets with
  | nil => rfl
  | cons c rest =>
    show bet_iter_last ([] ++ c :: rest) (some c.id) = c.end_of_delay.isNone
    exact bet_iter_last_at [] c rest hu

/-- The flush of `group_update`, from validation to the end of apply: the loop ends, the
calls of `place_bet` are exactly the delayed bets that pass the test of line 180, cleared,
in index order, and the other delayed bets stay as they are. -/
theorem group_update_flush_spec
    (place_bet : database → bet_object → database) (fuel : Nat)
    (trx_state : transaction_evaluation_state) (d : database)
    (op : betting_market_group_update_operation) (ev : betting_market_group_update_evaluator)
    (g : betting_market_group_object)
    (hev : betting_market_group_update_evaluator.do_evaluate trx_state d op = .ok ev)
    (hg : d.find_betting_market_group op.betting_market_group_id = some g)
    (hdl : op.delay_bets = some false)
    (hu : bet_ids_unique d.bets) (hdf : delayed_first d.bets)
    (hmk : delayed_bets_have_markets d)
    (hframe : (match op.freeze with | some v => v | none => g.frozen) = false →
      place_bet_frame place_bet)
    (hfuel : d.bets.length ≤ fuel) :
    ∃ (s2 : apply_state) (g4 : betting_market_group_object),
      betting_market_group_update_evaluator.do_apply place_bet fuel ev d op = some s2 ∧
      g4.frozen = (match op.freeze with | some v => v | none => g.frozen) ∧
      s2.place_bet_calls =
        ((delayed_bets d.bets).filter (flushes d op g4)).map clear_end_of_delay ∧
      delayed_bets s2.db.bets = (delayed_bets d.bets).filter (fun b => !flushes d op g4 b) ∧
      s2.db.betting_markets = d.betting_markets ∧
      bet_ids_unique s2.db.bets ∧ delayed_first s2.db.bets := by
  obtain ⟨g2, hg2, hevid, _, _, _⟩ := group_update_do_evaluate_ok trx_state d op ev hev
  have hgev : d.find_betting_market_group ev._betting_market_group = some g := by
    rw [hevid]; exact hg
  obtain ⟨hb4, hm4, g4, hg4, hfz4⟩ := group_update_write_fields ev d op g hgev
  have hrun : betting_market_group_update_evaluator.do_apply place_bet fuel ev d op =
      flush_delayed_bets place_bet ev op fuel
        { db := betting_market_group_update_evaluator.write_fields ev d op, place_bet_calls := [] }
        (bet_index_begin d.bets) (bet_iter_last d.bets (bet_index_begin d.bets)) := by
    simp only [betting_market_group_update_evaluator.do_apply, hgev, hdl, Option.bind_eq_bind,
      Option.some_bind, Bool.not_false, if_true, hb4]
  obtain ⟨N, hsplit, hN, hD⟩ := delayed_first_split d.bets hdf
  rw [hrun, bet_iter_last_begin d.bets hu]
  cases hDl : delayed_bets d.bets with
  | nil =>
    rw [hDl, List.nil_append] at hsplit
    have hlast : (d.bets.head?.map (fun c => c.end_of_delay.isNone)).getD true = true := by
      cases hbl : d.bets with
      | nil => rfl
      | cons c rest =>
        have := hN c (by rw [← hsplit, hbl]; exact List.mem_cons_self _ _)
        cases hce : c.end_of_delay with
        | none => simp [hce]
        | some t => rw [hce] at this; exact Bool.noConfusion this
    rw [hlast, flush_delayed_bets_done]
    refine ⟨_, g4, rfl, hfz4, rfl, ?_, hm4, ?_, ?_⟩
    · simp only [hb4, hDl]; rfl
    · simp only [hb4]; exact hu
    · simp only [hb4]; exact hdf
  | cons c R =>
    rw [hDl] at hsplit hD
    have hbl : d.bets = c :: (R ++ N) := by rw [hsplit]; rfl
    have hcd : c.end_of_delay.isSome = true := hD c (List.mem_cons_self _ _)
    have hlast : (d.bets.head?.map (fun c => c.end_of_delay.isNone)).getD true = false := by
      rw [hbl]
      cases hce : c.end_of_delay with
      | none => rw [hce] at hcd; exact Bool.noConfusion hcd
      | some t => simp [hce]
    have hbegin : bet_index_begin d.bets = some c.id := by rw [hbl]; rfl
    rw [hlast, hbegin]
    have hlen : R.length < fuel := by
      have : d.bets.length = (R ++ N).length + 1 := by rw [hbl]; rfl
      rw [List.length_append] at this
      omega
    obtain ⟨s2, hrun2, htr, hdel, hmk2, _, hu2, hdf2, _⟩ :=
      flush_delayed_bets_spec place_bet ev op g4 d (fun h => hframe (hfz4.symm.trans h))
        R c [] { db := betting_market_group_update_evaluator.write_fields ev d op,
                 place_bet_calls := [] } fuel hlen hg4 hm4
        (by simp only [hb4]; exact hu) (by simp only [hb4]; exact hdf)
        (by simp only [hb4, hDl]; rfl)
        (fun b hb => hmk b (by rw [hDl]; exact hb))
    refine ⟨s2, g4, hrun2, hfz4, ?_, ?_, hmk2, hu2, hdf2⟩
    · rw [htr]; rfl
    · rw [hdel]; rfl

theorem filter_id_unique (f : bet_object → bet_object) (hf : ∀ x, (f x).id = x.id)
    (b : bet_object) :
    ∀ L : List bet_object, bet_ids_unique L → b ∈ L →
      (L.map f).filter (fun x => x.id == b.id) = [f b] := by
  intro L
  induction L with
  | nil => intro _ hb; exact absurd hb (List.not_mem_nil _)
  | cons x xs ih =>
    intro hu hb
    have hu' := List.nodup_cons.mp hu
    have hnone : ∀ ys : List bet_object, b.id ∉ ys.map (fun b => b.id) →
        (ys.map f).filter (fun x => x.id == b.id) = [] := by
      intro ys hys
      rw [List.filter_eq_nil_iff]
      intro y hy
      obtain ⟨z, hz, rfl⟩ := List.mem_map.mp hy
      intro hyid
      rw [hf z] at hyid
      exact hys (List.mem_map.mpr ⟨z, hz, by simpa using hyid⟩)
    rcases List.mem_cons.mp hb with rfl | hmem
    · rw [List.map_cons, List.filter_cons]
      simp only [hf, beq_self_eq_true, if_true]
      rw [hnone xs hu'.1]
    · have hne : ((f x).id == b.id) = false := by
        rw [hf x]
        simp only [beq_eq_false_iff_ne, ne_eq]
        intro hxb
        exact hu'.1 (by show x.id ∈ _; rw [hxb]; exact List.mem_map_of_mem _ hmem)
      rw [List.map_cons, List.filter_cons, hne]
      simp only [Bool.false_eq_true, if_false]
      exact ih hu'.2 hmem

theorem bet_ids_unique_filter (p : bet_object → Bool) (L : List bet_object)
    (hu : bet_ids_unique L) : bet_ids_unique (L.filter p) :=
  List.Nodup.sublist ((List.filter_sublist L).map _) hu

/-! ## A matching engine that satisfies the frame assumption -/

theorem fill_completely_frame : place_bet_frame fill_completely := by
  intro d b _
  have hdel : delayed_bets (fill_completely d b).bets = delayed_bets d.bets := by
    simp only [fill_completely, delayed_bets, List.filter_filter]
    congr 1
    funext x
    cases x.end_of_delay.isSome <;> simp
  refine ⟨rfl, rfl, fun hu => bet_ids_unique_filter _ _ hu, ?_, hdel⟩
  intro hdf
  obtain ⟨N, hsplit, hN, hD⟩ := delayed_first_split d.bets hdf
  have h2 : (fill_completely d b).bets
      = delayed_bets d.bets ++ N.filter (fun x => x.end_of_delay.isSome || x.id != b.id) := by
    show d.bets.filter (fun x => x.end_of_delay.isSome || x.id != b.id) = _
    rw [hsplit, List.filter_append, List.filter_eq_self.mpr, ← hsplit]
    intro x hx
    rw [hD x hx]
    rfl
  rw [h2]
  exact (delayed_bets_append (delayed_bets d.bets) _ hD
    (fun x hx => hN x (List.mem_filter.mp hx).1)).2

/-! ## group_update: the flush of delayed bets -/

/-- C8 (as amended): in a store whose by_odds index lists the delayed bets first (bet ids
unique, every delayed bet on an existing market), for a validated `group_update` that
switches `delay_bets` from true to false on a group that is not frozen and whose `freeze`
field is absent, and a matching engine that leaves delayed bets, markets and groups alone,
apply ends and every delayed bet of the group has been handed to `place_bet` exactly once,
with `end_of_delay` cleared, in index order; no bet of the group is left delayed. -/
theorem C8_group_update_flushes_delayed_bets
    (place_bet : database → bet_object → database) (fuel : Nat)
    (trx_state : transaction_evaluation_state) (d : database)
    (op : betting_market_group_update_operation) (ev : betting_market_group_update_evaluator)
    (g : betting_market_group_object)
    (hev : betting_market_group_update_evaluator.do_evaluate trx_state d op = .ok ev)
    (hg : d.find_betting_market_group op.betting_market_group_id = some g)
    (hdl : op.delay_bets = some false)
    (hfrozen : g.frozen = false) (hfreeze : op.freeze = none)
    (hu : bet_ids_unique d.bets) (hdf : delayed_first d.bets)
    (hmk : delayed_bets_have_markets d)
    (hframe : place_bet_frame place_bet)
    (hfuel : d.bets.length ≤ fuel) :
    g.delay_bets = true ∧
    ∃ s2 : apply_state,
      betting_market_group_update_evaluator.do_apply place_bet fuel ev d op = some s2 ∧
      s2.place_bet_calls =
        ((delayed_bets d.bets).filter (bet_in_group d op.betting_market_group_id)).map
          clear_end_of_delay ∧
      (∀ b ∈ d.bets, b.end_of_delay.isSome = true →
        bet_in_group d op.betting_market_group_id b = true →
        s2.place_bet_calls.filter (fun x => x.id == b.id) = [clear_end_of_delay b]) ∧
      (∀ b ∈ s2.db.bets, bet_in_group d op.betting_market_group_id b = true →
        b.end_of_delay = none) := by
  obtain ⟨g2, hg2, _, _, _, hdelay⟩ := group_update_do_evaluate_ok trx_state d op ev hev
  rw [hg] at hg2
  cases hg2
  have hgd : g.delay_bets = true := by
    have := hdelay false hdl
    cases h : g.delay_bets
    · exact absurd h this
    · rfl
  obtain ⟨s2, g4, hrun, hfz4, htr, hdel, _, _, _⟩ :=
    group_update_flush_spec place_bet fuel trx_state d op ev g hev hg hdl hu hdf hmk
      (fun _ => hframe) hfuel
  rw [hfreeze] at hfz4
  simp only [hfrozen] at hfz4
  have hfl : flushes d op g4 = bet_in_group d op.betting_market_group_id := by
    funext b
    simp [flushes, hfz4]
  rw [hfl] at htr hdel
  refine ⟨hgd, s2, hrun, htr, ?_, ?_⟩
  · intro b hb hbd hbg
    rw [htr]
    apply filter_id_unique clear_end_of_delay (fun _ => rfl) b
    · exact bet_ids_unique_filter _ _ (bet_ids_unique_filter _ _ hu)
    · exact List.mem_filter.mpr ⟨List.mem_filter.mpr ⟨hb, hbd⟩, hbg⟩
  · intro b hb hbg
    cases hbe : b.end_of_delay with
    | none => rfl
    | some t =>
      have hbd : b ∈ delayed_bets s2.db.bets :=
        List.mem_filter.mpr ⟨hb, by rw [hbe]; rfl⟩
      rw [hdel] at hbd
      have := (List.mem_filter.mp hbd).2
      rw [hbg] at this
      exact Bool.noConfusion this

/-- C8, witness: the theorem at `busy_db`, for the update that switches `delay_bets` off on
group 1, with an engine that fills every bet it is handed. -/
theorem C8_group_update_flushes_delayed_bets_witness :
    betting_market_group_update_evaluator.do_evaluate ⟨true, []⟩ busy_db
      ⟨1, none, none, none, some false⟩ = .ok ⟨1, 0⟩ ∧
    bet_ids_unique busy_db.bets ∧ delayed_first busy_db.bets ∧
    delayed_bets_have_markets busy_db ∧ place_bet_frame fill_completely ∧
    ∃ s2 : apply_state,
      betting_market_group_update_evaluator.do_apply fill_completely 6 ⟨1, 0⟩ busy_db
        ⟨1, none, none, none, some false⟩ = some s2 ∧
      s2.place_bet_calls =
        [⟨0, 8, 1, ⟨20, 0⟩, 250, bet_type.lay, none⟩,
         ⟨2, 7, 1, ⟨10, 0⟩, 250, bet_type.back, none⟩,
         ⟨5, 8, 1, ⟨5, 0⟩, 400, bet_type.lay, none⟩] := by
  have hu : bet_ids_unique busy_db.bets := by unfold bet_ids_unique; decide
  have hdf : delayed_first busy_db.bets := by unfold delayed_first; decide
  have hmk : delayed_bets_have_markets busy_db := by
    unfold delayed_bets_have_markets; decide
  refine ⟨rfl, hu, hdf, hmk, fill_completely_frame, ?_⟩
  obtain ⟨_, s2, hrun, htr, _⟩ :=
    C8_group_update_flushes_delayed_bets fill_completely 6 ⟨true, []⟩ busy_db
      ⟨1, none, none, none, some false⟩ ⟨1, 0⟩ ⟨1, [], 0, 0, 0, false, true⟩ rfl rfl rfl rfl rfl
      hu hdf hmk fill_completely_frame (by decide)
  exact ⟨s2, hrun, htr⟩

/-- C8, counterexample to the claim as stated: group 1 of `busy_db` is not frozen and
delays bets; the validated update `freeze = true, delay_bets = false` switches the delay
off, yet apply hands no bet to `place_bet` and leaves every delayed bet of the group
delayed, because the frozen flag is written before the loop tests it. -/
theorem C8_counterexample_freeze_in_same_update :
    busy_db.find_betting_market_group 1 = some ⟨1, [], 0, 0, 0, false, true⟩ ∧
    delayed_first busy_db.bets ∧
    betting_market_group_update_evaluator.do_evaluate ⟨true, []⟩ busy_db
      ⟨1, none, none, some true, some false⟩ = .ok ⟨1, 0⟩ ∧
    (⟨0, 8, 1, ⟨20, 0⟩, 250, bet_type.lay, some ⟨1005⟩⟩ : bet_object) ∈ busy_db.bets ∧
    bet_in_group busy_db 1 ⟨0, 8, 1, ⟨20, 0⟩, 250, bet_type.lay, some ⟨1005⟩⟩ = true ∧
    ∀ place_bet : database → bet_object → database,
      (betting_market_group_update_evaluator.do_apply place_bet 6 ⟨1, 0⟩ busy_db
        ⟨1, none, none, some true, some false⟩).map (fun s => (s.place_bet_calls, s.db.bets))
        = some ([], busy_db.bets) := by
  refine ⟨rfl, by unfold delayed_first; decide, rfl, by decide, rfl, ?_⟩
  intro place_bet
  rfl

/-- C9: for a validated `group_update` that switches `delay_bets` from true to false on
group G (index with the delayed bets first, bet ids unique, every delayed bet on an
existing market, a matching engine that leaves delayed bets, markets and groups alone),
apply ends, every call of `place_bet` is on a bet of G, no bet of another group is passed
to `place_bet`, every delayed bet of another group is still stored with its `end_of_delay`,
and no bet has acquired an `end_of_delay`. -/
theorem C9_group_update_flush_leaves_other_groups
    (place_bet : database → bet_object → database) (fuel : Nat)
    (trx_state : transaction_evaluation_state) (d : database)
    (op : betting_market_group_update_operation) (ev : betting_market_group_update_evaluator)
    (g : betting_market_group_object)
    (hev : betting_market_group_update_evaluator.do_evaluate trx_state d op = .ok ev)
    (hg : d.find_betting_market_group op.betting_market_group_id = some g)
    (hdl : op.delay_bets = some false)
    (hu : bet_ids_unique d.bets) (hdf : delayed_first d.bets)
    (hmk : delayed_bets_have_markets d)
    (hframe : place_bet_frame place_bet)
    (hfuel : d.bets.length ≤ fuel) :
    ∃ s2 : apply_state,
      betting_market_group_update_evaluator.do_apply place_bet fuel ev d op = some s2 ∧
      (∀ x ∈ s2.place_bet_calls, bet_in_group d op.betting_market_group_id x = true) ∧
      (∀ b ∈ d.bets, bet_in_group d op.betting_market_group_id b = false →
        ∀ x ∈ s2.place_bet_calls, x.id ≠ b.id) ∧
      (∀ b ∈ d.bets, b.end_of_delay.isSome = true →
        bet_in_group d op.betting_market_group_id b = false → b ∈ s2.db.bets) ∧
      (∀ b ∈ s2.db.bets, b.end_of_delay.isSome = true → b ∈ d.bets) := by
  obtain ⟨s2, g4, hrun, _, htr, hdel, _, _, _⟩ :=
    group_update_flush_spec place_bet fuel trx_state d op ev g hev hg hdl hu hdf hmk
      (fun _ => hframe) hfuel
  have hcalls : ∀ x ∈ s2.place_bet_calls, ∃ b ∈ d.bets,
      bet_in_group d op.betting_market_group_id b = true ∧ x = clear_end_of_delay b := by
    intro x hx
    rw [htr] at hx
    obtain ⟨b, hb, rfl⟩ := List.mem_map.mp hx
    have hb1 := List.mem_filter.mp hb
    have hb2 := List.mem_filter.mp hb1.1
    refine ⟨b, hb2.1, ?_, rfl⟩
    have := hb1.2
    simp only [flushes, Bool.and_eq_true] at this
    exact this.1
  refine ⟨s2, hrun, ?_, ?_, ?_, ?_⟩
  · intro x hx
    obtain ⟨b, _, hbg, rfl⟩ := hcalls x hx
    exact hbg
  · intro b hb hbg x hx hid
    obtain ⟨b2, hb2, hbg2, rfl⟩ := hcalls x hx
    have : b2 = b := List.inj_on_of_nodup_map hu hb2 hb hid
    rw [this, hbg] at hbg2
    exact Bool.noConfusion hbg2
  · intro b hb hbd hbg
    have : b ∈ delayed_bets s2.db.bets := by
      rw [hdel]
      refine List.mem_filter.mpr ⟨List.mem_filter.mpr ⟨hb, hbd⟩, ?_⟩
      simp [flushes, hbg]
    exact (List.mem_filter.mp this).1
  · intro b hb hbd
    have : b ∈ delayed_bets s2.db.bets := List.mem_filter.mpr ⟨hb, hbd⟩
    rw [hdel] at this
    exact (List.mem_filter.mp (List.mem_filter.mp this).1).1

/-- C9, witness: the theorem at `busy_db`, for the update that switches `delay_bets` off on
group 1; the delayed bet 1 of group 2 is still stored, delayed. -/
theorem C9_group_update_flush_leaves_other_groups_witness :
    betting_market_group_update_evaluator.do_evaluate ⟨true, []⟩ busy_db
      ⟨1, none, none, none, some false⟩ = .ok ⟨1, 0⟩ ∧
    bet_ids_unique busy_db.bets ∧ delayed_first busy_db.bets ∧
    delayed_bets_have_markets busy_db ∧ place_bet_frame fill_completely ∧
    ∃ s2 : apply_state,
      betting_market_group_update_evaluator.do_apply fill_completely 6 ⟨1, 0⟩ busy_db
        ⟨1, none, none, none, some false⟩ = some s2 ∧
      (⟨1, 7, 2, ⟨10, 0⟩, 150, bet_type.back, some ⟨1006⟩⟩ : bet_object) ∈ s2.db.bets := by
  have hu : bet_ids_unique busy_db.bets := by unfold bet_ids_unique; decide
  have hdf : delayed_first busy_db.bets := by unfold delayed_first; decide
  have hmk : delayed_bets_have_markets busy_db := by
    unfold delayed_bets_have_markets; decide
  refine ⟨rfl, hu, hdf, hmk, fill_completely_frame, ?_⟩
  obtain ⟨s2, hrun, _, _, hkeep, _⟩ :=
    C9_group_update_flush_leaves_other_groups fill_completely 6 ⟨true, []⟩ busy_db
      ⟨1, none, none, none, some false⟩ ⟨1, 0⟩ ⟨1, [], 0, 0, 0, false, true⟩ rfl rfl rfl
      hu hdf hmk fill_completely_frame (by decide)
  exact ⟨s2, hrun, hkeep _ (by decide) rfl rfl⟩

/-- With the group frozen, whatever the flush loop returns is the state it started from. -/
theorem flush_delayed_bets_frozen_unchanged
    (place_bet : database → bet_object → database)
    (ev : betting_market_group_update_evaluator) (op : betting_market_group_update_operation)
    (g : betting_market_group_object) (s : apply_state)
    (hfz : g.frozen = true)
    (hg : s.db.find_betting_market_group ev._betting_market_group = some g) :
    ∀ (fuel : Nat) (it : Option bet_id_type) (last : Bool) (s2 : apply_state),
      flush_delayed_bets place_bet ev op fuel s it last = some s2 → s2 = s := by
  intro fuel
  induction fuel with
  | zero =>
    intro it last s2 h
    cases last
    · simp [flush_delayed_bets] at h
    · rw [flush_delayed_bets_done] at h
      exact (Option.some.inj h).symm
  | succ k ih =>
    intro it last s2 h
    cases last
    · cases it with
      | none => simp [flush_delayed_bets] at h
      | some id =>
        cases hb : s.db.find_bet id with
        | none => simp [flush_delayed_bets, hb] at h
        | some c =>
          cases hm : s.db.find_betting_market c.betting_market_id with
          | none => simp [flush_delayed_bets, hb, hm] at h
          | some m =>
            simp only [flush_delayed_bets, hb, hm, hg, hfz, Bool.not_true, Bool.and_false,
              Bool.false_eq_true, if_false] at h
            exact ih _ _ s2 h
    · rw [flush_delayed_bets_done] at h
      exact (Option.some.inj h).symm

/-- C10: for a validated `group_update` that switches `delay_bets` from true to false on a
group that is frozen and whose `freeze` field is absent, whatever apply returns it has made
no call of `place_bet` and has left every bet, and so every `end_of_delay`, as it was; and
apply does return when bet ids are unique and every delayed bet is on an existing market. -/
theorem C10_frozen_group_keeps_delayed_bets
    (place_bet : database → bet_object → database) (fuel : Nat)
    (trx_state : transaction_evaluation_state) (d : database)
    (op : betting_market_group_update_operation) (ev : betting_market_group_update_evaluator)
    (g : betting_market_group_object)
    (hev : betting_market_group_update_evaluator.do_evaluate trx_state d op = .ok ev)
    (hg : d.find_betting_market_group op.betting_market_group_id = some g)
    (hdl : op.delay_bets = some false)
    (hfrozen : g.frozen = true) (hfreeze : op.freeze = none) :
    (∀ s2 : apply_state,
      betting_market_group_update_evaluator.do_apply place_bet fuel ev d op = some s2 →
      s2.place_bet_calls = [] ∧ s2.db.bets = d.bets) ∧
    (bet_ids_unique d.bets → delayed_bets_have_markets d → d.bets.length ≤ fuel →
      ∃ s2 : apply_state,
        betting_market_group_update_evaluator.do_apply place_bet fuel ev d op = some s2) := by
  obtain ⟨g2, hg2, hevid, _, _, _⟩ := group_update_do_evaluate_ok trx_state d op ev hev
  have hgev : d.find_betting_market_group ev._betting_market_group = some g := by
    rw [hevid]; exact hg
  obtain ⟨hb4, hm4, g4, hg4, hfz4⟩ := group_update_write_fields ev d op g hgev
  rw [hfreeze] at hfz4
  simp only [hfrozen] at hfz4
  have hrun : betting_market_group_update_evaluator.do_apply place_bet fuel ev d op =
      flush_delayed_bets place_bet ev op fuel
        { db := betting_market_group_update_evaluator.write_fields ev d op, place_bet_calls := [] }
        (bet_index_begin d.bets) (bet_iter_last d.bets (bet_index_begin d.bets)) := by
    simp only [betting_market_group_update_evaluator.do_apply, hgev, hdl, Option.bind_eq_bind,
      Option.some_bind, Bool.not_false, if_true, hb4]
  constructor
  · intro s2 h
    rw [hrun] at h
    have := flush_delayed_bets_frozen_unchanged place_bet ev op g4
      { db := betting_market_group_update_evaluator.write_fields ev d op, place_bet_calls := [] }
      hfz4 hg4 fuel _ _ s2 h
    rw [this]
    exact ⟨rfl, hb4⟩
  · intro hu hmk hfuel
    have hmk4 : delayed_bets_have_markets
        (betting_market_group_update_evaluator.write_fields ev d op) := by
      intro b hb
      rw [hb4] at hb
      have := hmk b hb
      unfold database.find_betting_market at this ⊢
      rw [hm4]
      exact this
    refine ⟨{ db := betting_market_group_update_evaluator.write_fields ev d op,
              place_bet_calls := [] }, ?_⟩
    rw [hrun, bet_iter_last_begin d.bets hu]
    cases hbl : d.bets with
    | nil => exact flush_delayed_bets_done _ _ _ _ _ _
    | cons c rest =>
      cases hce : c.end_of_delay with
      | none =>
        simp only [List.head?_cons, Option.map_some', hce, Option.isNone_none, Option.getD_some]
        exact flush_delayed_bets_done _ _ _ _ _ _
      | some t =>
        simp only [List.head?_cons, Option.map_some', hce, Option.isNone_some, Option.getD_some]
        have hlen : rest.length < fuel := by
          rw [hbl] at hfuel
          simp only [List.length_cons] at hfuel
          omega
        exact flush_delayed_bets_frozen place_bet ev op g4
          { db := betting_market_group_update_evaluator.write_fields ev d op,
            place_bet_calls := [] }
          hfz4 hg4 (by simp only [hb4]; exact hu) hmk4 rest c [] fuel hlen
          (by simp only [hb4, hbl]; rfl) (by rw [hce]; rfl)

/-- C10, witness: the theorem at `busy_db`, for the update that switches `delay_bets` off
on the frozen group 3. -/
theorem C10_frozen_group_keeps_delayed_bets_witness :
    betting_market_group_update_evaluator.do_evaluate ⟨true, []⟩ busy_db
      ⟨3, none, none, none, some false⟩ = .ok ⟨3, 0⟩ ∧
    busy_db.find_betting_market_group 3 = some ⟨3, [], 0, 0, 0, true, true⟩ ∧
    bet_ids_unique busy_db.bets ∧ delayed_bets_have_markets busy_db ∧
    ∃ s2 : apply_state,
      betting_market_group_update_evaluator.do_apply fill_completely 6 ⟨3, 0⟩ busy_db
        ⟨3, none, none, none, some false⟩ = some s2 ∧
      s2.place_bet_calls = [] ∧ s2.db.bets = busy_db.bets := by
  have hu : bet_ids_unique busy_db.bets := by unfold bet_ids_unique; decide
  have hmk : delayed_bets_have_markets busy_db := by
    unfold delayed_bets_have_markets; decide
  have h := C10_frozen_group_keeps_delayed_bets fill_completely 6 ⟨true, []⟩ busy_db
    ⟨3, none, none, none, some false⟩ ⟨3, 0⟩ ⟨3, [], 0, 0, 0, true, true⟩ rfl rfl rfl rfl rfl
  obtain ⟨s2, hs2⟩ := h.2 hu hmk (by decide)
  exact ⟨rfl, rfl, hu, hmk, s2, hs2, h.1 s2 hs2⟩

/-! ## group_create -/

theorem object_id_of_has_type (id : object_id_type) (type_id : Nat)
    (h : has_type id type_id = true) : object_id type_id id.instance_number = id := by
  cases id with
  | mk space type instance_number =>
    simp only [has_type, Bool.and_eq_true, beq_iff_eq] at h
    simp only [object_id, h.1, h.2]

/-- What `betting_market_group_create_evaluator::do_evaluate` returns, case by case. -/
theorem group_create_do_evaluate_eq_ok_iff (trx_state : transaction_evaluation_state)
    (d : database) (op : betting_market_group_create_operation)
    (ev : betting_market_group_create_evaluator) :
    betting_market_group_create_evaluator.do_evaluate trx_state d op = .ok ev ↔
      trx_state._is_proposed_trx = true ∧
      ∃ e r, resolve_id trx_state op.event_id = .ok e ∧
        resolve_id trx_state op.rules_id = .ok r ∧
        has_type e event_object_type = true ∧ d.find_object e = true ∧
        d.find_object (object_id asset_object_type op.asset_id) = true ∧
        has_type r betting_market_rules_object_type = true ∧ d.find_object r = true ∧
        ev = { _event_id := e.instance_number, _rules_id := r.instance_number } := by
  unfold betting_market_group_create_evaluator.do_evaluate
  cases hp : trx_state._is_proposed_trx
  · simp [fc_assert, bind, Except.bind]
  · cases he : resolve_id trx_state op.event_id with
    | error x => simp [fc_assert, bind, Except.bind]
    | ok e =>
      cases hte : has_type e event_object_type
      · simp [fc_assert, bind, Except.bind, hte]
      · have hoe := object_id_of_has_type e _ hte
        simp only [object_id] at hoe
        cases hfe : d.find_object e
        · simp [fc_assert, bind, Except.bind, hte, hoe, hfe]
        · cases hfa : d.find_object (object_id asset_object_type op.asset_id)
          · simp only [object_id] at hfa
            simp [fc_assert, bind, Except.bind, hte, hoe, hfe, hfa, object_id]
          · simp only [object_id] at hfa
            cases hr : resolve_id trx_state op.rules_id with
            | error x => simp [fc_assert, bind, Except.bind, hte, hoe, hfe, hfa, object_id]
            | ok r =>
              cases htr : has_type r betting_market_rules_object_type
              · simp [fc_assert, bind, Except.bind, hte, hoe, hfe, hfa, object_id, htr]
              · have hor := object_id_of_has_type r _ htr
                simp only [object_id] at hor
                cases hfr : d.find_object r
                · simp [fc_assert, bind, Except.bind, hte, hoe, hfe, hfa, object_id, htr, hor,
                    hfr]
                · simp [fc_assert, bind, Except.bind, hte, hoe, hfe, hfa, object_id, htr, hor,
                    hfr, pure, Except.pure]
                  exact eq_comm

/-- C13: for a `group_create` in a proposal transaction, validation succeeds if and only if
the event id and the rules id, each resolved against the transaction's creation index when
relative, carry the event and the rules type tag and are found in the store, and the
`asset_id` is found in the store; in every other case it fails. -/
theorem C13_group_create_validation_iff (trx_state : transaction_evaluation_state)
    (d : database) (op : betting_market_group_create_operation)
    (hp : trx_state._is_proposed_trx = true) :
    succeeded (betting_market_group_create_evaluator.do_evaluate trx_state d op) = true ↔
      ∃ e r, resolve_id trx_state op.event_id = .ok e ∧
        resolve_id trx_state op.rules_id = .ok r ∧
        has_type e event_object_type = true ∧ d.find_object e = true ∧
        d.find_object (object_id asset_object_type op.asset_id) = true ∧
        has_type r betting_market_rules_object_type = true ∧ d.find_object r = true := by
  rw [succeeded_iff_exists_ok]
  constructor
  · rintro ⟨ev, hev⟩
    obtain ⟨_, e, r, h1, h2, h3, h4, h5, h6, h7, _⟩ :=
      (group_create_do_evaluate_eq_ok_iff trx_state d op ev).mp hev
    exact ⟨e, r, h1, h2, h3, h4, h5, h6, h7⟩
  · rintro ⟨e, r, h1, h2, h3, h4, h5, h6, h7⟩
    exact ⟨_, (group_create_do_evaluate_eq_ok_iff trx_state d op _).mpr
      ⟨hp, e, r, h1, h2, h3, h4, h5, h6, h7, rfl⟩⟩

/-- C13, witness: the theorem at `example_db`, for a `group_create` whose event id is
relative (the object created by operation 0 of the transaction). -/
theorem C13_group_create_validation_iff_witness :
    succeeded (betting_market_group_create_evaluator.do_evaluate
      ⟨true, [operation_result.object_id (object_id event_object_type 0)]⟩ example_db
      ⟨[], ⟨0, 0, 0⟩, object_id betting_market_rules_object_type 0, 0⟩) = true ∧
    resolve_id ⟨true, [operation_result.object_id (object_id event_object_type 0)]⟩ ⟨0, 0, 0⟩
      = .ok (object_id event_object_type 0) :=
  ⟨(C13_group_create_validation_iff
      ⟨true, [operation_result.object_id (object_id event_object_type 0)]⟩ example_db
      ⟨[], ⟨0, 0, 0⟩, object_id betting_market_rules_object_type 0, 0⟩ rfl).mpr
      ⟨object_id event_object_type 0, object_id betting_market_rules_object_type 0,
        rfl, rfl, rfl, rfl, rfl, rfl, rfl⟩, rfl⟩

/-- C14: for a validated `group_create`, apply adds exactly one group, the last of the
table: its `frozen` and `delay_bets` flags are false, its `event_id` and `rules_id` are the
resolved ids computed during validation, its `asset_id` and `description` are the
operation's; the returned id is the id of that group; nothing else in the store changes
but the counter of group ids. -/
theorem C14_group_create_apply (trx_state : transaction_evaluation_state)
    (d : database) (op : betting_market_group_create_operation)
    (ev : betting_market_group_create_evaluator)
    (h : betting_market_group_create_evaluator.do_evaluate trx_state d op = .ok ev) :
    ∃ (e r : object_id_type) (g : betting_market_group_object),
      resolve_id trx_state op.event_id = .ok e ∧
      resolve_id trx_state op.rules_id = .ok r ∧
      (betting_market_group_create_evaluator.do_apply ev d op).2.betting_market_groups
        = d.betting_market_groups ++ [g] ∧
      g.frozen = false ∧ g.delay_bets = false ∧
      object_id event_object_type g.event_id = e ∧
      object_id betting_market_rules_object_type g.rules_id = r ∧
      g.asset_id = op.asset_id ∧ g.description = op.description ∧
      (betting_market_group_create_evaluator.do_apply ev d op).1
        = object_id betting_market_group_object_type g.id ∧
      (betting_market_group_create_evaluator.do_apply ev d op).2
        = { d with
            betting_market_groups := d.betting_market_groups ++ [g]
            next_betting_market_group_id := d.next_betting_market_group_id + 1 } := by
  obtain ⟨_, e, r, h1, h2, h3, _, _, h6, _, rfl⟩ :=
    (group_create_do_evaluate_eq_ok_iff trx_state d op ev).mp h
  exact ⟨e, r,
    { id := d.next_betting_market_group_id
      description := op.description
      event_id := e.instance_number
      rules_id := r.instance_number
      asset_id := op.asset_id
      frozen := false
      delay_bets := false },
    h1, h2, rfl, rfl, rfl, object_id_of_has_type e _ h3, object_id_of_has_type r _ h6, rfl, rfl,
    rfl, rfl⟩

/-- C14, witness: the theorem at `example_db`, for a `group_create` whose event id is
relative. -/
theorem C14_group_create_apply_witness :
    betting_market_group_create_evaluator.do_evaluate
      ⟨true, [operation_result.object_id (object_id event_object_type 0)]⟩ example_db
      ⟨[], ⟨0, 0, 0⟩, object_id betting_market_rules_object_type 0, 0⟩ = .ok ⟨0, 0⟩ ∧
    ∃ g : betting_market_group_object,
      (betting_market_group_create_evaluator.do_apply ⟨0, 0⟩ example_db
        ⟨[], ⟨0, 0, 0⟩, object_id betting_market_rules_object_type 0, 0⟩).2.betting_market_groups
        = example_db.betting_market_groups ++ [g] ∧ g.frozen = false ∧ g.delay_bets = false := by
  refine ⟨rfl, ?_⟩
  obtain ⟨_, _, g, _, _, hg, hf, hd, _⟩ :=
    C14_group_create_apply
      ⟨true, [operation_result.object_id (object_id event_object_type 0)]⟩ example_db
      ⟨[], ⟨0, 0, 0⟩, object_id betting_market_rules_object_type 0, 0⟩ ⟨0, 0⟩ rfl
  exact ⟨g, hg, hf, hd⟩

/-! ## Updates that change nothing -/

/-- C15: each of the three update operations fails validation when every optional field is
absent, whatever the store and the transaction: `rules_update` with neither `new_name` nor
`new_description`, `group_update` with none of `new_description`, `new_rules_id`, `freeze`,
`delay_bets`, and `market_update` with none of `new_group_id`, `new_description`,
`new_payout_condition`. -/
theorem C15_update_with_nothing_to_update_rejected (trx_state : transaction_evaluation_state)
    (d : database) :
    (∀ id, succeeded (betting_market_rules_update_evaluator.do_evaluate trx_state d
      { betting_market_rules_id := id, new_name := none, new_description := none }) = false) ∧
    (∀ id, succeeded (betting_market_group_update_evaluator.do_evaluate trx_state d
      { betting_market_group_id := id, new_description := none, new_rules_id := none,
        freeze := none, delay_bets := none }) = false) ∧
    (∀ id, succeeded (betting_market_update_evaluator.do_evaluate trx_state d
      { betting_market_id := id, new_group_id := none, new_description := none,
        new_payout_condition := none }) = false) := by
  refine ⟨?_, ?_, ?_⟩ <;> intro id
  · unfold betting_market_rules_update_evaluator.do_evaluate
    cases trx_state._is_proposed_trx <;> cases d.find_betting_market_rules id <;>
      simp [fc_assert, deref, bind, Except.bind, succeeded]
  · unfold betting_market_group_update_evaluator.do_evaluate
    cases trx_state._is_proposed_trx <;> cases d.find_betting_market_group id <;>
      simp [fc_assert, deref, bind, Except.bind, succeeded]
  · unfold betting_market_update_evaluator.do_evaluate
    cases trx_state._is_proposed_trx <;> cases d.find_betting_market id <;>
      simp [fc_assert, deref, bind, Except.bind, succeeded]

/-! ## Writes to one object of a table -/

theorem find_update_first_key {α : Type} (key : α → Nat) (id : Nat) (f : α → α)
    (hf : ∀ x, key (f x) = key x) (l : List α) :
    (update_first (fun x => key x == id) f l).find? (fun x => key x == id)
      = (l.find? (fun x => key x == id)).map f := by
  induction l with
  | nil => rfl
  | cons x xs ih =>
    cases hx : (key x == id)
    · rw [update_first, hx, List.find?_cons, hx]
      simp only [Bool.false_eq_true, if_false, List.find?_cons, hx]
      exact ih
    · have hfx : (key (f x) == id) = true := by rw [hf x]; exact hx
      rw [update_first, hx, List.find?_cons, hx]
      simp only [if_true, List.find?_cons, hfx, Option.map_some']

theorem find_update_first_other_key {α : Type} (key : α → Nat) (id id2 : Nat) (f : α → α)
    (hf : ∀ x, key (f x) = key x) (hne : id2 ≠ id) (l : List α) :
    (update_first (fun x => key x == id) f l).find? (fun x => key x == id2)
      = l.find? (fun x => key x == id2) := by
  induction l with
  | nil => rfl
  | cons x xs ih =>
    cases hx : (key x == id)
    · rw [update_first, hx]
      simp only [Bool.false_eq_true, if_false, List.find?_cons, ih]
    · have hx2 : (key x == id2) = false := by
        simp only [beq_iff_eq] at hx
        simp only [beq_eq_false_iff_ne, ne_eq, hx]
        exact fun h => hne h.symm
      have hfx2 : (key (f x) == id2) = false := by rw [hf x]; exact hx2
      rw [update_first, hx]
      simp only [if_true, List.find?_cons, hx2, hfx2]

theorem find_betting_market_rules_id (d : database) (id : betting_market_rules_id_type)
    (r : betting_market_rules_object) (h : d.find_betting_market_rules id = some r) :
    r.id = id := by
  unfold database.find_betting_market_rules at h
  simpa using List.find?_some h

theorem find_modify_betting_market_rules (d : database) (id : betting_market_rules_id_type)
    (f : betting_market_rules_object → betting_market_rules_object)
    (hf : ∀ x, (f x).id = x.id) :
    (d.modify_betting_market_rules id f).find_betting_market_rules id
      = (d.find_betting_market_rules id).map f := by
  unfold database.modify_betting_market_rules database.find_betting_market_rules
  exact find_update_first_key (fun r : betting_market_rules_object => r.id) id f hf
    d.betting_market_rules

theorem find_modify_betting_market_rules_other (d : database)
    (id id2 : betting_market_rules_id_type)
    (f : betting_market_rules_object → betting_market_rules_object)
    (hf : ∀ x, (f x).id = x.id) (hne : id2 ≠ id) :
    (d.modify_betting_market_rules id f).find_betting_market_rules id2
      = d.find_betting_market_rules id2 := by
  unfold database.modify_betting_market_rules database.find_betting_market_rules
  exact find_update_first_other_key (fun r : betting_market_rules_object => r.id) id id2 f hf
    hne d.betting_market_rules

/-! ## rules_update -/

theorem rules_update_do_evaluate_ok (trx_state : transaction_evaluation_state) (d : database)
    (op : betting_market_rules_update_operation) (ev : betting_market_rules_update_evaluator)
    (h : betting_market_rules_update_evaluator.do_evaluate trx_state d op = .ok ev) :
    ∃ r, d.find_betting_market_rules op.betting_market_rules_id = some r ∧
      ev._rules = op.betting_market_rules_id ∧
      (op.new_name.isSome || op.new_description.isSome) = true := by
  unfold betting_market_rules_update_evaluator.do_evaluate at h
  cases hp : trx_state._is_proposed_trx
  · simp [hp, fc_assert, bind, Except.bind] at h
  · cases hr : d.find_betting_market_rules op.betting_market_rules_id with
    | none => simp [hp, hr, deref, fc_assert, bind, Except.bind] at h
    | some r =>
      cases hn : (op.new_name.isSome || op.new_description.isSome)
      · simp [hp, hr, deref, fc_assert, bind, Except.bind, hn] at h
      · simp [hp, hr, deref, fc_assert, bind, Except.bind, hn, pure, Except.pure] at h
        refine ⟨r, rfl, ?_, rfl⟩
        rw [← h]
        exact find_betting_market_rules_id d _ r hr

/-- C16: for a validated `rules_update`, apply returns, and after it the rules object's name
is `new_name` if present and its prior name otherwise, its description is `new_description`
if present and its prior description otherwise; the lookup of every other rules id gives
what it gave before, and no other table of the store changes. -/
theorem C16_rules_update_apply (trx_state : transaction_evaluation_state) (d : database)
    (op : betting_market_rules_update_operation) (ev : betting_market_rules_update_evaluator)
    (h : betting_market_rules_update_evaluator.do_evaluate trx_state d op = .ok ev) :
    ∃ (r : betting_market_rules_object) (d2 : database),
      d.find_betting_market_rules op.betting_market_rules_id = some r ∧
      betting_market_rules_update_evaluator.do_apply ev d op = some d2 ∧
      d2.find_betting_market_rules op.betting_market_rules_id
        = some { r with
                 name := op.new_name.getD r.name
                 description := op.new_description.getD r.description } ∧
      (∀ id, id ≠ op.betting_market_rules_id →
        d2.find_betting_market_rules id = d.find_betting_market_rules id) ∧
      d2 = { d with betting_market_rules := d2.betting_market_rules } := by
  obtain ⟨r, hr, hev, _⟩ := rules_update_do_evaluate_ok trx_state d op ev h
  have hr' : d.find_betting_market_rules ev._rules = some r := by rw [hev]; exact hr
  refine ⟨r,
    (match op.new_description with
      | some v =>
        (match op.new_name with
          | some v => d.modify_betting_market_rules ev._rules (fun r => { r with name := v })
          | none => d).modify_betting_market_rules ev._rules
            (fun r => { r with description := v })
      | none =>
        (match op.new_name with
          | some v => d.modify_betting_market_rules ev._rules (fun r => { r with name := v })
          | none => d)),
    hr, ?_, ?_, ?_, ?_⟩
  · cases hn : op.new_name <;> cases hd : op.new_description <;>
      simp only [betting_market_rules_update_evaluator.do_apply, hr', hn, hd,
        Option.bind_eq_bind, Option.some_bind]
  · rw [← hev]
    cases op.new_name <;> cases op.new_description <;>
      simp [find_modify_betting_market_rules, hr']
  · intro id hne
    rw [← hev] at hne
    cases op.new_name <;> cases op.new_description <;>
      simp [find_modify_betting_market_rules_other, hne]
  · cases op.new_name <;> cases op.new_description <;> rfl

/-- C16, witness: the theorem at `example_db`, for an update that renames rules 0. -/
theorem C16_rules_update_apply_witness :
    betting_market_rules_update_evaluator.do_evaluate ⟨true, []⟩ example_db
      ⟨0, some [("en", "new name")], none⟩ = .ok ⟨0⟩ ∧
    ∃ d2 : database,
      betting_market_rules_update_evaluator.do_apply ⟨0⟩ example_db
        ⟨0, some [("en", "new name")], none⟩ = some d2 ∧
      d2.find_betting_market_rules 0 = some ⟨0, [("en", "new name")], []⟩ := by
  refine ⟨rfl, ?_⟩
  obtain ⟨r, d2, hr, hd2, hfind, _⟩ :=
    C16_rules_update_apply ⟨true, []⟩ example_db ⟨0, some [("en", "new name")], none⟩ ⟨0⟩ rfl
  have : r = ⟨0, [], []⟩ := by
    have h0 : example_db.find_betting_market_rules 0 = some ⟨0, [], []⟩ := rfl
    rw [h0] at hr
    exact (Option.some.inj hr).symm
  subst this
  exact ⟨d2, hd2, hfind⟩

/-! ## bet_cancel -/

/-- C17: for an existing bet and a `bet_cancel` naming it, validation succeeds if and only
if the operation's `bettor_id` is the bet's `bettor_id`; a `bet_cancel` issued for another
account's bet is rejected, and processing it leaves the store, and the bet in it, as they
were. -/
theorem C17_bet_cancel_own_bets_only (d : database) (op : bet_cancel_operation)
    (bet : bet_object) (hb : d.find_bet op.bet_to_cancel = some bet) :
    (succeeded (bet_cancel_evaluator.do_evaluate d op) = true ↔
      op.bettor_id = bet.bettor_id) ∧
    (op.bettor_id ≠ bet.bettor_id →
      ∀ (db_members : database_members) (fuel : Nat) (trx_state : transaction_evaluation_state),
        process_operation db_members fuel trx_state d (operation.bet_cancel op) = d ∧
        (process_operation db_members fuel trx_state d
          (operation.bet_cancel op)).find_bet op.bet_to_cancel = some bet) := by
  have hiff : succeeded (bet_cancel_evaluator.do_evaluate d op) = true ↔
      op.bettor_id = bet.bettor_id := by
    unfold bet_cancel_evaluator.do_evaluate
    by_cases hbe : op.bettor_id = bet.bettor_id
    · simp [hb, deref, fc_assert, bind, Except.bind, hbe, succeeded, pure, Except.pure]
    · simp [hb, deref, fc_assert, bind, Except.bind, hbe, succeeded]
  refine ⟨hiff, ?_⟩
  intro hne db_members fuel trx_state
  have hfail : succeeded (bet_cancel_evaluator.do_evaluate d op) = false := by
    cases hs : succeeded (bet_cancel_evaluator.do_evaluate d op)
    · rfl
    · exact absurd (hiff.mp hs) hne
  have hproc : process_operation db_members fuel trx_state d (operation.bet_cancel op) = d := by
    cases he : bet_cancel_evaluator.do_evaluate d op with
    | error e => simp only [process_operation, evaluate_and_apply, he]
    | ok ev => rw [he] at hfail; exact Bool.noConfusion hfail
  exact ⟨hproc, by rw [hproc]; exact hb⟩

/-- C17, witness: the theorem at `two_asset_db`, where bet 0 belongs to account 7. -/
theorem C17_bet_cancel_own_bets_only_witness :
    two_asset_db.find_bet 0 = some ⟨0, 7, 0, ⟨10, 0⟩, 150, bet_type.back, none⟩ ∧
    succeeded (bet_cancel_evaluator.do_evaluate two_asset_db ⟨8, 0⟩) = false ∧
    succeeded (bet_cancel_evaluator.do_evaluate two_asset_db ⟨7, 0⟩) = true ∧
    process_operation example_members 0 ⟨false, []⟩ two_asset_db (operation.bet_cancel ⟨8, 0⟩)
      = two_asset_db :=
  ⟨rfl, rfl,
    (C17_bet_cancel_own_bets_only two_asset_db ⟨7, 0⟩
      ⟨0, 7, 0, ⟨10, 0⟩, 150, bet_type.back, none⟩ rfl).1.mpr rfl,
    ((C17_bet_cancel_own_bets_only two_asset_db ⟨8, 0⟩
      ⟨0, 7, 0, ⟨10, 0⟩, 150, bet_type.back, none⟩ rfl).2 (by decide) example_members 0
      ⟨false, []⟩).1⟩

/-! ## Validation and the store -/

theorem mem_existed_operations {Op : Type} (proposals : List (proposal_object Op)) (o : Op) :
    o ∈ existed_operations proposals ↔ ∃ p ∈ proposals, o ∈ p.proposed_transaction := by
  simp [existed_operations, List.mem_flatten]

theorem mem_proposed_operations {Op : Type} (trx : List (transaction_operation Op)) (o : Op) :
    o ∈ proposed_operations trx ↔
      ∃ ops, transaction_operation.proposal_create ops ∈ trx ∧ o ∈ ops := by
  unfold proposed_operations
  rw [List.mem_flatten]
  constructor
  · rintro ⟨l, hl, ho⟩
    obtain ⟨t, ht, rfl⟩ := List.mem_map.mp hl
    cases t with
    | proposal_create ops => exact ⟨ops, ht, ho⟩
    | other x => exact absurd ho (List.not_mem_nil _)
  · rintro ⟨ops, ht, ho⟩
    exact ⟨ops, List.mem_map.mpr ⟨_, ht, rfl⟩, ho⟩

/-- The guard accepts exactly when no operation proposed by the incoming transaction is an
operation of a pending proposal. -/
theorem check_duplicated_operations_succeeded_iff {Op : Type} [DecidableEq Op]
    (proposals : List (proposal_object Op)) (trx : List (transaction_operation Op)) :
    succeeded (check_tansaction_for_duplicated_operations proposals trx) = true ↔
      ∀ o ∈ proposed_operations trx, o ∉ existed_operations proposals := by
  unfold check_tansaction_for_duplicated_operations fc_assert
  split
  · rename_i h
    simp only [succeeded, true_iff]
    intro o ho
    have := List.all_eq_true.mp h o ho
    simpa using this
  · rename_i h
    simp only [succeeded, Bool.false_eq_true, false_iff]
    intro hall
    apply h
    rw [List.all_eq_true]
    intro o ho
    simpa using hall o ho

/-- C19: if some operation proposed inside a `proposal_create` of the incoming transaction
is equal to some operation of the proposed transaction of some pending proposal, the
duplicate check rejects the transaction, wherever the two operations stand and whatever
other operations either side contains. -/
theorem C19_duplicate_proposed_operation_rejected {Op : Type} [DecidableEq Op]
    (proposals : List (proposal_object Op)) (trx : List (transaction_operation Op))
    (p : proposal_object Op) (ops : List Op) (o : Op)
    (hp : p ∈ proposals) (hpo : o ∈ p.proposed_transaction)
    (ht : transaction_operation.proposal_create ops ∈ trx) (hto : o ∈ ops) :
    succeeded (check_tansaction_for_duplicated_operations proposals trx) = false := by
  cases hs : succeeded (check_tansaction_for_duplicated_operations proposals trx)
  · rfl
  · exact absurd ((mem_existed_operations proposals o).mpr ⟨p, hp, hpo⟩)
      ((check_duplicated_operations_succeeded_iff proposals trx).mp hs o
        ((mem_proposed_operations trx o).mpr ⟨ops, ht, hto⟩))

/-- C19, witness: the theorem at the test with several operations on both sides: the pending
proposal holds transfers of 499 and 500, the incoming transaction proposes 501 and 500. -/
theorem C19_duplicate_proposed_operation_rejected_witness :
    succeeded (check_tansaction_for_duplicated_operations
      [⟨[make_transfer_operation 0 1 ⟨499, 0⟩, make_transfer_operation 0 1 ⟨500, 0⟩]⟩]
      [transaction_operation.proposal_create
        [make_transfer_operation 0 1 ⟨501, 0⟩, make_transfer_operation 0 1 ⟨500, 0⟩]]) = false :=
  C19_duplicate_proposed_operation_rejected
    [⟨[make_transfer_operation 0 1 ⟨499, 0⟩, make_transfer_operation 0 1 ⟨500, 0⟩]⟩]
    [transaction_operation.proposal_create
      [make_transfer_operation 0 1 ⟨501, 0⟩, make_transfer_operation 0 1 ⟨500, 0⟩]]
    ⟨[make_transfer_operation 0 1 ⟨499, 0⟩, make_transfer_operation 0 1 ⟨500, 0⟩]⟩
    [make_transfer_operation 0 1 ⟨501, 0⟩, make_transfer_operation 0 1 ⟨500, 0⟩]
    (make_transfer_operation 0 1 ⟨500, 0⟩)
    (List.mem_singleton.mpr rfl) (List.mem_cons_of_mem _ (List.mem_singleton.mpr rfl))
    (List.mem_singleton.mpr rfl) (List.mem_cons_of_mem _ (List.mem_singleton.mpr rfl))

/-- C20: if no operation proposed by the incoming transaction is equal to an operation of a
pending proposal, the duplicate check accepts the transaction (whether or not the proposed
operations are pairwise distinct); in particular it accepts when there are no pending
proposals, and a proposed transfer that differs from a pending one only in its amount is
accepted. -/
theorem C20_no_duplicate_accepted {Op : Type} [DecidableEq Op]
    (proposals : List (proposal_object Op)) (trx : List (transaction_operation Op)) :
    ((∀ ops, transaction_operation.proposal_create ops ∈ trx → ∀ o ∈ ops,
        ∀ p ∈ proposals, o ∉ p.proposed_transaction) →
      succeeded (check_tansaction_for_duplicated_operations proposals trx) = true) ∧
    succeeded (check_tansaction_for_duplicated_operations ([] : List (proposal_object Op)) trx)
      = true ∧
    (∀ (from_account to_account : account_id_type) (asset_id : asset_id_type)
       (amount1 amount2 : share_type), amount1 ≠ amount2 →
      succeeded (check_tansaction_for_duplicated_operations
        [⟨[make_transfer_operation from_account to_account ⟨amount1, asset_id⟩]⟩]
        [transaction_operation.proposal_create
          [make_transfer_operation from_account to_account ⟨amount2, asset_id⟩]]) = true) := by
  refine ⟨?_, ?_, ?_⟩
  · intro h
    rw [check_duplicated_operations_succeeded_iff]
    intro o ho hex
    obtain ⟨ops, ht, hto⟩ := (mem_proposed_operations trx o).mp ho
    obtain ⟨p, hp, hpo⟩ := (mem_existed_operations proposals o).mp hex
    exact h ops ht o hto p hp hpo
  · rw [check_duplicated_operations_succeeded_iff]
    intro o _ hex
    obtain ⟨p, hp, _⟩ := (mem_existed_operations [] o).mp hex
    exact absurd hp (List.not_mem_nil _)
  · intro from_account to_account asset_id amount1 amount2 hne
    rw [check_duplicated_operations_succeeded_iff]
    intro o ho hex
    obtain ⟨ops, ht, hto⟩ := (mem_proposed_operations _ o).mp ho
    obtain ⟨p, hp, hpo⟩ := (mem_existed_operations _ o).mp hex
    rw [List.mem_singleton] at ht hp
    cases ht
    subst hp
    rw [List.mem_singleton] at hto hpo
    rw [hto] at hpo
    simp only [make_transfer_operation, transfer_operation.mk.injEq, asset.mk.injEq, true_and,
      and_true] at hpo
    exact hne hpo.symm

/-- C20, witness: the theorem at the tests: a proposed transfer of 501 against a pending
proposal of a transfer of 500 is accepted, through the general statement and through the
statement about amounts, and so is any transaction when no proposal is pending. -/
theorem C20_no_duplicate_accepted_witness :
    succeeded (check_tansaction_for_duplicated_operations
      [⟨[make_transfer_operation 0 1 ⟨500, 0⟩]⟩]
      [transaction_operation.proposal_create [make_transfer_operation 0 1 ⟨501, 0⟩]]) = true ∧
    succeeded (check_tansaction_for_duplicated_operations
      ([] : List (proposal_object transfer_operation))
      [transaction_operation.proposal_create [make_transfer_operation 0 1 ⟨501, 0⟩]]) = true ∧
    succeeded (check_tansaction_for_duplicated_operations
      [⟨[make_transfer_operation 0 1 ⟨500, 0⟩]⟩]
      [transaction_operation.proposal_create [make_transfer_operation 0 1 ⟨501, 0⟩]]) = true :=
  have hall := C20_no_duplicate_accepted
    [⟨[make_transfer_operation 0 1 ⟨500, 0⟩]⟩]
    [transaction_operation.proposal_create [make_transfer_operation 0 1 ⟨501, 0⟩]]
  ⟨hall.1 (by
      intro ops hops o ho p hp hpo
      rw [List.mem_singleton] at hops hp
      cases hops
      subst hp
      rw [List.mem_singleton] at ho hpo
      rw [ho] at hpo
      exact absurd hpo (by decide)),
   hall.2.1, hall.2.2 0 1 0 500 501 (by decide)⟩

/-! ## The validate phase leaves the store -/

/-- The apply phase of `rules_create`, run on a store, does not leave it: the `create` it
calls adds an object. -/
theorem rules_create_do_apply_on_store_changes_store
    (op : betting_market_rules_create_operation) (d : database) :
    betting_market_rules_create_evaluator.do_apply_on_store op d
      = (.ok (betting_market_rules_create_evaluator.do_apply d op).1,
         (betting_market_rules_create_evaluator.do_apply d op).2) ∧
    (betting_market_rules_create_evaluator.do_apply_on_store op d).2 ≠ d := by
  have h : betting_market_rules_create_evaluator.do_apply_on_store op d
      = (.ok (betting_market_rules_create_evaluator.do_apply d op).1,
         (betting_market_rules_create_evaluator.do_apply d op).2) := rfl
  refine ⟨h, ?_⟩
  rw [h]
  intro hd
  have hn := congrArg database.next_betting_market_rules_id hd
  simp [betting_market_rules_create_evaluator.do_apply,
    database.create_betting_market_rules] at hn

/-- C11: the invariant is not preserved by `betting_market_update` with a `new_group_id`.
In the store `two_asset_db` every bet's asset is the asset of the group that owns its
market; the update that moves market 0 (on which account 7 has a bet in asset 0) to group 1
(asset 1) passes validation as a proposed operation, is applied, and in the store after it
the bet's asset is no longer its market's group's asset. -/
theorem C11_market_update_breaks_bet_asset_invariant :
    bets_match_group_asset two_asset_db ∧
    betting_market_update_evaluator.do_evaluate ⟨true, []⟩ two_asset_db move_market_update
      = .ok ⟨0, 1⟩ ∧
    (∃ d2, betting_market_update_evaluator.do_apply ⟨0, 1⟩ two_asset_db move_market_update
        = some d2 ∧
      d2.bets = two_asset_db.bets ∧
      ¬ bets_match_group_asset d2) ∧
    ¬ bets_match_group_asset (process_operation example_members 0 ⟨true, []⟩ two_asset_db
      (operation.betting_market_update move_market_update)) := by
  refine ⟨?_, rfl, ⟨_, rfl, rfl, ?_⟩, ?_⟩
  · unfold bets_match_group_asset
    decide
  · unfold bets_match_group_asset
    decide
  · unfold bets_match_group_asset
    decide

/-! ## Referential integrity -/

theorem find_object_event (d : database) (i : event_id_type) :
    d.find_object (object_id event_object_type i) = d.events.contains i := by
  simp [database.find_object, object_id, protocol_ids, event_object_type, asset_object_type]

theorem find_object_rules (d : database) (i : betting_market_rules_id_type) :
    d.find_object (object_id betting_market_rules_object_type i)
      = (d.find_betting_market_rules i).isSome := by
  simp [database.find_object, object_id, protocol_ids, event_object_type, asset_object_type,
    betting_market_rules_object_type]

theorem find_object_group (d : database) (i : betting_market_group_id_type) :
    d.find_object (object_id betting_market_group_object_type i)
      = (d.find_betting_market_group i).isSome := by
  simp [database.find_object, object_id, protocol_ids, event_object_type, asset_object_type,
    betting_market_rules_object_type, betting_market_group_object_type]

/-- Referential integrity in terms of the typed lookups. -/
theorem referential_integrity_iff (d : database) :
    referential_integrity d ↔
      (∀ g ∈ d.betting_market_groups,
        d.events.contains g.event_id = true ∧
        (d.find_betting_market_rules g.rules_id).isSome = true) ∧
      (∀ m ∈ d.betting_markets, (d.find_betting_market_group m.group_id).isSome = true) := by
  unfold referential_integrity
  simp only [find_object_event, find_object_rules, find_object_group]

theorem find_isSome_append {α : Type} (p : α → Bool) (l : List α) (x : α)
    (h : (l.find? p).isSome = true) : ((l ++ [x]).find? p).isSome = true := by
  rw [List.find?_append]
  cases hl : l.find? p with
  | none => rw [hl] at h; exact Bool.noConfusion h
  | some y => rfl

theorem find_isSome_update_first {α : Type} (key : α → Nat) (id j : Nat) (f : α → α)
    (hf : ∀ x, key (f x) = key x) (l : List α) :
    ((update_first (fun x => key x == id) f l).find? (fun x => key x == j)).isSome
      = (l.find? (fun x => key x == j)).isSome := by
  induction l with
  | nil => rfl
  | cons x xs ih =>
    unfold update_first
    by_cases hx : (key x == id) = true
    · simp only [hx, if_true, List.find?_cons, hf]
      cases key x == j <;> rfl
    · simp only [hx, if_false, List.find?_cons, ih, Bool.false_eq_true]
      cases key x == j <;> simp [ih]

theorem mem_update_first {α : Type} (p : α → Bool) (f : α → α) (l : List α) (y : α)
    (h : y ∈ update_first p f l) : y ∈ l ∨ ∃ x ∈ l, y = f x := by
  induction l with
  | nil => exact absurd h (List.not_mem_nil _)
  | cons x xs ih =>
    unfold update_first at h
    by_cases hx : p x = true
    · rw [if_pos hx] at h
      rcases List.mem_cons.mp h with h | h
      · exact Or.inr ⟨x, List.mem_cons_self _ _, h⟩
      · exact Or.inl (List.mem_cons_of_mem _ h)
    · rw [if_neg hx] at h
      rcases List.mem_cons.mp h with h | h
      · exact Or.inl (h ▸ List.mem_cons_self _ _)
      · rcases ih h with h | ⟨z, hz, hy⟩
        · exact Or.inl (List.mem_cons_of_mem _ h)
        · exact Or.inr ⟨z, List.mem_cons_of_mem _ hz, hy⟩

/-- Referential integrity reads events, rules, groups and markets only. -/
theorem referential_integrity_congr (d d2 : database)
    (he : d2.events = d.events) (hr : d2.betting_market_rules = d.betting_market_rules)
    (hg : d2.betting_market_groups = d.betting_market_groups)
    (hm : d2.betting_markets = d.betting_markets)
    (h : referential_integrity d) : referential_integrity d2 := by
  rw [referential_integrity_iff] at h ⊢
  unfold database.find_betting_market_rules database.find_betting_market_group at h ⊢
  rw [he, hr, hg, hm]
  exact h

/-- A write to a stored group that keeps its id and its event and leaves in `rules_id`
the old value or the id of a stored rules object keeps referential integrity. -/
theorem referential_integrity_modify_group (d : database) (id : betting_market_group_id_type)
    (f : betting_market_group_object → betting_market_group_object)
    (hf : ∀ g, (f g).id = g.id ∧ (f g).event_id = g.event_id ∧
      ((f g).rules_id = g.rules_id ∨ (d.find_betting_market_rules (f g).rules_id).isSome = true))
    (h : referential_integrity d) :
    referential_integrity (d.modify_betting_market_group id f) := by
  rw [referential_integrity_iff] at h ⊢
  obtain ⟨hg, hm⟩ := h
  constructor
  · intro g2 hg2
    have hmem := mem_update_first _ f d.betting_market_groups g2 hg2
    show d.events.contains g2.event_id = true ∧
      (d.find_betting_market_rules g2.rules_id).isSome = true
    rcases hmem with hmem | ⟨g, hgm, rfl⟩
    · exact hg g2 hmem
    · obtain ⟨_, hev, hru⟩ := hf g
      rw [hev]
      refine ⟨(hg g hgm).1, ?_⟩
      rcases hru with hru | hru
      · rw [hru]; exact (hg g hgm).2
      · exact hru
  · intro m hmm
    have hmm2 : m ∈ d.betting_markets := hmm
    have := hm m hmm2
    unfold database.find_betting_market_group database.modify_betting_market_group at *
    show ((update_first (fun g => g.id == id) f d.betting_market_groups).find?
      (fun g => g.id == m.group_id)).isSome = true
    rw [find_isSome_update_first (fun g : betting_market_group_object => g.id) id m.group_id f
      (fun x => (hf x).1)]
    exact this

/-- A write to a stored market that keeps its id and leaves in `group_id` the old value or
the id of a stored group keeps referential integrity. -/
theorem referential_integrity_modify_market (d : database) (id : betting_market_id_type)
    (f : betting_market_object → betting_market_object)
    (hf : ∀ m, (f m).group_id = m.group_id ∨
      (d.find_betting_market_group (f m).group_id).isSome = true)
    (h : referential_integrity d) :
    referential_integrity (d.modify_betting_market id f) := by
  rw [referential_integrity_iff] at h ⊢
  obtain ⟨hg, hm⟩ := h
  refine ⟨hg, ?_⟩
  intro m2 hm2
  have hmem := mem_update_first _ f d.betting_markets m2 hm2
  show (d.find_betting_market_group m2.group_id).isSome = true
  rcases hmem with hmem | ⟨m, hmm, rfl⟩
  · exact hm m2 hmem
  · rcases hf m with h1 | h1
    · rw [h1]; exact hm m hmm
    · exact h1

theorem evaluate_new_rules_id_found (trx_state : transaction_evaluation_state) (d : database)
    (id : object_id_type) (r : betting_market_rules_id_type)
    (h : evaluate_new_rules_id trx_state d (some id) = .ok r) :
    (d.find_betting_market_rules r).isSome = true := by
  unfold evaluate_new_rules_id at h
  cases hr : resolve_id trx_state id with
  | error e => simp [hr, bind, Except.bind] at h
  | ok x =>
    cases ht : has_type x betting_market_rules_object_type
    · simp [hr, ht, fc_assert, bind, Except.bind] at h
    · cases hf : d.find_object ⟨protocol_ids, betting_market_rules_object_type,
          x.instance_number⟩
      · simp [hr, ht, hf, fc_assert, bind, Except.bind] at h
      · simp [hr, ht, hf, fc_assert, bind, Except.bind, pure, Except.pure] at h
        rw [← h, ← find_object_rules]
        exact hf

theorem evaluate_new_group_id_found (trx_state : transaction_evaluation_state) (d : database)
    (id : object_id_type) (r : betting_market_group_id_type)
    (h : evaluate_new_group_id trx_state d (some id) = .ok r) :
    (d.find_betting_market_group r).isSome = true := by
  unfold evaluate_new_group_id at h
  cases hr : resolve_id trx_state id with
  | error e => simp [hr, bind, Except.bind] at h
  | ok x =>
    cases ht : has_type x betting_market_group_object_type
    · simp [hr, ht, fc_assert, bind, Except.bind] at h
    · cases hf : d.find_object ⟨protocol_ids, betting_market_group_object_type,
          x.instance_number⟩
      · simp [hr, ht, hf, fc_assert, bind, Except.bind] at h
      · simp [hr, ht, hf, fc_assert, bind, Except.bind, pure, Except.pure] at h
        rw [← h, ← find_object_group]
        exact hf

/-- A validated group update leaves in `_rules_id` what the `new_rules_id` block computed. -/
theorem group_update_do_evaluate_rules (trx_state : transaction_evaluation_state) (d : database)
    (op : betting_market_group_update_operation) (ev : betting_market_group_update_evaluator)
    (h : betting_market_group_update_evaluator.do_evaluate trx_state d op = .ok ev) :
    evaluate_new_rules_id trx_state d op.new_rules_id = .ok ev._rules_id := by
  cases hp : trx_state._is_proposed_trx
  · simp [betting_market_group_update_evaluator.do_evaluate, hp, fc_assert, bind, Except.bind] at h
  · cases hg : d.find_betting_market_group op.betting_market_group_id with
    | none =>
      simp [betting_market_group_update_evaluator.do_evaluate, hp, hg, deref, fc_assert, bind,
        Except.bind] at h
    | some g =>
      cases hn : (op.new_description.isSome || op.new_rules_id.isSome || op.freeze.isSome ||
          op.delay_bets.isSome)
      · simp [betting_market_group_update_evaluator.do_evaluate, hp, hg, deref, fc_assert, bind,
          Except.bind, hn] at h
      · cases hr : evaluate_new_rules_id trx_state d op.new_rules_id with
        | error e =>
          simp [betting_market_group_update_evaluator.do_evaluate, hp, hg, deref, fc_assert,
            bind, Except.bind, hn, hr] at h
        | ok r =>
          cases hfr : op.freeze <;> cases hdl : op.delay_bets <;>
            simp [betting_market_group_update_evaluator.do_evaluate, hp, hg, deref, fc_assert,
              bind, Except.bind, hn, hr, hfr, hdl, pure, Except.pure] at h <;>
            (try split at h) <;> (try split at h) <;>
            (try simp_all) <;> (try rw [← h])

/-- A validated market update points `_betting_market` at a stored market and leaves in
`_group_id` what the `new_group_id` block computed. -/
theorem market_update_do_evaluate_ok (trx_state : transaction_evaluation_state) (d : database)
    (op : betting_market_update_operation) (ev : betting_market_update_evaluator)
    (h : betting_market_update_evaluator.do_evaluate trx_state d op = .ok ev) :
    (d.find_betting_market ev._betting_market).isSome = true ∧
    evaluate_new_group_id trx_state d op.new_group_id = .ok ev._group_id := by
  cases hp : trx_state._is_proposed_trx
  · simp [betting_market_update_evaluator.do_evaluate, hp, fc_assert, bind, Except.bind] at h
  · cases hm : d.find_betting_market op.betting_market_id with
    | none =>
      simp [betting_market_update_evaluator.do_evaluate, hp, hm, deref, fc_assert, bind,
        Except.bind] at h
    | some m =>
      have hmid : m.id = op.betting_market_id := by
        unfold database.find_betting_market at hm
        have := List.find?_some hm
        simpa using this
      cases hn : (op.new_group_id.isSome || op.new_description.isSome ||
          op.new_payout_condition.isSome)
      · simp [betting_market_update_evaluator.do_evaluate, hp, hm, deref, fc_assert, bind,
          Except.bind, hn] at h
      · cases hr : evaluate_new_group_id trx_state d op.new_group_id with
        | error e =>
          simp [betting_market_update_evaluator.do_evaluate, hp, hm, deref, fc_assert,
            bind, Except.bind, hn, hr] at h
        | ok r =>
          simp [betting_market_update_evaluator.do_evaluate, hp, hm, deref, fc_assert,
            bind, Except.bind, hn, hr, pure, Except.pure] at h
          rw [← h]
          simp only [hmid, hm, Option.isSome_some, and_self]

/-- A validated market create leaves in `_group_id` the id of a stored group. -/
theorem market_create_do_evaluate_ok (trx_state : transaction_evaluation_state) (d : database)
    (op : betting_market_create_operation) (ev : betting_market_create_evaluator)
    (h : betting_market_create_evaluator.do_evaluate trx_state d op = .ok ev) :
    (d.find_betting_market_group ev._group_id).isSome = true := by
  unfold betting_market_create_evaluator.do_evaluate at h
  cases hp : trx_state._is_proposed_trx
  · simp [hp, fc_assert, bind, Except.bind] at h
  · cases hr : resolve_id trx_state op.group_id with
    | error e => simp [hp, hr, fc_assert, bind, Except.bind] at h
    | ok x =>
      cases ht : has_type x betting_market_group_object_type
      · simp [hp, hr, ht, fc_assert, bind, Except.bind] at h
      · cases hf : d.find_object ⟨protocol_ids, betting_market_group_object_type,
            x.instance_number⟩
        · simp [hp, hr, ht, hf, fc_assert, bind, Except.bind] at h
        · simp [hp, hr, ht, hf, fc_assert, bind, Except.bind, pure, Except.pure] at h
          rw [← h, ← find_object_group]
          exact hf

/-- The flush loop leaves events, rules, groups and markets as they are when the matching
engine does. -/
theorem flush_delayed_bets_keeps_catalogue (place_bet : database → bet_object → database)
    (hpb : place_bet_keeps_catalogue place_bet)
    (ev : betting_market_group_update_evaluator) (op : betting_market_group_update_operation)
    (fuel : Nat) :
    ∀ (s : apply_state) (it : Option bet_id_type) (last : Bool) (s2 : apply_state),
      flush_delayed_bets place_bet ev op fuel s it last = some s2 →
      s2.db.events = s.db.events ∧
      s2.db.betting_market_rules = s.db.betting_market_rules ∧
      s2.db.betting_market_groups = s.db.betting_market_groups ∧
      s2.db.betting_markets = s.db.betting_markets := by
  induction fuel with
  | zero =>
    intro s it last s2 h
    cases last
    · simp [flush_delayed_bets] at h
    · simp [flush_delayed_bets] at h
      subst h
      exact ⟨rfl, rfl, rfl, rfl⟩
  | succ fuel ih =>
    intro s it last s2 h
    cases last
    · cases it with
      | none => simp [flush_delayed_bets] at h
      | some id =>
        simp only [flush_delayed_bets] at h
        cases hb : s.db.find_bet id with
        | none => simp [hb] at h
        | some delayed_bet =>
          simp only [hb] at h
          cases hm : s.db.find_betting_market delayed_bet.betting_market_id with
          | none => simp [hm] at h
          | some betting_market =>
            simp only [hm] at h
            cases hg : s.db.find_betting_market_group ev._betting_market_group with
            | none => simp [hg] at h
            | some group =>
              simp only [hg] at h
              split at h
              · have h2 := ih _ _ _ _ h
                have hc := hpb (s.db.modify_bet id
                  (fun bet_obj => { bet_obj with end_of_delay := none }))
                  { delayed_bet with end_of_delay := none }
                have hmod : ∀ (d : database) (f : bet_object → bet_object),
                    (d.modify_bet id f).events = d.events ∧
                    (d.modify_bet id f).betting_market_rules = d.betting_market_rules ∧
                    (d.modify_bet id f).betting_market_groups = d.betting_market_groups ∧
                    (d.modify_bet id f).betting_markets = d.betting_markets := by
                  intro d f
                  unfold database.modify_bet
                  cases d.find_bet id <;> exact ⟨rfl, rfl, rfl, rfl⟩
                have hm2 := hmod s.db (fun bet_obj => { bet_obj with end_of_delay := none })
                simp only [call_place_bet] at h2
                exact ⟨h2.1.trans (hc.1.trans hm2.1), h2.2.1.trans (hc.2.1.trans hm2.2.1),
                  h2.2.2.1.trans (hc.2.2.1.trans hm2.2.2.1),
                  h2.2.2.2.trans (hc.2.2.2.trans hm2.2.2.2)⟩
              · exact ih _ _ _ _ h
    · simp [flush_delayed_bets] at h
      subst h
      exact ⟨rfl, rfl, rfl, rfl⟩

/-- The field writes of a group update keep referential integrity when `_rules_id` is what
the `new_rules_id` block computed. -/
theorem referential_integrity_write_fields (trx_state : transaction_evaluation_state)
    (d : database) (op : betting_market_group_update_operation)
    (ev : betting_market_group_update_evaluator)
    (hr : evaluate_new_rules_id trx_state d op.new_rules_id = .ok ev._rules_id)
    (h : referential_integrity d) :
    referential_integrity (betting_market_group_update_evaluator.write_fields ev d op) := by
  have hkeep : ∀ (x : database) (f : betting_market_group_object → betting_market_group_object),
      (∀ g, (f g).id = g.id ∧ (f g).event_id = g.event_id ∧ (f g).rules_id = g.rules_id) →
      referential_integrity x →
      referential_integrity (x.modify_betting_market_group ev._betting_market_group f) :=
    fun x f hf hx => referential_integrity_modify_group x _ f
      (fun g => ⟨(hf g).1, (hf g).2.1, Or.inl (hf g).2.2⟩) hx
  have hrules : ∀ (x : database),
      (x.find_betting_market_rules ev._rules_id).isSome = true →
      referential_integrity x →
      referential_integrity (x.modify_betting_market_group ev._betting_market_group
        (fun g => { g with rules_id := ev._rules_id })) :=
    fun x hf hx => referential_integrity_modify_group x _ _
      (fun g => ⟨rfl, rfl, Or.inr hf⟩) hx
  unfold betting_market_group_update_evaluator.write_fields
  cases hn : op.new_rules_id with
  | none =>
    cases op.new_description <;> cases op.freeze <;> cases op.delay_bets <;>
      simp only [Option.isSome_none, Bool.false_eq_true, if_false] <;>
      repeat (first
        | exact h
        | refine hkeep _ _ (fun g => ⟨rfl, rfl, rfl⟩) ?_)
  | some id =>
    rw [hn] at hr
    have hfound := evaluate_new_rules_id_found trx_state d id _ hr
    cases op.new_description <;> cases op.freeze <;> cases op.delay_bets <;>
      simp only [Option.isSome_some, if_true] <;>
      repeat (first
        | exact h
        | refine hkeep _ _ (fun g => ⟨rfl, rfl, rfl⟩) ?_
        | refine hrules _ hfound ?_)

/-- A validated group create leaves in `_event_id` and `_rules_id` the ids of a stored event
and of a stored rules object. -/
theorem group_create_do_evaluate_found (trx_state : transaction_evaluation_state)
    (d : database) (op : betting_market_group_create_operation)
    (ev : betting_market_group_create_evaluator)
    (h : betting_market_group_create_evaluator.do_evaluate trx_state d op = .ok ev) :
    d.events.contains ev._event_id = true ∧
    (d.find_betting_market_rules ev._rules_id).isSome = true := by
  obtain ⟨_, e, r, _, _, hte, hfe, _, htr, hfr, hev⟩ :=
    (group_create_do_evaluate_eq_ok_iff trx_state d op ev).mp h
  subst hev
  constructor
  · rw [← find_object_event, object_id_of_has_type e _ hte]
    exact hfe
  · rw [← find_object_rules, object_id_of_has_type r _ htr]
    exact hfr

theorem referential_integrity_group_create (d : database) (init : betting_market_group_object)
    (he : d.events.contains init.event_id = true)
    (hr : (d.find_betting_market_rules init.rules_id).isSome = true)
    (h : referential_integrity d) :
    referential_integrity (d.create_betting_market_group init) := by
  rw [referential_integrity_iff] at h ⊢
  obtain ⟨hg, hm⟩ := h
  constructor
  · intro g hgm
    have hgm2 : g ∈ d.betting_market_groups ++
        [{ init with id := d.next_betting_market_group_id }] := hgm
    show d.events.contains g.event_id = true ∧
      (d.find_betting_market_rules g.rules_id).isSome = true
    rcases List.mem_append.mp hgm2 with hgm3 | hgm3
    · exact hg g hgm3
    · rw [List.mem_singleton] at hgm3
      subst hgm3
      exact ⟨he, hr⟩
  · intro m hmm
    have hmm2 : m ∈ d.betting_markets := hmm
    exact find_isSome_append _ _ _ (hm m hmm2)

theorem referential_integrity_market_create (d : database) (init : betting_market_object)
    (hgr : (d.find_betting_market_group init.group_id).isSome = true)
    (h : referential_integrity d) :
    referential_integrity (d.create_betting_market init) := by
  rw [referential_integrity_iff] at h ⊢
  obtain ⟨hg, hm⟩ := h
  refine ⟨hg, ?_⟩
  intro m hmm
  have hmm2 : m ∈ d.betting_markets ++ [{ init with id := d.next_betting_market_id }] := hmm
  show (d.find_betting_market_group m.group_id).isSome = true
  rcases List.mem_append.mp hmm2 with hmm3 | hmm3
  · exact hm m hmm3
  · rw [List.mem_singleton] at hmm3
    subst hmm3
    exact hgr

/-- The field writes of a market update keep referential integrity when `_group_id` is what
the `new_group_id` block computed. -/
theorem referential_integrity_market_update (trx_state : transaction_evaluation_state)
    (d : database) (op : betting_market_update_operation)
    (ev : betting_market_update_evaluator)
    (hm : (d.find_betting_market ev._betting_market).isSome = true)
    (hr : evaluate_new_group_id trx_state d op.new_group_id = .ok ev._group_id)
    (h : referential_integrity d) :
    ∃ d2, betting_market_update_evaluator.do_apply ev d op = some d2 ∧
      referential_integrity d2 := by
  have hkeep : ∀ (x : database) (f : betting_market_object → betting_market_object),
      (∀ m, (f m).group_id = m.group_id) →
      referential_integrity x →
      referential_integrity (x.modify_betting_market ev._betting_market f) :=
    fun x f hf hx => referential_integrity_modify_market x _ f (fun m => Or.inl (hf m)) hx
  have hgroup : ∀ (x : database),
      (x.find_betting_market_group ev._group_id).isSome = true →
      referential_integrity x →
      referential_integrity (x.modify_betting_market ev._betting_market
        (fun m => { m with group_id := ev._group_id })) :=
    fun x hf hx => referential_integrity_modify_market x _ _ (fun m => Or.inr hf) hx
  unfold betting_market_update_evaluator.do_apply
  cases hfm : d.find_betting_market ev._betting_market with
  | none => rw [hfm] at hm; exact Bool.noConfusion hm
  | some m0 =>
    refine ⟨_, rfl, ?_⟩
    cases hn : op.new_group_id with
    | none =>
      cases op.new_payout_condition <;> cases op.new_description <;>
        simp only [Option.isSome_none, Bool.false_eq_true, if_false] <;>
        repeat (first
          | exact h
          | refine hkeep _ _ (fun m => rfl) ?_)
    | some id =>
      rw [hn] at hr
      have hfound := evaluate_new_group_id_found trx_state d id _ hr
      cases op.new_payout_condition <;> cases op.new_description <;>
        simp only [Option.isSome_some, if_true] <;>
        repeat (first
          | exact h
          | refine hkeep _ _ (fun m => rfl) ?_
          | refine hgroup _ hfound ?_)

theorem fill_completely_keeps_catalogue : place_bet_keeps_catalogue fill_completely :=
  fun _ _ => ⟨rfl, rfl, rfl, rfl⟩

/-- C12: referential integrity (every group's `event_id` and `rules_id` are found in the
store as an event and a rules object, every market's `group_id` is found as a group) is
kept by the create and update operations on groups and markets, whether their ids are
absolute or relative: if it holds of the store before, it holds of the store that apply
returns after a successful validation, in which the created group or market is the last of
its table; a validated `market_update` is always applied.  The matching engine called by
the flush loop of `group_update` is assumed to leave events, rules, groups and markets
alone. -/
theorem C12_referential_integrity_preserved (place_bet : database → bet_object → database)
    (fuel : Nat) (trx_state : transaction_evaluation_state) (d : database)
    (hpb : place_bet_keeps_catalogue place_bet) (h : referential_integrity d) :
    (∀ op ev, betting_market_group_create_evaluator.do_evaluate trx_state d op = .ok ev →
      referential_integrity (betting_market_group_create_evaluator.do_apply ev d op).2 ∧
      (betting_market_group_create_evaluator.do_apply ev d op).2.betting_market_groups
        = d.betting_market_groups ++ [⟨d.next_betting_market_group_id, op.description,
            ev._event_id, ev._rules_id, op.asset_id, false, false⟩]) ∧
    (∀ op ev s, betting_market_group_update_evaluator.do_evaluate trx_state d op = .ok ev →
      betting_market_group_update_evaluator.do_apply place_bet fuel ev d op = some s →
      referential_integrity s.db) ∧
    (∀ op ev, betting_market_create_evaluator.do_evaluate trx_state d op = .ok ev →
      referential_integrity (betting_market_create_evaluator.do_apply ev d op).2 ∧
      (betting_market_create_evaluator.do_apply ev d op).2.betting_markets
        = d.betting_markets ++ [⟨d.next_betting_market_id, ev._group_id, op.description,
            op.payout_condition⟩]) ∧
    (∀ op ev, betting_market_update_evaluator.do_evaluate trx_state d op = .ok ev →
      ∃ d2, betting_market_update_evaluator.do_apply ev d op = some d2 ∧
        referential_integrity d2) := by
  refine ⟨?_, ?_, ?_, ?_⟩
  · intro op ev hev
    obtain ⟨he, hr⟩ := group_create_do_evaluate_found trx_state d op ev hev
    exact ⟨referential_integrity_group_create d _ he hr h, rfl⟩
  · intro op ev s hev hap
    have hrules := group_update_do_evaluate_rules trx_state d op ev hev
    have hw := referential_integrity_write_fields trx_state d op ev hrules h
    unfold betting_market_group_update_evaluator.do_apply at hap
    cases hg : d.find_betting_market_group ev._betting_market_group with
    | none => simp [hg] at hap
    | some g =>
      simp only [hg, Option.bind_eq_bind, Option.some_bind] at hap
      cases hdl : op.delay_bets with
      | none =>
        simp only [hdl, Option.some.injEq] at hap
        rw [← hap]
        exact hw
      | some v =>
        cases v
        · simp only [hdl, Bool.not_false, if_true] at hap
          obtain ⟨h1, h2, h3, h4⟩ :=
            flush_delayed_bets_keeps_catalogue place_bet hpb ev op fuel _ _ _ _ hap
          exact referential_integrity_congr _ _ h1 h2 h3 h4 hw
        · simp only [hdl, Bool.not_true, Bool.false_eq_true, if_false, Option.some.injEq] at hap
          rw [← hap]
          exact hw
  · intro op ev hev
    exact ⟨referential_integrity_market_create d _
      (market_create_do_evaluate_ok trx_state d op ev hev) h, rfl⟩
  · intro op ev hev
    obtain ⟨hm, hr⟩ := market_update_do_evaluate_ok trx_state d op ev hev
    exact referential_integrity_market_update trx_state d op ev hm hr h

/-- C12, witness: the theorem at `example_db`, in a proposed transaction whose operation 0
created event 0: a `group_create` whose event id is relative, the `group_update` that
switches off `delay_bets` of group 1, a `market_create` in group 1 and the `market_update`
that moves market 0 to group 1 all leave a store with referential integrity. -/
theorem C12_referential_integrity_preserved_witness :
    referential_integrity example_db ∧
    referential_integrity (betting_market_group_create_evaluator.do_apply ⟨0, 0⟩ example_db
      ⟨[], ⟨0, 0, 0⟩, object_id betting_market_rules_object_type 0, 0⟩).2 ∧
    referential_integrity (betting_market_group_update_evaluator.write_fields ⟨1, 0⟩ example_db
      ⟨1, none, none, none, some false⟩) ∧
    referential_integrity (betting_market_create_evaluator.do_apply ⟨1⟩ example_db
      ⟨object_id betting_market_group_object_type 1, [], []⟩).2 ∧
    (∃ d2, betting_market_update_evaluator.do_apply ⟨0, 1⟩ example_db
        ⟨0, some (object_id betting_market_group_object_type 1), none, none⟩ = some d2 ∧
      referential_integrity d2) :=
  have hri : referential_integrity example_db := by
    unfold referential_integrity
    decide
  have hall := C12_referential_integrity_preserved fill_completely 0
    ⟨true, [operation_result.object_id (object_id event_object_type 0)]⟩ example_db
    (fun _ _ => ⟨rfl, rfl, rfl, rfl⟩) hri
  ⟨hri,
   (hall.1 ⟨[], ⟨0, 0, 0⟩, object_id betting_market_rules_object_type 0, 0⟩ ⟨0, 0⟩ rfl).1,
   hall.2.1 ⟨1, none, none, none, some false⟩ ⟨1, 0⟩
     ⟨betting_market_group_update_evaluator.write_fields ⟨1, 0⟩ example_db
       ⟨1, none, none, none, some false⟩, []⟩ rfl rfl,
   (hall.2.2.1 ⟨object_id betting_market_group_object_type 1, [], []⟩ ⟨1⟩ rfl).1,
   hall.2.2.2 ⟨0, some (object_id betting_market_group_object_type 1), none, none⟩ ⟨0, 1⟩ rfl⟩

/-! ## The order of the checks of bet_place -/

/-- C21, counterexample to the claim as stated: in `busy_db` group 3 is frozen and no
account is authorised for any asset; the bet of account 8 on market 3 (asset matching) is
rejected with the market-frozen failure, not with the authorisation failure. -/
theorem C21_counterexample_frozen_reported_first :
    (busy_db.find_betting_market_group 3).map (fun g => g.frozen) = some true ∧
    (∀ a, authorize_none busy_db ⟨8⟩ a = false) ∧
    bet_place_evaluator.do_evaluate authorize_none busy_db ⟨8⟩ frozen_market_bet_place
      = .error evaluation_error.market_frozen ∧
    bet_place_evaluator.do_evaluate authorize_none busy_db ⟨8⟩ frozen_market_bet_place
      ≠ .error evaluation_error.unauthorized_asset :=
  ⟨rfl, fun _ => rfl, rfl, by
    intro h
    have h2 : bet_place_evaluator.do_evaluate authorize_none busy_db ⟨8⟩ frozen_market_bet_place
        = .error evaluation_error.market_frozen := rfl
    rw [h2] at h
    exact absurd (Except.error.inj h) (by decide)⟩

/-- C21 (as amended): for a `bet_place` on an existing market of an existing group,
validation decides its checks in this order and reports the first that fails: asset match,
then the frozen flag, then the asset object and the account's authorisation for it, then
the odds range, the odds increment, the amount and the balance.  So a bet in the group's
asset on a frozen group is rejected as market-frozen whether or not the account is
authorised, and the authorisation failure is reported only for a group that is not
frozen. -/
theorem C21_bet_place_checks_in_order
    (is_authorized_asset : database → account_object → asset_object → Bool)
    (d : database) (fee_paying_account : account_object) (op : bet_place_operation)
    (m : betting_market_object) (g : betting_market_group_object)
    (hm : d.find_betting_market op.betting_market_id = some m)
    (hg : d.find_betting_market_group m.group_id = some g) :
    (op.amount_to_bet.asset_id ≠ g.asset_id →
      bet_place_evaluator.do_evaluate is_authorized_asset d fee_paying_account op
        = .error .asset_mismatch) ∧
    (op.amount_to_bet.asset_id = g.asset_id → g.frozen = true →
      bet_place_evaluator.do_evaluate is_authorized_asset d fee_paying_account op
        = .error .market_frozen) ∧
    (op.amount_to_bet.asset_id = g.asset_id → g.frozen = false →
      d.find_asset g.asset_id = none →
      bet_place_evaluator.do_evaluate is_authorized_asset d fee_paying_account op
        = .error .reference_not_found) ∧
    (∀ a, op.amount_to_bet.asset_id = g.asset_id → g.frozen = false →
      d.find_asset g.asset_id = some a →
      (is_authorized_asset d fee_paying_account a = false →
        bet_place_evaluator.do_evaluate is_authorized_asset d fee_paying_account op
          = .error .unauthorized_asset) ∧
      (is_authorized_asset d fee_paying_account a = true →
        (¬ (d.get_global_properties.parameters.min_bet_multiplier ≤ op.backer_multiplier ∧
            op.backer_multiplier ≤ d.get_global_properties.parameters.max_bet_multiplier) →
          bet_place_evaluator.do_evaluate is_authorized_asset d fee_paying_account op
            = .error .odds_out_of_range) ∧
        (d.get_global_properties.parameters.min_bet_multiplier ≤ op.backer_multiplier ∧
            op.backer_multiplier ≤ d.get_global_properties.parameters.max_bet_multiplier →
          (∀ e, check_odds_increment d.get_global_properties.parameters op.backer_multiplier
              = .error e →
            bet_place_evaluator.do_evaluate is_authorized_asset d fee_paying_account op
              = .error e) ∧
          (check_odds_increment d.get_global_properties.parameters op.backer_multiplier
              = .ok () →
            (op.amount_to_bet.amount ≤ 0 →
              bet_place_evaluator.do_evaluate is_authorized_asset d fee_paying_account op
                = .error .non_positive_amount) ∧
            (0 < op.amount_to_bet.amount →
              ((d.get_balance fee_paying_account.id a.id).amount < op.amount_to_bet.amount →
                bet_place_evaluator.do_evaluate is_authorized_asset d fee_paying_account op
                  = .error .insufficient_balance) ∧
              (op.amount_to_bet.amount ≤ (d.get_balance fee_paying_account.id a.id).amount →
                bet_place_evaluator.do_evaluate is_authorized_asset d fee_paying_account op
                  = .ok { fee_paying_account := fee_paying_account
                          _betting_market := m.id
                          _betting_market_group := g.id
                          _asset := a.id })))))) := by
  unfold bet_place_evaluator.do_evaluate
  refine ⟨?_, ?_, ?_, ?_⟩
  · intro hne
    simp [hm, hg, deref, fc_assert, bind, Except.bind, hne]
  · intro he hf
    simp [hm, hg, deref, fc_assert, bind, Except.bind, he, hf]
  · intro he hf ha
    simp [hm, hg, deref, fc_assert, bind, Except.bind, he, hf, ha]
  · intro a he hf ha
    refine ⟨?_, ?_⟩
    · intro hau
      simp [hm, hg, deref, fc_assert, bind, Except.bind, he, hf, ha, hau]
    · intro hau
      refine ⟨?_, ?_⟩
      · intro hr
        have hr2 : ¬ (d.get_global_properties.parameters.min_bet_multiplier ≤ op.backer_multiplier ∧
            op.backer_multiplier ≤ d.get_global_properties.parameters.max_bet_multiplier) := hr
        simp [hm, hg, deref, fc_assert, bind, Except.bind, he, hf, ha, hau, hr2]
      · intro hr
        refine ⟨?_, ?_⟩
        · intro e hc
          simp [hm, hg, deref, fc_assert, bind, Except.bind, he, hf, ha, hau, hr, hc]
        · intro hc
          refine ⟨?_, ?_⟩
          · intro hamt
            simp [hm, hg, deref, fc_assert, bind, Except.bind, he, hf, ha, hau, hr, hc,
              not_lt.mpr hamt]
          · intro hamt
            refine ⟨?_, ?_⟩
            · intro hb
              simp [hm, hg, deref, fc_assert, bind, Except.bind, he, hf, ha, hau, hr, hc, hamt,
                not_le.mpr hb]
            · intro hb
              simp [hm, hg, deref, fc_assert, bind, Except.bind, he, hf, ha, hau, hr, hc, hamt,
                hb, pure, Except.pure]

/-- C21, witness: the theorem at `busy_db` for the bet of account 8 on market 3 of the
frozen group 3: market-frozen is reported, with no account authorised and with every
account authorised. -/
theorem C21_bet_place_checks_in_order_witness :
    bet_place_evaluator.do_evaluate authorize_none busy_db ⟨8⟩ frozen_market_bet_place
      = .error evaluation_error.market_frozen ∧
    bet_place_evaluator.do_evaluate authorize_all busy_db ⟨8⟩ frozen_market_bet_place
      = .error evaluation_error.market_frozen :=
  ⟨(C21_bet_place_checks_in_order authorize_none busy_db ⟨8⟩ frozen_market_bet_place
      ⟨3, 3, [], []⟩ ⟨3, [], 0, 0, 0, true, true⟩ rfl rfl).2.1 rfl rfl,
   (C21_bet_place_checks_in_order authorize_all busy_db ⟨8⟩ frozen_market_bet_place
      ⟨3, 3, [], []⟩ ⟨3, [], 0, 0, 0, true, true⟩ rfl rfl).2.1 rfl rfl⟩

/-! ## The increment check and division by zero -/

/-- On a non-empty schedule the selection of the increment reads an entry of the schedule:
the one at `upper_bound`, or the last one. -/
theorem allowed_increment_mem (incs : List (bet_multiplier_type × bet_multiplier_type))
    (m : bet_multiplier_type) (hne : incs ≠ []) :
    ∃ e ∈ incs, allowed_increment incs m = some e.2 := by
  unfold allowed_increment
  cases hu : upper_bound incs m with
  | some e =>
    unfold upper_bound at hu
    exact ⟨e, List.mem_of_find?_eq_some hu, rfl⟩
  | none =>
    refine ⟨incs.getLast hne, List.getLast_mem hne, ?_⟩
    simp only [List.getLast?_eq_getLast incs hne, Option.map_some']

/-- The increment check with the selected increment `inc`. -/
theorem check_odds_increment_of_allowed (params : chain_parameters) (m inc : bet_multiplier_type)
    (hne : params.permitted_betting_odds_increments ≠ [])
    (hinc : allowed_increment params.permitted_betting_odds_increments m = some inc) :
    check_odds_increment params m
      = (if inc = 0 then .error .division_by_zero
         else fc_assert (m % inc == 0) .odds_not_on_increment) := by
  unfold check_odds_increment
  have he : params.permitted_betting_odds_increments.isEmpty = false := by
    cases hl : params.permitted_betting_odds_increments with
    | nil => exact absurd hl hne
    | cons _ _ => rfl
  simp only [he, Bool.not_false, if_true, hinc, checked_mod]
  by_cases h0 : inc = 0
  · simp [h0, bind, Except.bind]
  · simp [h0, bind, Except.bind]

/-- C23: the increment check of `bet_place` validation is skipped on an empty schedule; on
a non-empty schedule the selection reads an entry of the schedule (the lookup of the last
entry never reads an empty schedule), and the check divides by zero exactly when the
selected increment is zero.  So for every non-empty schedule whose values are all strictly
positive and every multiplier, the check is the test `backer_multiplier % increment == 0`
for a positive increment of the schedule, evaluated without division by zero. -/
theorem C23_increment_check_well_defined (params : chain_parameters)
    (m : bet_multiplier_type) :
    (params.permitted_betting_odds_increments = [] →
      check_odds_increment params m = .ok ()) ∧
    (params.permitted_betting_odds_increments ≠ [] →
      ∃ e ∈ params.permitted_betting_odds_increments,
        allowed_increment params.permitted_betting_odds_increments m = some e.2 ∧
        check_odds_increment params m ≠ .error .invalid_iterator ∧
        (check_odds_increment params m = .error .division_by_zero ↔ e.2 = 0) ∧
        ((∀ x ∈ params.permitted_betting_odds_increments, 0 < x.2) →
          0 < e.2 ∧
          check_odds_increment params m ≠ .error .division_by_zero ∧
          check_odds_increment params m
            = fc_assert (m % e.2 == 0) .odds_not_on_increment)) := by
  constructor
  · intro hnil
    unfold check_odds_increment
    simp [hnil]
  · intro hne
    obtain ⟨e, hmem, hinc⟩ := allowed_increment_mem _ m hne
    have hchk := check_odds_increment_of_allowed params m e.2 hne hinc
    refine ⟨e, hmem, hinc, ?_, ?_, ?_⟩
    · rw [hchk]
      by_cases h0 : e.2 = 0
      · simp [h0]
      · by_cases hmod : m % e.2 = 0 <;> simp [h0, hmod, fc_assert]
    · rw [hchk]
      by_cases h0 : e.2 = 0
      · simp [h0]
      · by_cases hmod : m % e.2 = 0 <;> simp [h0, hmod, fc_assert]
    · intro hpos
      have hp : 0 < e.2 := hpos e hmem
      have h0 : e.2 ≠ 0 := Nat.pos_iff_ne_zero.mp hp
      refine ⟨hp, ?_, ?_⟩
      · rw [hchk]
        by_cases hmod : m % e.2 = 0 <;> simp [h0, hmod, fc_assert]
      · rw [hchk, if_neg h0]

/-- C23, witness: the theorem at the schedule of `example_db` (ticks of 1 below 200, of 2
below 300, of 5 from there): at odds 250 the entry selected is (300, 2) and the check
passes; at odds 1000, above every key, the last entry (1000, 5) is read and the check
passes; at odds 251 the check fails as off the grid, not as a fault. -/
theorem C23_increment_check_well_defined_witness :
    allowed_increment example_db.global_properties.parameters.permitted_betting_odds_increments
      250 = some 2 ∧
    allowed_increment example_db.global_properties.parameters.permitted_betting_odds_increments
      1000 = some 5 ∧
    check_odds_increment example_db.global_properties.parameters 251
      = .error evaluation_error.odds_not_on_increment ∧
    check_odds_increment example_db.global_properties.parameters 1000
      ≠ .error evaluation_error.division_by_zero := by
  refine ⟨rfl, rfl, rfl, ?_⟩
  obtain ⟨e, _, _, _, _, hpos⟩ :=
    (C23_increment_check_well_defined example_db.global_properties.parameters 1000).2
      (by decide)
  exact (hpos (by decide)).2.1

/-! ## group_update: unfreezing and switching the delay off in one update -/

/-- The flush loop leaves the groups as they are when the matching engine does so for every
bet without `end_of_delay`. -/
theorem flush_delayed_bets_keeps_groups (place_bet : database → bet_object → database)
    (hframe : place_bet_frame place_bet)
    (ev : betting_market_group_update_evaluator) (op : betting_market_group_update_operation)
    (fuel : Nat) :
    ∀ (s : apply_state) (it : Option bet_id_type) (last : Bool) (s2 : apply_state),
      flush_delayed_bets place_bet ev op fuel s it last = some s2 →
      s2.db.betting_market_groups = s.db.betting_market_groups := by
  induction fuel with
  | zero =>
    intro s it last s2 h
    cases last
    · simp [flush_delayed_bets] at h
    · simp [flush_delayed_bets] at h
      subst h
      rfl
  | succ fuel ih =>
    intro s it last s2 h
    cases last
    · cases it with
      | none => simp [flush_delayed_bets] at h
      | some id =>
        simp only [flush_delayed_bets] at h
        cases hb : s.db.find_bet id with
        | none => simp [hb] at h
        | some delayed_bet =>
          simp only [hb] at h
          cases hm : s.db.find_betting_market delayed_bet.betting_market_id with
          | none => simp [hm] at h
          | some betting_market =>
            simp only [hm] at h
            cases hg : s.db.find_betting_market_group ev._betting_market_group with
            | none => simp [hg] at h
            | some group =>
              simp only [hg] at h
              split at h
              · have h2 := ih _ _ _ _ h
                have hc := (hframe (s.db.modify_bet id
                  (fun bet_obj => { bet_obj with end_of_delay := none }))
                  { delayed_bet with end_of_delay := none } rfl).2.1
                have hmod : (s.db.modify_bet id
                    (fun bet_obj => { bet_obj with end_of_delay := none })).betting_market_groups
                    = s.db.betting_market_groups := by
                  unfold database.modify_bet
                  cases s.db.find_bet id <;> rfl
                simp only [call_place_bet] at h2
                exact h2.trans (hc.trans hmod)
              · exact ih _ _ _ _ h
    · simp [flush_delayed_bets] at h
      subst h
      rfl

/-- The field writes of `do_apply` leave the stored group with the `frozen` and
`delay_bets` flags the operation asks for. -/
theorem group_update_write_fields_flags
    (ev : betting_market_group_update_evaluator) (d : database)
    (op : betting_market_group_update_operation) (g : betting_market_group_object)
    (hg : d.find_betting_market_group ev._betting_market_group = some g) :
    ∃ g4, (betting_market_group_update_evaluator.write_fields ev d op).find_betting_market_group
        ev._betting_market_group = some g4 ∧
      g4.frozen = (match op.freeze with | some v => v | none => g.frozen) ∧
      g4.delay_bets = (match op.delay_bets with | some v => v | none => g.delay_bets) := by
  unfold betting_market_group_update_evaluator.write_fields
  cases op.new_description <;> cases op.new_rules_id <;> cases op.freeze <;>
    cases op.delay_bets <;>
    simp [find_modify_betting_market_group, hg]

/-- The groups of the store apply returns are the groups after the field writes. -/
theorem group_update_do_apply_groups (place_bet : database → bet_object → database)
    (hframe : place_bet_frame place_bet) (fuel : Nat)
    (ev : betting_market_group_update_evaluator) (d : database)
    (op : betting_market_group_update_operation) (s2 : apply_state)
    (h : betting_market_group_update_evaluator.do_apply place_bet fuel ev d op = some s2) :
    s2.db.betting_market_groups
      = (betting_market_group_update_evaluator.write_fields ev d op).betting_market_groups := by
  unfold betting_market_group_update_evaluator.do_apply at h
  cases hg : d.find_betting_market_group ev._betting_market_group with
  | none => simp [hg] at h
  | some g =>
    simp only [hg, Option.bind_eq_bind, Option.some_bind] at h
    cases hdl : op.delay_bets with
    | none =>
      simp only [hdl, Option.some.injEq] at h
      rw [← h]
    | some v =>
      cases v
      · simp only [hdl, Bool.not_false, if_true] at h
        exact flush_delayed_bets_keeps_groups place_bet hframe ev op fuel _ _ _ _ h
      · simp only [hdl, Bool.not_true, Bool.false_eq_true, if_false, Option.some.injEq] at h
        rw [← h]

/-- C22: a validated `group_update` that carries both `freeze = false` and
`delay_bets = false` acts on a group that is frozen and delays bets; apply writes the new
`frozen` value before the flush loop reads the flag, so in that same operation every
delayed bet of the group is passed to the matching engine with `end_of_delay` cleared, in
index order, no bet of the group is left with `end_of_delay` set, and the group is stored
with `frozen = false` and `delay_bets = false`.  The index lists the delayed bets first
under unique ids, every delayed bet is on an existing market, and the matching engine
leaves delayed bets, markets and groups alone. -/
theorem C22_unfreeze_and_flush_in_one_update
    (place_bet : database → bet_object → database) (fuel : Nat)
    (trx_state : transaction_evaluation_state) (d : database)
    (op : betting_market_group_update_operation) (ev : betting_market_group_update_evaluator)
    (g : betting_market_group_object)
    (hev : betting_market_group_update_evaluator.do_evaluate trx_state d op = .ok ev)
    (hg : d.find_betting_market_group op.betting_market_group_id = some g)
    (hfreeze : op.freeze = some false) (hdl : op.delay_bets = some false)
    (hu : bet_ids_unique d.bets) (hdf : delayed_first d.bets)
    (hmk : delayed_bets_have_markets d)
    (hframe : place_bet_frame place_bet)
    (hfuel : d.bets.length ≤ fuel) :
    g.frozen = true ∧ g.delay_bets = true ∧
    ∃ s2 : apply_state,
      betting_market_group_update_evaluator.do_apply place_bet fuel ev d op = some s2 ∧
      s2.place_bet_calls =
        ((delayed_bets d.bets).filter (bet_in_group d op.betting_market_group_id)).map
          clear_end_of_delay ∧
      (∀ b ∈ s2.db.bets, bet_in_group d op.betting_market_group_id b = true →
        b.end_of_delay = none) ∧
      ∃ g2, s2.db.find_betting_market_group op.betting_market_group_id = some g2 ∧
        g2.frozen = false ∧ g2.delay_bets = false := by
  obtain ⟨g0, hg0, hevid, _, hfz, hdelay⟩ := group_update_do_evaluate_ok trx_state d op ev hev
  rw [hg] at hg0
  cases hg0
  have hgf : g.frozen = true := by
    have := hfz false hfreeze
    cases h : g.frozen
    · exact absurd h this
    · rfl
  have hgd : g.delay_bets = true := by
    have := hdelay false hdl
    cases h : g.delay_bets
    · exact absurd h this
    · rfl
  have hgev : d.find_betting_market_group ev._betting_market_group = some g := by
    rw [hevid]; exact hg
  obtain ⟨s2, g4, hrun, hfz4, htr, hdel, _, _, _⟩ :=
    group_update_flush_spec place_bet fuel trx_state d op ev g hev hg hdl hu hdf hmk
      (fun _ => hframe) hfuel
  rw [hfreeze] at hfz4
  have hfl : flushes d op g4 = bet_in_group d op.betting_market_group_id := by
    funext b
    simp [flushes, hfz4]
  rw [hfl] at htr hdel
  refine ⟨hgf, hgd, s2, hrun, htr, ?_, ?_⟩
  · intro b hb hbg
    cases hbe : b.end_of_delay with
    | none => rfl
    | some t =>
      have hbd : b ∈ delayed_bets s2.db.bets :=
        List.mem_filter.mpr ⟨hb, by rw [hbe]; rfl⟩
      rw [hdel] at hbd
      have := (List.mem_filter.mp hbd).2
      rw [hbg] at this
      exact Bool.noConfusion this
  · obtain ⟨g5, hg5, hf5, hd5⟩ := group_update_write_fields_flags ev d op g hgev
    rw [hfreeze] at hf5
    rw [hdl] at hd5
    refine ⟨g5, ?_, hf5, hd5⟩
    have hgr := group_update_do_apply_groups place_bet hframe fuel ev d op s2 hrun
    rw [← hevid]
    unfold database.find_betting_market_group at hg5 ⊢
    rw [hgr]
    exact hg5

/-- C22, witness: the theorem at `busy_db`, whose group 3 is frozen and delays bets, for the
update that unfreezes it and switches the delay off, with an engine that fills every bet it
is handed: the delayed bet 4 of group 3 is passed on, cleared. -/
theorem C22_unfreeze_and_flush_in_one_update_witness :
    betting_market_group_update_evaluator.do_evaluate ⟨true, []⟩ busy_db thaw_and_flush_update
      = .ok ⟨3, 0⟩ ∧
    ∃ s2 : apply_state,
      betting_market_group_update_evaluator.do_apply fill_completely 6 ⟨3, 0⟩ busy_db
        thaw_and_flush_update = some s2 ∧
      s2.place_bet_calls = [⟨4, 8, 3, ⟨5, 0⟩, 300, bet_type.lay, none⟩] ∧
      ∃ g2, s2.db.find_betting_market_group 3 = some g2 ∧
        g2.frozen = false ∧ g2.delay_bets = false := by
  have hu : bet_ids_unique busy_db.bets := by unfold bet_ids_unique; decide
  have hdf : delayed_first busy_db.bets := by unfold delayed_first; decide
  have hmk : delayed_bets_have_markets busy_db := by
    unfold delayed_bets_have_markets; decide
  refine ⟨rfl, ?_⟩
  obtain ⟨_, _, s2, hrun, htr, _, hgrp⟩ :=
    C22_unfreeze_and_flush_in_one_update fill_completely 6 ⟨true, []⟩ busy_db
      thaw_and_flush_update ⟨3, 0⟩ ⟨3, [], 0, 0, 0, true, true⟩ rfl rfl rfl rfl
      hu hdf hmk fill_completely_frame (by decide)
  exact ⟨s2, hrun, htr, hgrp⟩

end graphene.chain
